import Mathlib

/-!
# GHYSTL `base_string` : a shallow embedding of `containers_string/base_string.h`

The development follows the generic instantiation of the class template
(`char_traits<CharType>` as written in the primary template, lines 24-81).

* `size_type` is the 64-bit `size_t`: values are natural numbers below
  `SIZE_MOD`, and every `size_type` addition and subtraction is written with
  `add_sz` / `sub_sz`, which wrap modulo `SIZE_MOD`.
* A block of storage is the list of its cells.  A cell is `none` while it is
  still indeterminate (fresh from the allocator) and `some c` once written.
  A pointer into a block is the offset from the start of the block; a load or a
  store outside the block is undefined behaviour.
* Every operation returns a `Res`: a value, or the fault that ended it
  (`out_of_range` and `length_error` are the two exceptions the source throws,
  `undefined_behaviour` is a memory access or a pointer operation that C++
  leaves undefined, `fuel_exhausted` marks a loop model that ran out of steps).
* The debug-only `GHYSTL_DEBUG` assertions are compiled out (release build).
-/

namespace GHYSTL

/-! ## Machine integers and results -/

/-- The number of values of `size_type` (a 64-bit `size_t`). -/
def SIZE_MOD : Nat := 18446744073709551616

/-- The constant `npos = static_cast<size_type>(-1)` (line 309); also `max_size()` (line 398). -/
def npos : Nat := 18446744073709551615

/-- Addition of two `size_type` values. -/
def add_sz (a b : Nat) : Nat := (a + b) % SIZE_MOD

/-- Subtraction of two `size_type` values (both below `SIZE_MOD`). -/
def sub_sz (a b : Nat) : Nat := (a + SIZE_MOD - b) % SIZE_MOD

/-- The ways an operation can end without a value. -/
inductive Fault where
  | out_of_range
  | length_error
  | undefined_behaviour
  | fuel_exhausted
  deriving DecidableEq

/-- The outcome of an operation. -/
inductive Res (β : Type) where
  | ok (v : β)
  | fault (f : Fault)
  deriving DecidableEq

/-- Sequencing of outcomes: a fault ends the computation. -/
def Res.bind {β γ : Type} (r : Res β) (k : β → Res γ) : Res γ :=
  match r with
  | Res.ok v => k v
  | Res.fault f => Res.fault f

instance : Monad Res where
  pure := Res.ok
  bind := Res.bind

/-- A storage cell: `none` while indeterminate. -/
abbrev Cell (α : Type) := Option α

/-- Modelled from the spec: the allocation facility (`GHYSTL::allocator`, declared in
`algorithm.h`) is not part of the sources; the spec says it "supplies raw typed storage".
`allocate n` is a fresh block of `n` indeterminate cells. -/
def allocate {α : Type} (n : Nat) : List (Cell α) := List.replicate n none

/-- The read `*(p + i)` of a cell (to copy it). -/
def load {α : Type} (b : List (Cell α)) (i : Nat) : Res (Cell α) :=
  match b[i]? with
  | some c => Res.ok c
  | none => Res.fault Fault.undefined_behaviour

/-- The read `*(p + i)` of a character that is then compared: the cell must hold a value. -/
def load_value {α : Type} (b : List (Cell α)) (i : Nat) : Res α :=
  match b[i]? with
  | some (some v) => Res.ok v
  | _ => Res.fault Fault.undefined_behaviour

/-- The write `*(p + i) = c`. -/
def store {α : Type} (b : List (Cell α)) (i : Nat) (c : Cell α) : Res (List (Cell α)) :=
  if i < b.length then Res.ok (b.set i c) else Res.fault Fault.undefined_behaviour

/-- The read `*(str + j)` through a `const_pointer` to a run of characters. -/
def read_run {α : Type} (str : List α) (j : Nat) : Res α :=
  match str[j]? with
  | some v => Res.ok v
  | none => Res.fault Fault.undefined_behaviour

/-! ## `char_traits` (primary template, lines 24-81) -/

namespace char_traits

/-- Embeds `copy(dst, src, n)` (lines 48-55), `dst` and `src` in two different blocks:
`for(; n != 0; --n) *dst++ = *src++;`. -/
def copy {α : Type} (dst : List (Cell α)) (d : Nat) (src : List (Cell α)) (s : Nat) :
    Nat → Res (List (Cell α))
  | 0 => Res.ok dst
  | n + 1 => do
    let c ← load src s
    let dst1 ← store dst d c
    copy dst1 (d + 1) src (s + 1) n

/-- The first loop of `move` (lines 62-63): `for(; n != 0; --n, ++dst, ++src) *dst = *src;`
inside one block. -/
def move_up {α : Type} (b : List (Cell α)) (d s : Nat) : Nat → Res (List (Cell α))
  | 0 => Res.ok b
  | n + 1 => do
    let c ← load b s
    let b1 ← store b d c
    move_up b1 (d + 1) (s + 1) n

/-- The second loop of `move` (lines 66-69): `dst += n; src += n; for(; n != 0; --n) *--dst = *--src;`
inside one block; with `n + 1` steps left the pointers stand at `d + n` and `s + n`. -/
def move_down {α : Type} (b : List (Cell α)) (d s : Nat) : Nat → Res (List (Cell α))
  | 0 => Res.ok b
  | n + 1 => do
    let c ← load b (s + n)
    let b1 ← store b (d + n) c
    move_down b1 d s n

/-- Embeds `move(dst, src, n)` (lines 58-73) with `dst` and `src` in the same block. -/
def move {α : Type} (b : List (Cell α)) (d s n : Nat) : Res (List (Cell α)) :=
  if d < s then move_up b d s n
  else if s < d then move_down b d s n
  else Res.ok b

/-- Embeds `move(dst, src, n)` (lines 58-73) with `dst` and `src` in two different blocks.  The order of
two such pointers is unspecified; the ranges cannot overlap, and the model takes the first loop. -/
def move_blocks {α : Type} (dst : List (Cell α)) (d : Nat) (src : List (Cell α)) (s : Nat)
    (n : Nat) : Res (List (Cell α)) :=
  copy dst d src s n

/-- Embeds `fill(dst, ch, count)` (lines 75-80): `for(; count > 0; --count, ++dst) *dst = ch;`. -/
def fill {α : Type} (b : List (Cell α)) (d : Nat) (ch : α) : Nat → Res (List (Cell α))
  | 0 => Res.ok b
  | n + 1 => do
    let b1 ← store b d (some ch)
    fill b1 (d + 1) ch n

/-- The loop of `length` (lines 29-34) over a run read through `str`:
`for(; *str != char_type(0); ++str) ++len;`, with the pointer at offset `i`. -/
def length_loop {α : Type} [DecidableEq α] [Zero α] (str : List α) : Nat → Nat → Res Nat
  | 0, _ => Res.fault Fault.fuel_exhausted
  | fuel + 1, i => do
    let c ← read_run str i
    if c ≠ 0 then length_loop str fuel (i + 1) else pure (i % SIZE_MOD)

/-- Embeds `length(str)` (lines 29-34).  The scan leaves the run after `str.length` steps at the latest. -/
def length {α : Type} [DecidableEq α] [Zero α] (str : List α) : Res Nat :=
  length_loop str (str.length + 1) 0

/-- Embeds `compare(s1, s2, n)` (lines 36-45) with the pointers at offsets `o1`, `o2` of their
blocks: `for(; n != 0; --n, ++s1, ++s2)`, returning -1 or 1 at the first difference. -/
def compare {α : Type} [LinearOrder α] (s1 : List (Cell α)) (o1 : Nat) (s2 : List (Cell α))
    (o2 : Nat) : Nat → Res Int
  | 0 => Res.ok 0
  | n + 1 => do
    let a ← load_value s1 o1
    let b ← load_value s2 o2
    if a < b then pure (-1)
    else if b < a then pure 1
    else compare s1 (o1 + 1) s2 (o2 + 1) n

end char_traits

/-! ## The class `base_string` (lines 273-693) -/

/-- The three data members (lines 312-314).  `buffer_` is the block the pointer addresses, as
the list of its cells (its length is the number of elements that were allocated); a null
pointer is the block without cells. -/
structure base_string (α : Type) where
  buffer_ : List (Cell α)
  size_ : Nat
  cap_ : Nat
  deriving DecidableEq

/-- The member `STRING_INIT_SIZE` (line 299). -/
def STRING_INIT_SIZE : Nat := 35

namespace base_string

variable {α : Type}

/-- The elements `[begin(), end())` of the string, as cells. -/
def content (s : base_string α) : List (Cell α) := s.buffer_.take s.size_

/-- The state `s` is a string with the elements `S`: the first `size_` cells hold `S`, and
`size_ <= cap_ <= ` number of allocated cells `< 2^64`. -/
def represents (s : base_string α) (S : List α) : Prop :=
  s.size_ = S.length ∧ s.buffer_.take s.size_ = S.map some ∧
  s.size_ ≤ s.cap_ ∧ s.cap_ ≤ s.buffer_.length ∧ s.buffer_.length < SIZE_MOD

instance [DecidableEq α] (s : base_string α) (S : List α) : Decidable (represents s S) := by
  unfold represents; infer_instance

/-- Embeds `try_init()` (lines 1536-1550), the body of the default constructor; `alloc_ok` tells whether
`allocate(STRING_INIT_SIZE)` succeeded. -/
def try_init (alloc_ok : Bool) : base_string α :=
  if alloc_ok then { buffer_ := allocate STRING_INIT_SIZE, size_ := 0, cap_ := 0 }
  else { buffer_ := [], size_ := 0, cap_ := 0 }

/-- Embeds `init_from(src, pos, count)` (lines 1609-1618) on the members `nullptr, 0, 0`. -/
def init_from (src : List α) (pos count : Nat) : Res (base_string α) :=
  let init_size := max (add_sz count 1) STRING_INIT_SIZE
  do
    let b ← char_traits.copy (allocate init_size) 0 (src.map some) pos count
    pure { buffer_ := b, size_ := count, cap_ := init_size }

/-- The constructor `base_string(const_pointer str, size_type count)` (lines 341-343). -/
def of_run (str : List α) (count : Nat) : Res (base_string α) := init_from str 0 count

/-- Embeds `front()` (lines 434-437): `*begin()`. -/
def front (s : base_string α) : Res α := load_value s.buffer_ 0

/-- The value of `operator[](n) const` (lines 411-416).  For `n == size_` the source first writes
`value_type()` into that cell and returns it; the write must be inside the block.  The written
cell lies outside `[begin(), end())` and the callers modelled here only use the value. -/
def subscript [Zero α] (s : base_string α) (n : Nat) : Res α :=
  if n = s.size_ then do
    let _ ← store s.buffer_ n (some (0 : α))
    pure 0
  else load_value s.buffer_ n

/-- Embeds `reallocate(need)` (lines 1790-1798).  The block that `buffer_` addressed before is not
released by the source. -/
def reallocate (s : base_string α) (need : Nat) : Res (base_string α) :=
  let new_cap := max (add_sz s.cap_ need) (add_sz s.cap_ (s.cap_ / 2))
  do
    let new_buffer ← char_traits.move_blocks (allocate new_cap) 0 s.buffer_ 0 s.size_
    pure { buffer_ := new_buffer, size_ := s.size_, cap_ := new_cap }

/-- Embeds `reallocate_and_fill(pos, n, ch)` (lines 1801-1818); `pos` is the offset of the iterator in the
old block, the result carries the offset `r` of the returned iterator in the new block. -/
def reallocate_and_fill (s : base_string α) (pos n : Nat) (ch : α) : Res (base_string α × Nat) :=
  let r := pos
  let old_cap := s.cap_
  let new_cap := max (add_sz old_cap n) (add_sz old_cap (old_cap / 2))
  do
    let b1 ← char_traits.move_blocks (allocate new_cap) 0 s.buffer_ 0 r
    let b2 ← char_traits.fill b1 r ch n
    let b3 ← char_traits.move_blocks b2 (r + n) s.buffer_ r (sub_sz s.size_ r)
    pure ({ buffer_ := b3, size_ := add_sz s.size_ n, cap_ := new_cap }, r)

/-- Embeds `insert(const_iterator pos, value_type ch)` (lines 783-794); `pos` is the offset of the iterator
from `begin()`.  When `size_ == cap_` the result of `reallocate_and_fill` is discarded and `r`
keeps addressing the block that call released: `end() - r` then subtracts pointers into two
different blocks and `*r = ch` writes released storage, which is undefined. -/
def insert (s : base_string α) (pos : Nat) (ch : α) : Res (base_string α × Nat) :=
  let r := pos
  if s.size_ = s.cap_ then do
    let _ ← reallocate_and_fill s r 1 ch
    Res.fault Fault.undefined_behaviour
  else do
    let b ← char_traits.move s.buffer_ (r + 1) r (sub_sz s.size_ r)
    let b1 ← store b r (some ch)
    pure ({ buffer_ := b1, size_ := add_sz s.size_ 1, cap_ := s.cap_ }, r)

/-- Embeds `insert(const_iterator pos, size_type count, value_type ch)` (lines 797-818). -/
def insert_count (s : base_string α) (pos count : Nat) (ch : α) : Res (base_string α × Nat) :=
  let r := pos
  if count = 0 then pure (s, r)
  else if sub_sz s.cap_ s.size_ < count then reallocate_and_fill s r count ch
  else if pos = s.size_ then do
    let b ← char_traits.fill s.buffer_ s.size_ ch count
    pure ({ buffer_ := b, size_ := add_sz s.size_ count, cap_ := s.cap_ }, r)
  else do
    let b ← char_traits.move s.buffer_ (r + count) r count
    let b1 ← char_traits.fill b r ch count
    pure ({ buffer_ := b1, size_ := add_sz s.size_ count, cap_ := s.cap_ }, r)

/-- Embeds `append(size_type count, value_type ch)` (lines 848-860). -/
def append (s : base_string α) (count : Nat) (ch : α) : Res (base_string α) :=
  if s.size_ > sub_sz npos count then Res.fault Fault.length_error
  else do
    let s1 ← if sub_sz s.cap_ s.size_ < count then reallocate s count else pure s
    let b ← char_traits.fill s1.buffer_ s1.size_ ch count
    pure { buffer_ := b, size_ := add_sz s1.size_ count, cap_ := s1.cap_ }

/-- Embeds `erase(const_iterator pos)` (lines 896-906). -/
def erase (s : base_string α) (pos : Nat) : Res (base_string α × Nat) :=
  let r := pos
  do
    let b ← char_traits.move s.buffer_ r (pos + 1) (sub_sz (sub_sz s.size_ pos) 1)
    pure ({ buffer_ := b, size_ := sub_sz s.size_ 1, cap_ := s.cap_ }, r)

/-- Embeds `clear()` (line 496). -/
def clear (s : base_string α) : base_string α := { s with size_ := 0 }

/-- Embeds `erase(const_iterator first, const_iterator last)` (lines 908-923). -/
def erase_range (s : base_string α) (first last : Nat) : Res (base_string α × Nat) :=
  if first = 0 ∧ last = s.size_ then
    pure (clear s, (clear s).size_)
  else
    let n := sub_sz s.size_ last
    let r := first
    do
      let b ← char_traits.move s.buffer_ r last n
      pure ({ buffer_ := b, size_ := sub_sz s.size_ (sub_sz last first), cap_ := s.cap_ }, r)

/-- Embeds `resize(size_type count, value_type ch)` (lines 926-933). -/
def resize (s : base_string α) (count : Nat) (ch : α) : Res (base_string α) :=
  if count < s.size_ then do
    let e ← erase_range s count s.size_
    pure e.1
  else append s (sub_sz count s.size_) ch

/-- Embeds `replace_cstr(first, count1, str, count2)` (lines 1694-1724); `first` is the offset of the
iterator from `begin()`.  After `reallocate(add)` the source keeps using `first`, which still
addresses the block that `buffer_` pointed to before, while `end()` is already in the new block:
`end() - (first + count1)` subtracts pointers into two different blocks, which is undefined. -/
def replace_cstr (s : base_string α) (first count1 : Nat) (str : List α) (count2 : Nat) :
    Res (base_string α) :=
  let count1 := if sub_sz s.size_ first < count1 then sub_sz s.size_ first else count1
  if count1 < count2 then
    let add := sub_sz count2 count1
    if s.size_ > sub_sz npos add then Res.fault Fault.length_error
    else if add > sub_sz s.cap_ s.size_ then do
      let _ ← reallocate s add
      Res.fault Fault.undefined_behaviour
    else do
      let r := first
      let b ← char_traits.move s.buffer_ (r + count2) (first + count1)
        (sub_sz s.size_ (first + count1))
      let b1 ← char_traits.copy b r (str.map some) 0 count2
      pure { buffer_ := b1, size_ := add_sz s.size_ add, cap_ := s.cap_ }
  else do
    let r := first
    let b ← char_traits.move s.buffer_ (r + count2) (first + count1)
      (sub_sz s.size_ (first + count1))
    let b1 ← char_traits.copy b r (str.map some) 0 count2
    pure { buffer_ := b1, size_ := sub_sz s.size_ (sub_sz count1 count2), cap_ := s.cap_ }

/-- Embeds `replace(size_type pos, size_type count, const_pointer str, size_type count2)`
(lines 541-544). -/
def replace (s : base_string α) (pos count : Nat) (str : List α) (count2 : Nat) :
    Res (base_string α) :=
  if pos > s.size_ then Res.fault Fault.out_of_range
  else replace_cstr s pos count str count2

/-! ### Search (lines 1007-1238) -/

/-- The inner loop of the three `find` overloads for a run (lines 1036-1040, 1068-1072):
`for(; j < count; ++j) if(*(buffer_ + i + j) != *(str + j)) break;`; the value is the final `j`. -/
def find_inner [DecidableEq α] (s : base_string α) (str : List α) (count i : Nat) :
    Nat → Nat → Res Nat
  | 0, _ => Res.fault Fault.fuel_exhausted
  | fuel + 1, j =>
    if j < count then do
      let c ← load_value s.buffer_ (i + j)
      let p ← read_run str j
      if c ≠ p then pure j else find_inner s str count i fuel (add_sz j 1)
    else pure j

/-- The outer loop of `find(const_pointer, size_type, size_type)` (lines 1064-1078):
`for (auto i = pos; i <= left; ++i)`, then `return npos`. -/
def find_n_loop [DecidableEq α] (s : base_string α) (str : List α) (count left : Nat) :
    Nat → Nat → Res Nat
  | 0, _ => Res.fault Fault.fuel_exhausted
  | fuel + 1, i =>
    if i ≤ left then do
      let c ← load_value s.buffer_ i
      let p ← read_run str 0
      if c = p then do
        let j ← find_inner s str count i count 1
        if j = count then pure i else find_n_loop s str count left fuel (add_sz i 1)
      else find_n_loop s str count left fuel (add_sz i 1)
    else pure npos

/-- Embeds `find(const_pointer str, size_type pos, size_type count)` (lines 1052-1079). -/
def find_n [DecidableEq α] (s : base_string α) (str : List α) (pos count : Nat) : Res Nat :=
  if count = 0 then pure pos
  else if sub_sz s.size_ pos < count then pure npos
  else
    let left := sub_sz s.size_ count
    find_n_loop s str count left (s.size_ + 1) pos

/-- The inner loop of `find(const base_string&, size_type)` (lines 1100-1104):
`for (; j < count; ++j) if (*(buffer_ + i + j) != str[j]) break;`. -/
def find_str_inner [DecidableEq α] [Zero α] (s str : base_string α) (count i : Nat) :
    Nat → Nat → Res Nat
  | 0, _ => Res.fault Fault.fuel_exhausted
  | fuel + 1, j =>
    if j < count then do
      let c ← load_value s.buffer_ (i + j)
      let p ← subscript str j
      if c ≠ p then pure j else find_str_inner s str count i fuel (add_sz j 1)
    else pure j

/-- The outer loop of `find(const base_string&, size_type)` (lines 1095-1109). -/
def find_str_loop [DecidableEq α] [Zero α] (s str : base_string α) (count left : Nat) :
    Nat → Nat → Res Nat
  | 0, _ => Res.fault Fault.fuel_exhausted
  | fuel + 1, i =>
    if i ≤ left then do
      let c ← load_value s.buffer_ i
      let p ← front str
      if c = p then do
        let j ← find_str_inner s str count i count 1
        if j = count then pure i else find_str_loop s str count left fuel (add_sz i 1)
      else find_str_loop s str count left fuel (add_sz i 1)
    else pure npos

/-- Embeds `find(const base_string& str, size_type pos)` (lines 1082-1110). -/
def find_str [DecidableEq α] [Zero α] (s str : base_string α) (pos : Nat) : Res Nat :=
  let count := str.size_
  if count = 0 then pure pos
  else if sub_sz s.size_ pos < count then pure npos
  else
    let left := sub_sz s.size_ count
    find_str_loop s str count left (s.size_ + 1) pos

/-- The loop of `rfind(value_type, size_type)` (lines 1122-1128) and of `case 1` of
`rfind(const_pointer, size_type)` (lines 1146-1150): `for (auto i = pos; i != 0; --i)`, followed by
`return front() == ch ? 0 : npos;`. -/
def rfind_ch_loop [DecidableEq α] (s : base_string α) (ch : α) : Nat → Nat → Res Nat
  | 0, _ => Res.fault Fault.fuel_exhausted
  | fuel + 1, i =>
    if i ≠ 0 then do
      let c ← load_value s.buffer_ i
      if c = ch then pure i else rfind_ch_loop s ch fuel (sub_sz i 1)
    else do
      let f ← front s
      pure (if f = ch then 0 else npos)

/-- Embeds `rfind(value_type ch, size_type pos)` (lines 1113-1129). -/
def rfind_ch [DecidableEq α] (s : base_string α) (ch : α) (pos : Nat) : Res Nat :=
  let pos := if pos ≥ s.size_ then sub_sz s.size_ 1 else pos
  rfind_ch_loop s ch (pos + 1) pos

/-- The inner loop of the two `rfind` overloads for a run (lines 1157-1160, 1194-1198):
`for(; j < len; ++j) if(*(buffer_ + i - j) != *(str + len - j - 1)) break;`.  The offsets
`i - j` and `len - j - 1` are pointer arithmetic: below the start of the block they are undefined. -/
def rfind_inner [DecidableEq α] (s : base_string α) (str : List α) (len i : Nat) :
    Nat → Nat → Res Nat
  | 0, _ => Res.fault Fault.fuel_exhausted
  | fuel + 1, j =>
    if j < len then
      if j ≤ i then do
        let c ← load_value s.buffer_ (i - j)
        let p ← read_run str (len - j - 1)
        if c ≠ p then pure j else rfind_inner s str len i fuel (add_sz j 1)
      else Res.fault Fault.undefined_behaviour
    else pure j

/-- The outer loop of the two `rfind` overloads for a run (lines 1154-1165, 1189-1202):
`for(auto i = pos; i >= len - 1; --i)`, then `return npos`. -/
def rfind_loop [DecidableEq α] (s : base_string α) (str : List α) (len : Nat) :
    Nat → Nat → Res Nat
  | 0, _ => Res.fault Fault.fuel_exhausted
  | fuel + 1, i =>
    if i ≥ sub_sz len 1 then
      if 1 ≤ len then do
        let c ← load_value s.buffer_ i
        let p ← read_run str (len - 1)
        if c = p then do
          let j ← rfind_inner s str len i len 1
          if j = len then pure (add_sz (sub_sz i len) 1)
          else rfind_loop s str len fuel (sub_sz i 1)
        else rfind_loop s str len fuel (sub_sz i 1)
      else Res.fault Fault.undefined_behaviour
    else pure npos

/-- Embeds `rfind(const_pointer str, size_type pos)` (lines 1132-1172); `str` is the run the pointer
addresses, terminator included. -/
def rfind_cstr [DecidableEq α] [Zero α] (s : base_string α) (str : List α) (pos : Nat) :
    Res Nat :=
  let pos := if pos ≥ s.size_ then sub_sz s.size_ 1 else pos
  do
    let len ← char_traits.length str
    match len with
    | 0 => pure pos
    | 1 => do
      let p ← read_run str 0
      rfind_ch_loop s p (pos + 1) pos
    | _ => rfind_loop s str len (pos + 2) pos

/-- Embeds `rfind(const_pointer str, size_type pos, size_type count)` (lines 1175-1205). -/
def rfind_n [DecidableEq α] (s : base_string α) (str : List α) (pos count : Nat) : Res Nat :=
  if count = 0 then pure pos
  else
    let pos := if pos ≥ s.size_ then sub_sz s.size_ 1 else pos
    if pos < sub_sz count 1 then pure npos
    else rfind_loop s str count (pos + 2) pos

/-- The inner loop of `rfind(const base_string&, size_type)` (lines 1228-1232):
`for (; j < count; ++j) if (*(buffer_ + i - j) != str[count - j - 1]) break;`. -/
def rfind_str_inner [DecidableEq α] [Zero α] (s str : base_string α) (count i : Nat) :
    Nat → Nat → Res Nat
  | 0, _ => Res.fault Fault.fuel_exhausted
  | fuel + 1, j =>
    if j < count then
      if j ≤ i then do
        let c ← load_value s.buffer_ (i - j)
        let p ← subscript str (sub_sz (sub_sz count j) 1)
        if c ≠ p then pure j else rfind_str_inner s str count i fuel (add_sz j 1)
      else Res.fault Fault.undefined_behaviour
    else pure j

/-- The outer loop of `rfind(const base_string&, size_type)` (lines 1223-1237). -/
def rfind_str_loop [DecidableEq α] [Zero α] (s str : base_string α) (count : Nat) :
    Nat → Nat → Res Nat
  | 0, _ => Res.fault Fault.fuel_exhausted
  | fuel + 1, i =>
    if i ≥ sub_sz count 1 then do
      let c ← load_value s.buffer_ i
      let p ← subscript str (sub_sz count 1)
      if c = p then do
        let j ← rfind_str_inner s str count i count 1
        if j = count then pure (add_sz (sub_sz i count) 1)
        else rfind_str_loop s str count fuel (sub_sz i 1)
      else rfind_str_loop s str count fuel (sub_sz i 1)
    else pure npos

/-- Embeds `rfind(const base_string& str, size_type pos)` (lines 1208-1238). -/
def rfind_str [DecidableEq α] [Zero α] (s str : base_string α) (pos : Nat) : Res Nat :=
  let count := str.size_
  let pos := if pos ≥ s.size_ then sub_sz s.size_ 1 else pos
  if count = 0 then pure pos
  else if pos < sub_sz count 1 then pure npos
  else rfind_str_loop s str count (pos + 2) pos

/-- Embeds `find(const_pointer str, size_type pos)` (lines 1021-1048); `str` is the run the pointer
addresses, terminator included.  Its loop (lines 1034-1045) is the loop of the counted overload
with `len` for `count`. -/
def find_cstr [DecidableEq α] [Zero α] (s : base_string α) (str : List α) (pos : Nat) :
    Res Nat := do
  let len ← char_traits.length str
  if len = 0 then pure pos
  else if sub_sz s.size_ pos < len then pure npos
  else
    let left := sub_sz s.size_ len
    find_n_loop s str len left (s.size_ + 1) pos

/-! ### Character-set search and `count` (lines 1240-1531) -/

/-- The inner loop of `find_first_of` and `find_last_of` for a counted run (lines 1283-1287,
1422-1426): `for (size_type j = 0; j < count; ++j) if (ch == *(s + j)) return i;`.  The value
tells whether the `return` was taken. -/
def any_equal [DecidableEq α] (str : List α) (count : Nat) (ch : α) : Nat → Nat → Res Bool
  | 0, _ => Res.fault Fault.fuel_exhausted
  | fuel + 1, j =>
    if j < count then do
      let c ← read_run str j
      if ch = c then pure true else any_equal str count ch fuel (add_sz j 1)
    else pure false

/-- The outer loop of `find_first_of(const_pointer, size_type, size_type)` (lines 1280-1289):
`for (auto i = pos; i < size_; ++i)`, then `return npos`. -/
def find_first_of_n_loop [DecidableEq α] (s : base_string α) (str : List α) (count : Nat) :
    Nat → Nat → Res Nat
  | 0, _ => Res.fault Fault.fuel_exhausted
  | fuel + 1, i =>
    if i < s.size_ then do
      let ch ← load_value s.buffer_ i
      let hit ← any_equal str count ch (count + 1) 0
      if hit then pure i else find_first_of_n_loop s str count fuel (add_sz i 1)
    else pure npos

/-- Embeds `find_first_of(const_pointer s, size_type pos, size_type count)` (lines 1275-1290). -/
def find_first_of_n [DecidableEq α] (s : base_string α) (str : List α) (pos count : Nat) :
    Res Nat :=
  find_first_of_n_loop s str count (s.size_ + 1) pos

/-- The loop of `find_last_of(value_type, size_type)` (lines 1386-1391):
`for (auto i = size_ - 1; i >= pos; --i)`, then `return npos`. -/
def find_last_of_ch_loop [DecidableEq α] (s : base_string α) (ch : α) (pos : Nat) :
    Nat → Nat → Res Nat
  | 0, _ => Res.fault Fault.fuel_exhausted
  | fuel + 1, i =>
    if i ≥ pos then do
      let c ← load_value s.buffer_ i
      if c = ch then pure i else find_last_of_ch_loop s ch pos fuel (sub_sz i 1)
    else pure npos

/-- Embeds `find_last_of(value_type ch, size_type pos)` (lines 1381-1392); the declaration gives
`pos` the default 0 (line 609). -/
def find_last_of_ch [DecidableEq α] (s : base_string α) (ch : α) (pos : Nat) : Res Nat :=
  find_last_of_ch_loop s ch pos (s.size_ + 1) (sub_sz s.size_ 1)

/-- The outer loop of `find_last_of(const_pointer, size_type, size_type)` (lines 1419-1428). -/
def find_last_of_n_loop [DecidableEq α] (s : base_string α) (str : List α) (pos count : Nat) :
    Nat → Nat → Res Nat
  | 0, _ => Res.fault Fault.fuel_exhausted
  | fuel + 1, i =>
    if i ≥ pos then do
      let ch ← load_value s.buffer_ i
      let hit ← any_equal str count ch (count + 1) 0
      if hit then pure i else find_last_of_n_loop s str pos count fuel (sub_sz i 1)
    else pure npos

/-- Embeds `find_last_of(const_pointer s, size_type pos, size_type count)` (lines 1414-1429). -/
def find_last_of_n [DecidableEq α] (s : base_string α) (str : List α) (pos count : Nat) :
    Res Nat :=
  find_last_of_n_loop s str pos count (s.size_ + 1) (sub_sz s.size_ 1)

/-- The inner loop of `find_first_not_of` for a counted run (lines 1353-1357):
`for (size_type j = 0; j < count; ++j) if (ch != *(s + j)) return i;`.  The value tells whether
the `return` was taken. -/
def any_differs [DecidableEq α] (str : List α) (count : Nat) (ch : α) : Nat → Nat → Res Bool
  | 0, _ => Res.fault Fault.fuel_exhausted
  | fuel + 1, j =>
    if j < count then do
      let c ← read_run str j
      if ch ≠ c then pure true else any_differs str count ch fuel (add_sz j 1)
    else pure false

/-- The outer loop of `find_first_not_of(const_pointer, size_type, size_type)`
(lines 1350-1359). -/
def find_first_not_of_n_loop [DecidableEq α] (s : base_string α) (str : List α) (count : Nat) :
    Nat → Nat → Res Nat
  | 0, _ => Res.fault Fault.fuel_exhausted
  | fuel + 1, i =>
    if i < s.size_ then do
      let ch ← load_value s.buffer_ i
      let hit ← any_differs str count ch (count + 1) 0
      if hit then pure i else find_first_not_of_n_loop s str count fuel (add_sz i 1)
    else pure npos

/-- Embeds `find_first_not_of(const_pointer s, size_type pos, size_type count)`
(lines 1345-1360). -/
def find_first_not_of_n [DecidableEq α] (s : base_string α) (str : List α) (pos count : Nat) :
    Res Nat :=
  find_first_not_of_n_loop s str count (s.size_ + 1) pos

/-- The inner loop of `find_first_not_of(const base_string&, size_type)` (lines 1371-1375):
`for (size_type j = 0; j < str.size_; ++j) if (ch != str[j]) return i;`. -/
def any_differs_str [DecidableEq α] [Zero α] (str : base_string α) (ch : α) :
    Nat → Nat → Res Bool
  | 0, _ => Res.fault Fault.fuel_exhausted
  | fuel + 1, j =>
    if j < str.size_ then do
      let c ← subscript str j
      if ch ≠ c then pure true else any_differs_str str ch fuel (add_sz j 1)
    else pure false

/-- The outer loop of `find_first_not_of(const base_string&, size_type)` (lines 1368-1377). -/
def find_first_not_of_str_loop [DecidableEq α] [Zero α] (s str : base_string α) :
    Nat → Nat → Res Nat
  | 0, _ => Res.fault Fault.fuel_exhausted
  | fuel + 1, i =>
    if i < s.size_ then do
      let ch ← load_value s.buffer_ i
      let hit ← any_differs_str str ch (str.size_ + 1) 0
      if hit then pure i else find_first_not_of_str_loop s str fuel (add_sz i 1)
    else pure npos

/-- Embeds `find_first_not_of(const base_string& str, size_type pos)` (lines 1363-1378). -/
def find_first_not_of_str [DecidableEq α] [Zero α] (s str : base_string α) (pos : Nat) :
    Res Nat :=
  find_first_not_of_str_loop s str (s.size_ + 1) pos

/-- The loop of `count` (lines 1525-1530): `for (auto i = pos; i < size_; ++i)` with the counter
`n`, then `return n`. -/
def count_loop [DecidableEq α] (s : base_string α) (ch : α) : Nat → Nat → Nat → Res Nat
  | 0, _, _ => Res.fault Fault.fuel_exhausted
  | fuel + 1, i, n =>
    if i < s.size_ then do
      let c ← load_value s.buffer_ i
      if c = ch then count_loop s ch fuel (add_sz i 1) (add_sz n 1)
      else count_loop s ch fuel (add_sz i 1) n
    else pure n

/-- Embeds `count(value_type ch, size_type pos)` (lines 1518-1531). -/
def count [DecidableEq α] (s : base_string α) (ch : α) (pos : Nat) : Res Nat :=
  count_loop s ch (s.size_ + 1) pos 0

/-! ### `reverse`, `compare` and the free operators -/

/-- Modelled from the spec: `GHYSTL::iter_swap` (declared in `algorithm.h`) is not part of the
sources; it exchanges the two elements the iterators address (`tmp = *a; *a = *b; *b = tmp`). -/
def iter_swap (b : List (Cell α)) (i j : Nat) : Res (List (Cell α)) := do
  let ci ← load b i
  let cj ← load b j
  let b1 ← store b i cj
  store b1 j ci

/-- The loop of `reverse` (lines 992-993): `for(auto i = begin(), j = end(); i < j; )
GHYSTL::iter_swap(i++, --j);`. -/
def reverse_loop (b : List (Cell α)) : Nat → Nat → Nat → Res (List (Cell α))
  | 0, _, _ => Res.fault Fault.fuel_exhausted
  | fuel + 1, i, j =>
    if i < j then do
      let b1 ← iter_swap b i (j - 1)
      reverse_loop b1 fuel (i + 1) (j - 1)
    else pure b

/-- Embeds `reverse()` (lines 987-994). -/
def reverse (s : base_string α) : Res (base_string α) := do
  let b ← reverse_loop s.buffer_ (s.size_ + 1) 0 s.size_
  pure { buffer_ := b, size_ := s.size_, cap_ := s.cap_ }

/-- Embeds `compare_cstr(s1, n1, s2, n2)` (lines 1681-1691). -/
def compare_cstr [LinearOrder α] (s1 : List (Cell α)) (n1 : Nat) (s2 : List (Cell α))
    (n2 : Nat) : Res Int := do
  let rlen := min n1 n2
  let res ← char_traits.compare s1 0 s2 0 rlen
  if res ≠ 0 then pure res
  else if n1 < n2 then pure (-1)
  else if n1 > n2 then pure 1
  else pure 0

/-- Embeds `compare(const base_string& other)` (lines 936-940). -/
def compare [LinearOrder α] (s other : base_string α) : Res Int :=
  compare_cstr s.buffer_ s.size_ other.buffer_ other.size_

/-- Embeds `operator==` (lines 1956-1961): `lhs.size() == rhs.size() && lhs.compare(rhs) == 0`. -/
def op_eq [LinearOrder α] (lhs rhs : base_string α) : Res Bool :=
  if lhs.size_ = rhs.size_ then do
    let c ← compare lhs rhs
    pure (decide (c = 0))
  else pure false

/-- Embeds `operator!=` (lines 1963-1968): `lhs.size() != rhs.size() || lhs.compare(rhs) != 0`. -/
def op_ne [LinearOrder α] (lhs rhs : base_string α) : Res Bool :=
  if lhs.size_ ≠ rhs.size_ then pure true
  else do
    let c ← compare lhs rhs
    pure (decide (c ≠ 0))

/-- Embeds `operator<` (lines 1970-1975). -/
def op_lt [LinearOrder α] (lhs rhs : base_string α) : Res Bool := do
  let c ← compare lhs rhs
  pure (decide (c < 0))

/-- Embeds `operator<=` (lines 1977-1982). -/
def op_le [LinearOrder α] (lhs rhs : base_string α) : Res Bool := do
  let c ← compare lhs rhs
  pure (decide (c ≤ 0))

/-- Embeds `operator>` (lines 1984-1989). -/
def op_gt [LinearOrder α] (lhs rhs : base_string α) : Res Bool := do
  let c ← compare lhs rhs
  pure (decide (c > 0))

/-- Embeds `operator>=` (lines 1991-1996). -/
def op_ge [LinearOrder α] (lhs rhs : base_string α) : Res Bool := do
  let c ← compare lhs rhs
  pure (decide (c ≥ 0))

/-- Embeds `init_from(src, pos, count)` (lines 1609-1618) when `src` points into the block of
another string (the copy constructors). -/
def init_from_block (src : List (Cell α)) (pos count : Nat) : Res (base_string α) :=
  let init_size := max (add_sz count 1) STRING_INIT_SIZE
  do
    let b ← char_traits.copy (allocate init_size) 0 src pos count
    pure { buffer_ := b, size_ := count, cap_ := init_size }

/-- The copy constructor `base_string(const base_string& rhs)` (lines 350-352). -/
def copy_construct (rhs : base_string α) : Res (base_string α) :=
  init_from_block rhs.buffer_ 0 rhs.size_

/-- The move constructor `base_string(base_string&& rhs)` (lines 354-358): the new object, and
`rhs` as the constructor leaves it. -/
def move_construct (rhs : base_string α) : base_string α × base_string α :=
  (rhs, { buffer_ := [], size_ := 0, cap_ := 0 })

/-- Embeds `append(const base_string& str, size_type pos, size_type count)` (lines 862-878);
`str` is another object than `*this`. -/
def append_str (s str : base_string α) (pos count : Nat) : Res (base_string α) :=
  if s.size_ > sub_sz npos count then Res.fault Fault.length_error
  else if count = 0 then pure s
  else do
    let s1 ← if sub_sz s.cap_ s.size_ < count then reallocate s count else pure s
    let b ← char_traits.copy s1.buffer_ s1.size_ str.buffer_ pos count
    pure { buffer_ := b, size_ := add_sz s1.size_ count, cap_ := s1.cap_ }

/-- Embeds `append(const base_string& str)` (line 472). -/
def append_string (s str : base_string α) : Res (base_string α) :=
  append_str s str 0 str.size_

/-- Embeds `reallocate_and_copy(pos, first, last)` (lines 1821-1839); `[first, last)` are offsets
into the block `src` of another string. -/
def reallocate_and_copy (s : base_string α) (pos : Nat) (src : List (Cell α))
    (first last : Nat) : Res (base_string α × Nat) :=
  let r := pos
  let old_cap := s.cap_
  let n := sub_sz last first
  let new_cap := max (add_sz old_cap n) (add_sz old_cap (old_cap / 2))
  do
    let b1 ← char_traits.move_blocks (allocate new_cap) 0 s.buffer_ 0 r
    let b2 ← char_traits.move_blocks b1 r src first n
    let b3 ← char_traits.move_blocks b2 (r + n) s.buffer_ r (sub_sz s.size_ r)
    pure ({ buffer_ := b3, size_ := add_sz s.size_ n, cap_ := new_cap }, r)

/-- Embeds `insert(const_iterator pos, Iter first, Iter last)` (lines 821-845) for iterators into
the block `src` of another string. -/
def insert_range (s : base_string α) (pos : Nat) (src : List (Cell α)) (first last : Nat) :
    Res (base_string α × Nat) :=
  let r := pos
  let len := sub_sz last first
  if len = 0 then pure (s, r)
  else if sub_sz s.cap_ s.size_ < len then reallocate_and_copy s r src first last
  else if pos = s.size_ then do
    let b ← char_traits.copy s.buffer_ s.size_ src first len
    pure ({ buffer_ := b, size_ := add_sz s.size_ len, cap_ := s.cap_ }, r)
  else do
    let b ← char_traits.move s.buffer_ (r + len) r len
    let b1 ← char_traits.copy b r src first len
    pure ({ buffer_ := b1, size_ := add_sz s.size_ len, cap_ := s.cap_ }, r)

/-- Embeds `operator+(const base_string& lhs, const base_string& rhs)` (lines 1843-1851). -/
def op_plus (lhs rhs : base_string α) : Res (base_string α) := do
  let tmp ← copy_construct lhs
  append_string tmp rhs

/-- Embeds `operator+(base_string&& lhs, const base_string& rhs)` (lines 1889-1897). -/
def op_plus_move_left (lhs rhs : base_string α) : Res (base_string α) :=
  let tmp := (move_construct lhs).1
  append_string tmp rhs

/-- Embeds `operator+(const base_string& lhs, base_string&& rhs)` (lines 1899-1907):
`tmp.insert(tmp.begin(), lhs.begin(), lhs.end())`. -/
def op_plus_move_right (lhs rhs : base_string α) : Res (base_string α) :=
  let tmp := (move_construct rhs).1
  do
    let r ← insert_range tmp 0 lhs.buffer_ 0 lhs.size_
    pure r.1

/-- Embeds `operator+(base_string&& lhs, base_string&& rhs)` (lines 1909-1917). -/
def op_plus_move_both (lhs rhs : base_string α) : Res (base_string α) :=
  let tmp := (move_construct lhs).1
  append_string tmp rhs

/-! ### Element access, capacity and assignment (lines 354-449, 697-780, 1620-1661) -/

/-- Embeds `empty()` (line 390). -/
def empty (s : base_string α) : Bool := decide (s.size_ = 0)

/-- Embeds `capacity()` (line 396). -/
def capacity (s : base_string α) : Nat := s.cap_

/-- Embeds `max_size()` (line 398): `static_cast<size_type>(-1)`. -/
def max_size : Nat := npos

/-- Embeds `operator[](n)` (lines 404-409) with the members it leaves: for `n == size_` it writes
`value_type()` into the cell at `size_`, then it returns the element at `n`. -/
def subscript_state [Zero α] (s : base_string α) (n : Nat) : Res (α × base_string α) :=
  if n = s.size_ then do
    let b ← store s.buffer_ n (some (0 : α))
    pure (0, { buffer_ := b, size_ := s.size_, cap_ := s.cap_ })
  else do
    let v ← load_value s.buffer_ n
    pure (v, s)

/-- Embeds `at(n)` (lines 418-422): `THROW_OUT_OF_RANGE_IF(n >= size_, ...)`, then
`(*this)[n]`. -/
def at_index [Zero α] (s : base_string α) (n : Nat) : Res (α × base_string α) :=
  if n ≥ s.size_ then Res.fault Fault.out_of_range
  else subscript_state s n

/-- Embeds `to_raw_pointer()` (lines 1634-1642): `*(buffer_ + size_) = value_type();`, then
`return buffer_`.  The value is the object with the block the returned pointer addresses. -/
def to_raw_pointer [Zero α] (s : base_string α) : Res (base_string α) := do
  let b ← store s.buffer_ s.size_ (some (0 : α))
  pure { buffer_ := b, size_ := s.size_, cap_ := s.cap_ }

/-- Embeds `c_str()` (line 449). -/
def c_str [Zero α] (s : base_string α) : Res (base_string α) := to_raw_pointer s

/-- Embeds `data()` (line 448). -/
def data [Zero α] (s : base_string α) : Res (base_string α) := to_raw_pointer s

/-- Embeds `push_back(ch)` (line 462). -/
def push_back (s : base_string α) (ch : α) : Res (base_string α) := append s 1 ch

/-- Embeds `reserve(n)` (lines 760-772).  The block that `buffer_` addressed before is not
released by the source. -/
def reserve (s : base_string α) (n : Nat) : Res (base_string α) :=
  if s.cap_ < n then
    if n > max_size then Res.fault Fault.length_error
    else do
      let new_buffer ← char_traits.move_blocks (allocate n) 0 s.buffer_ 0 s.size_
      pure { buffer_ := new_buffer, size_ := s.size_, cap_ := n }
  else pure s

/-- Embeds `reinsert(size)` (lines 1644-1661); `char_traits::move` does not throw, so the
`catch` block is never entered. -/
def reinsert (s : base_string α) (size : Nat) : Res (base_string α) := do
  let new_buffer ← char_traits.move_blocks (allocate size) 0 s.buffer_ 0 size
  pure { buffer_ := new_buffer, size_ := size, cap_ := size }

/-- Embeds `shrink_to_fit()` (lines 774-780). -/
def shrink_to_fit (s : base_string α) : Res (base_string α) :=
  if s.size_ ≠ s.cap_ then reinsert s s.size_ else pure s

/-- Embeds `destroy_buffer()` (lines 1620-1632); the null pointer is the block without cells. -/
def destroy_buffer (s : base_string α) : base_string α :=
  if s.buffer_.isEmpty then s else { buffer_ := [], size_ := 0, cap_ := 0 }

/-- Embeds `operator=(base_string&& rhs)` (lines 709-722) for two different objects: the
members of `*this` and of `rhs` after the assignment. -/
def move_assign (self rhs : base_string α) : base_string α × base_string α :=
  let self1 := destroy_buffer self
  ({ self1 with buffer_ := rhs.buffer_, size_ := rhs.size_, cap_ := rhs.cap_ },
    { buffer_ := [], size_ := 0, cap_ := 0 })

/-- Embeds `replace_cstr(first, count1, str, count2)` (lines 1694-1724) when `str` points at
offset `off` into the block `src` of another string; see `replace_cstr` for the growth branch. -/
def replace_cstr_from (s : base_string α) (first count1 : Nat) (src : List (Cell α))
    (off count2 : Nat) : Res (base_string α) :=
  let count1 := if sub_sz s.size_ first < count1 then sub_sz s.size_ first else count1
  if count1 < count2 then
    let add := sub_sz count2 count1
    if s.size_ > sub_sz npos add then Res.fault Fault.length_error
    else if add > sub_sz s.cap_ s.size_ then do
      let _ ← reallocate s add
      Res.fault Fault.undefined_behaviour
    else do
      let r := first
      let b ← char_traits.move s.buffer_ (r + count2) (first + count1)
        (sub_sz s.size_ (first + count1))
      let b1 ← char_traits.copy b r src off count2
      pure { buffer_ := b1, size_ := add_sz s.size_ add, cap_ := s.cap_ }
  else do
    let r := first
    let b ← char_traits.move s.buffer_ (r + count2) (first + count1)
      (sub_sz s.size_ (first + count1))
    let b1 ← char_traits.copy b r src off count2
    pure { buffer_ := b1, size_ := sub_sz s.size_ (sub_sz count1 count2), cap_ := s.cap_ }

/-- Embeds `replace_fill(first, count1, count2, ch)` (lines 1726-1755).  As in `replace_cstr`,
after `reallocate(add)` the source goes on with `first`, which addresses the old block. -/
def replace_fill (s : base_string α) (first count1 count2 : Nat) (ch : α) :
    Res (base_string α) :=
  let count1 := if sub_sz s.size_ first < count1 then sub_sz s.size_ first else count1
  if count1 < count2 then
    let add := sub_sz count2 count1
    if s.size_ > sub_sz npos add then Res.fault Fault.length_error
    else if add > sub_sz s.cap_ s.size_ then do
      let _ ← reallocate s add
      Res.fault Fault.undefined_behaviour
    else do
      let r := first
      let b ← char_traits.move s.buffer_ (r + count2) (first + count1)
        (sub_sz s.size_ (first + count1))
      let b1 ← char_traits.fill b r ch count2
      pure { buffer_ := b1, size_ := add_sz s.size_ add, cap_ := s.cap_ }
  else do
    let r := first
    let b ← char_traits.move s.buffer_ (r + count2) (first + count1)
      (sub_sz s.size_ (first + count1))
    let b1 ← char_traits.fill b r ch count2
    pure { buffer_ := b1, size_ := sub_sz s.size_ (sub_sz count1 count2), cap_ := s.cap_ }

/-- Embeds `replace_copy(first, last, first2, last2)` (lines 1758-1787) for iterators
`[first2, last2)` into the block `src` of another string.  The growth test is
`size_ > cap_ - add` (line 1771); after `reallocate(add)` the source goes on with `first`, which
addresses the old block. -/
def replace_copy (s : base_string α) (first last : Nat) (src : List (Cell α))
    (first2 last2 : Nat) : Res (base_string α) :=
  let len1 := sub_sz last first
  let len2 := sub_sz last2 first2
  if len1 < len2 then
    let add := sub_sz len2 len1
    if s.size_ > sub_sz npos add then Res.fault Fault.length_error
    else if s.size_ > sub_sz s.cap_ add then do
      let _ ← reallocate s add
      Res.fault Fault.undefined_behaviour
    else do
      let r := first
      let b ← char_traits.move s.buffer_ (r + len2) (first + len1)
        (sub_sz s.size_ (first + len1))
      let b1 ← char_traits.copy b r src first2 len2
      pure { buffer_ := b1, size_ := add_sz s.size_ add, cap_ := s.cap_ }
  else do
    let r := first
    let b ← char_traits.move s.buffer_ (r + len2) (first + len1)
      (sub_sz s.size_ (first + len1))
    let b1 ← char_traits.copy b r src first2 len2
    pure { buffer_ := b1, size_ := sub_sz s.size_ (sub_sz len1 len2), cap_ := s.cap_ }

/-- Embeds `replace(size_type pos, size_type count, const base_string& str)` (lines 521-524);
`str` is another object than `*this`. -/
def replace_str (s : base_string α) (pos count : Nat) (str : base_string α) :
    Res (base_string α) :=
  if pos > s.size_ then Res.fault Fault.out_of_range
  else replace_cstr_from s pos count str.buffer_ 0 str.size_

/-- Embeds `replace(size_type pos, size_type count, const_pointer str)` (lines 531-534); `str` is
the run the pointer addresses, terminator included. -/
def replace_cptr [DecidableEq α] [Zero α] (s : base_string α) (pos count : Nat)
    (str : List α) : Res (base_string α) :=
  if pos > s.size_ then Res.fault Fault.out_of_range
  else do
    let n ← char_traits.length str
    replace_cstr s pos count str n

/-- Embeds `replace(size_type pos, size_type count, size_type count2, value_type ch)`
(lines 552-555). -/
def replace_count_ch (s : base_string α) (pos count count2 : Nat) (ch : α) :
    Res (base_string α) :=
  if pos > s.size_ then Res.fault Fault.out_of_range
  else replace_fill s pos count count2 ch

/-- Embeds `replace(size_type pos1, size_type count1, const base_string& str, size_type pos2,
size_type count2)` (lines 562-568); `str` is another object than `*this`. -/
def replace_sub (s : base_string α) (pos1 count1 : Nat) (str : base_string α)
    (pos2 count2 : Nat) : Res (base_string α) :=
  if pos1 > s.size_ ∨ pos2 > str.size_ then Res.fault Fault.out_of_range
  else replace_cstr_from s pos1 count1 str.buffer_ pos2 count2

/-- Embeds `replace(const_iterator first, const_iterator last, Iter first2, Iter last2)`
(lines 570-574). -/
def replace_range (s : base_string α) (first last : Nat) (src : List (Cell α))
    (first2 last2 : Nat) : Res (base_string α) :=
  replace_copy s first last src first2 last2

/-! ### Calls as the caller sees them -/

/-- The caller's view of a member call on an object with the members `s`, when the first
statement of the function is the guard `THROW_..._IF(cond, ...)` and `body` is what the remaining
statements do: the members of the object afterwards, and how the call ended.  When the guard
throws, no member has been written and the object still has the members `s`; when `body`
returns, the object has the members it returns; after a fault inside `body` the members are not
tracked. -/
def guarded (s : base_string α) (cond : Bool) (f : Fault) (body : Res (base_string α)) :
    Option (base_string α) × Res Unit :=
  if cond then (some s, Res.fault f)
  else
    match body with
    | Res.ok s1 => (some s1, Res.ok ())
    | Res.fault g => (none, Res.fault g)

/-- The call `append(count, ch)` (lines 848-860) as the caller sees it; the guard is line 852. -/
def append_call (s : base_string α) (count : Nat) (ch : α) :
    Option (base_string α) × Res Unit :=
  guarded s (decide (s.size_ > sub_sz npos count)) Fault.length_error (append s count ch)

/-- The call `replace(pos, count, str)` (lines 521-524) as the caller sees it. -/
def replace_str_call (s : base_string α) (pos count : Nat) (str : base_string α) :
    Option (base_string α) × Res Unit :=
  guarded s (decide (pos > s.size_)) Fault.out_of_range
    (replace_cstr_from s pos count str.buffer_ 0 str.size_)

/-- The call `replace(pos, count, str)` with a zero-terminated run (lines 531-534) as the caller
sees it. -/
def replace_cptr_call [DecidableEq α] [Zero α] (s : base_string α) (pos count : Nat)
    (str : List α) : Option (base_string α) × Res Unit :=
  guarded s (decide (pos > s.size_)) Fault.out_of_range
    (do
      let n ← char_traits.length str
      replace_cstr s pos count str n)

/-- The call `replace(pos, count, str, count2)` (lines 541-544) as the caller sees it. -/
def replace_call (s : base_string α) (pos count : Nat) (str : List α) (count2 : Nat) :
    Option (base_string α) × Res Unit :=
  guarded s (decide (pos > s.size_)) Fault.out_of_range (replace_cstr s pos count str count2)

/-- The call `replace(pos, count, count2, ch)` (lines 552-555) as the caller sees it. -/
def replace_count_ch_call (s : base_string α) (pos count count2 : Nat) (ch : α) :
    Option (base_string α) × Res Unit :=
  guarded s (decide (pos > s.size_)) Fault.out_of_range (replace_fill s pos count count2 ch)

/-- The call `replace(pos1, count1, str, pos2, count2)` (lines 562-568) as the caller sees it. -/
def replace_sub_call (s : base_string α) (pos1 count1 : Nat) (str : base_string α)
    (pos2 count2 : Nat) : Option (base_string α) × Res Unit :=
  guarded s (decide (pos1 > s.size_ ∨ pos2 > str.size_)) Fault.out_of_range
    (replace_cstr_from s pos1 count1 str.buffer_ pos2 count2)

/-! ### `find_last_not_of` for one character, a constructor, and a run of `push_back` calls -/

/-- The loop of `find_last_not_of(value_type, size_type)` (lines 1455-1459):
`for (auto i = size_ - 1; i >= pos; --i)`, then `return npos`. -/
def find_last_not_of_ch_loop [DecidableEq α] (s : base_string α) (ch : α) (pos : Nat) :
    Nat → Nat → Res Nat
  | 0, _ => Res.fault Fault.fuel_exhausted
  | fuel + 1, i =>
    if i ≥ pos then do
      let c ← load_value s.buffer_ i
      if c ≠ ch then pure i else find_last_not_of_ch_loop s ch pos fuel (sub_sz i 1)
    else pure npos

/-- Embeds `find_last_not_of(value_type ch, size_type pos)` (lines 1450-1461); the declaration
gives `pos` the default 0 (line 615). -/
def find_last_not_of_ch [DecidableEq α] (s : base_string α) (ch : α) (pos : Nat) : Res Nat :=
  find_last_not_of_ch_loop s ch pos (s.size_ + 1) (sub_sz s.size_ 1)

/-- The constructor `base_string(const_pointer str)` (lines 337-339); `str` is the run the
pointer addresses, terminator included. -/
def of_cstr [DecidableEq α] [Zero α] (str : List α) : Res (base_string α) := do
  let n ← char_traits.length str
  init_from str 0 n

/-- The calls `push_back(c1); ...; push_back(ck)` (line 462), in this order, on the object with
the members `s`. -/
def push_back_all (s : base_string α) : List α → Res (base_string α)
  | [] => pure s
  | c :: cs => do
    let s1 ← push_back s c
    push_back_all s1 cs

end base_string

/-! ## Vocabulary of the claims -/

/-- The pattern `P` occurs in `S` at index `i`: `i + |P| <= |S|` and `S[i..i+|P|)` equals `P`
element by element. -/
def occurs_at {α : Type} (S P : List α) (i : Nat) : Prop :=
  i + P.length ≤ S.length ∧ (S.drop i).take P.length = P

instance {α : Type} [DecidableEq α] (S P : List α) (i : Nat) : Decidable (occurs_at S P i) := by
  unfold occurs_at; infer_instance

/-- The element of `S` at index `k` exists and is a member of the character set `C`. -/
def member_at {α : Type} (S C : List α) (k : Nat) : Prop :=
  match S[k]? with
  | some c => c ∈ C
  | none => False

instance {α : Type} [DecidableEq α] (S C : List α) (k : Nat) : Decidable (member_at S C k) := by
  unfold member_at; split <;> infer_instance

/-- The lists `A` and `B` agree below some index `k` of both, and there `A` has the smaller
element: the first differing index lies within the shared length and `A[k] < B[k]`. -/
def first_difference_less {α : Type} [LT α] (A B : List α) : Prop :=
  ∃ k, k < A.length ∧ k < B.length ∧ (∀ t, t < k → A[t]? = B[t]?) ∧
    ∃ x y, A[k]? = some x ∧ B[k]? = some y ∧ x < y

/-- The list `A` is a proper prefix of `B`. -/
def proper_initial_segment {α : Type} (A B : List α) : Prop :=
  A.length < B.length ∧ ∀ t, t < A.length → A[t]? = B[t]?

/-- The list `A` is lexicographically smaller than `B`. -/
def lex_smaller {α : Type} [LT α] (A B : List α) : Prop :=
  first_difference_less A B ∨ proper_initial_segment A B

/-! ## Concrete strings used to evaluate the code -/

/-- The zero character `char_type(0)` of `Char`. -/
instance : Zero Char := ⟨Char.ofNat 0⟩

namespace examples

/-- The state after the default constructor (allocation succeeded): 35 cells, `size_ = cap_ = 0`. -/
def default_constructed : base_string Char := base_string.try_init true

/-- The state of `base_string("", 0)`: 35 cells, `size_ = 0`, `cap_ = 35`. -/
def empty_35 : base_string Char :=
  { buffer_ := List.replicate 35 none, size_ := 0, cap_ := 35 }

/-- The state of `base_string("abcd", 4)`. -/
def abcd : base_string Char :=
  { buffer_ := [some 'a', some 'b', some 'c', some 'd'] ++ List.replicate 31 none,
    size_ := 4, cap_ := 35 }

/-- The state of `base_string("abcab", 5)`. -/
def abcab : base_string Char :=
  { buffer_ := [some 'a', some 'b', some 'c', some 'a', some 'b'] ++ List.replicate 30 none,
    size_ := 5, cap_ := 35 }

/-- The state of `base_string("ab", 2)`. -/
def ab : base_string Char :=
  { buffer_ := [some 'a', some 'b'] ++ List.replicate 33 none, size_ := 2, cap_ := 35 }

/-- The state of `base_string("hello world", 11)`. -/
def hello_world : base_string Char :=
  { buffer_ := "hello world".toList.map some ++ List.replicate 24 none, size_ := 11, cap_ := 35 }

/-- The state of `base_string("world", 5)`. -/
def world : base_string Char :=
  { buffer_ := "world".toList.map some ++ List.replicate 30 none, size_ := 5, cap_ := 35 }

/-- The state of `base_string("abc", 3)`. -/
def abc : base_string Char :=
  { buffer_ := [some 'a', some 'b', some 'c'] ++ List.replicate 32 none, size_ := 3, cap_ := 35 }

/-- The state of `base_string("a", 1)`. -/
def a_string : base_string Char :=
  { buffer_ := [some 'a'] ++ List.replicate 34 none, size_ := 1, cap_ := 35 }

/-- The state of `base_string("bcd", 3)`. -/
def bcd : base_string Char :=
  { buffer_ := [some 'b', some 'c', some 'd'] ++ List.replicate 32 none, size_ := 3, cap_ := 35 }

end examples

/-! # Lemmas

From here on the file only holds theorems: first the facts about the memory primitives and the
loops, then one theorem per claim. -/

/-! ## Basic facts -/

@[simp] theorem Res.bind_eq {β γ : Type} (r : Res β) (k : β → Res γ) : (r >>= k) = Res.bind r k := rfl

@[simp] theorem Res.pure_eq {β : Type} (v : β) : (pure v : Res β) = Res.ok v := rfl

@[simp] theorem Res.ok_bind {β γ : Type} (v : β) (k : β → Res γ) : Res.bind (Res.ok v) k = k v := rfl

@[simp] theorem Res.fault_bind {β γ : Type} (f : Fault) (k : β → Res γ) :
    Res.bind (Res.fault f) k = Res.fault f := rfl

theorem sub_sz_eq {a b : Nat} (hb : b ≤ a) (ha : a < SIZE_MOD) : sub_sz a b = a - b := by
  unfold sub_sz SIZE_MOD at *
  omega

theorem add_sz_eq {a b : Nat} (h : a + b < SIZE_MOD) : add_sz a b = a + b := by
  unfold add_sz SIZE_MOD at *
  omega

theorem load_eq {α : Type} {b : List (Cell α)} {i : Nat} (h : i < b.length) :
    load b i = Res.ok b[i] := by
  simp [load, List.getElem?_eq_getElem h]

theorem store_eq {α : Type} {b : List (Cell α)} {i : Nat} (c : Cell α) (h : i < b.length) :
    store b i c = Res.ok (b.set i c) := by
  simp [store, h]

namespace char_traits

theorem fill_spec {α : Type} (ch : α) (n : Nat) : ∀ (b : List (Cell α)) (d : Nat),
    d + n ≤ b.length →
    ∃ r, fill b d ch n = Res.ok r ∧ r.length = b.length ∧
      ∀ k, r[k]? = if d ≤ k ∧ k < d + n then some (some ch) else b[k]? := by
  induction n with
  | zero =>
    intro b d _
    exact ⟨b, rfl, rfl, fun k => by rw [if_neg (by omega)]⟩
  | succ n ih =>
    intro b d h
    obtain ⟨r, hr, hlen, hget⟩ := ih (b.set d (some ch)) (d + 1) (by simp; omega)
    refine ⟨r, ?_, by simpa using hlen, fun k => ?_⟩
    · simp [fill, store_eq _ (show d < b.length by omega), hr]
    · rw [hget k, List.getElem?_set]
      by_cases h1 : d = k
      · subst h1
        simp
        omega
      · simp [h1]
        by_cases h2 : d + 1 ≤ k ∧ k < d + 1 + n
        · rw [if_pos h2, if_pos (by omega)]
        · rw [if_neg h2, if_neg (by omega)]

theorem copy_spec {α : Type} (src : List (Cell α)) (n : Nat) : ∀ (dst : List (Cell α)) (d s : Nat),
    d + n ≤ dst.length → s + n ≤ src.length →
    ∃ r, copy dst d src s n = Res.ok r ∧ r.length = dst.length ∧
      ∀ k, r[k]? = if d ≤ k ∧ k < d + n then src[s + (k - d)]? else dst[k]? := by
  induction n with
  | zero =>
    intro dst d s _ _
    exact ⟨dst, rfl, rfl, fun k => by rw [if_neg (by omega)]⟩
  | succ n ih =>
    intro dst d s hd hs
    obtain ⟨r, hr, hlen, hget⟩ := ih (dst.set d src[s]) (d + 1) (s + 1) (by simp; omega) (by omega)
    refine ⟨r, ?_, by simpa using hlen, fun k => ?_⟩
    · simp [copy, load_eq (show s < src.length by omega),
        store_eq _ (show d < dst.length by omega), hr]
    · rw [hget k, List.getElem?_set]
      by_cases h1 : d = k
      · subst h1
        rw [if_neg (by omega), if_pos rfl, if_pos (by omega), if_pos (by omega)]
        simp
      · rw [if_neg h1]
        by_cases h2 : d + 1 ≤ k ∧ k < d + 1 + n
        · rw [if_pos h2, if_pos (by omega)]
          congr 1
          omega
        · rw [if_neg h2, if_neg (by omega)]

theorem move_up_spec {α : Type} (n : Nat) : ∀ (b : List (Cell α)) (d s : Nat),
    d ≤ s → s + n ≤ b.length →
    ∃ r, move_up b d s n = Res.ok r ∧ r.length = b.length ∧
      ∀ k, r[k]? = if d ≤ k ∧ k < d + n then b[s + (k - d)]? else b[k]? := by
  induction n with
  | zero =>
    intro b d s _ _
    exact ⟨b, rfl, rfl, fun k => by rw [if_neg (by omega)]⟩
  | succ n ih =>
    intro b d s hds hs
    obtain ⟨r, hr, hlen, hget⟩ := ih (b.set d b[s]) (d + 1) (s + 1) (by omega) (by simp; omega)
    refine ⟨r, ?_, by simpa using hlen, fun k => ?_⟩
    · simp [move_up, load_eq (show s < b.length by omega),
        store_eq _ (show d < b.length by omega), hr]
    · rw [hget k]
      by_cases h1 : d = k
      · subst h1
        rw [if_neg (by omega), if_pos (by omega), List.getElem?_set, if_pos rfl, if_pos (by omega)]
        simp
      · by_cases h2 : d + 1 ≤ k ∧ k < d + 1 + n
        · rw [if_pos h2, if_pos (by omega), List.getElem?_set, if_neg (by omega)]
          congr 1
          omega
        · rw [if_neg h2, if_neg (by omega), List.getElem?_set, if_neg h1]

theorem move_down_spec {α : Type} (n : Nat) : ∀ (b : List (Cell α)) (d s : Nat),
    s ≤ d → d + n ≤ b.length →
    ∃ r, move_down b d s n = Res.ok r ∧ r.length = b.length ∧
      ∀ k, r[k]? = if d ≤ k ∧ k < d + n then b[s + (k - d)]? else b[k]? := by
  induction n with
  | zero =>
    intro b d s _ _
    exact ⟨b, rfl, rfl, fun k => by rw [if_neg (by omega)]⟩
  | succ n ih =>
    intro b d s hds hd
    have hsn : s + n < b.length := by omega
    obtain ⟨r, hr, hlen, hget⟩ := ih (b.set (d + n) b[s + n]) d s hds (by simp; omega)
    refine ⟨r, ?_, by simpa using hlen, fun k => ?_⟩
    · simp [move_down, load_eq (show s + n < b.length by omega),
        store_eq _ (show d + n < b.length by omega), hr]
    · rw [hget k]
      by_cases h1 : d + n = k
      · subst h1
        rw [if_neg (by omega), if_pos (by omega), List.getElem?_set, if_pos rfl, if_pos (by omega)]
        rw [List.getElem?_eq_getElem (show s + (d + n - d) < b.length by omega)]
        congr 2
        omega
      · by_cases h2 : d ≤ k ∧ k < d + n
        · rw [if_pos h2, if_pos (by omega), List.getElem?_set, if_neg (by omega)]
        · rw [if_neg h2, if_neg (by omega), List.getElem?_set, if_neg h1]

theorem move_spec {α : Type} (b : List (Cell α)) (d s n : Nat)
    (hd : d + n ≤ b.length) (hs : s + n ≤ b.length) :
    ∃ r, move b d s n = Res.ok r ∧ r.length = b.length ∧
      ∀ k, r[k]? = if d ≤ k ∧ k < d + n then b[s + (k - d)]? else b[k]? := by
  unfold move
  by_cases h1 : d < s
  · rw [if_pos h1]
    exact move_up_spec n b d s (by omega) hs
  · rw [if_neg h1]
    by_cases h2 : s < d
    · rw [if_pos h2]
      exact move_down_spec n b d s (by omega) hd
    · rw [if_neg h2]
      have : s = d := by omega
      subst this
      refine ⟨b, rfl, rfl, fun k => ?_⟩
      by_cases h3 : s ≤ k ∧ k < s + n
      · rw [if_pos h3]
        congr 1
        omega
      · rw [if_neg h3]

end char_traits

namespace base_string
variable {α : Type}

theorem represents_getElem? {s : base_string α} {S : List α} (hs : represents s S) {k : Nat}
    (hk : k < s.size_) : s.buffer_[k]? = Option.map some S[k]? := by
  have h := congrArg (fun l => l[k]?) hs.2.1
  simpa [List.getElem?_take, hk] using h

theorem represents_of_getElem? {s : base_string α} {S : List α} (h1 : s.size_ = S.length)
    (h2 : ∀ k, k < s.size_ → s.buffer_[k]? = Option.map some S[k]?)
    (h3 : s.size_ ≤ s.cap_) (h4 : s.cap_ ≤ s.buffer_.length) (h5 : s.buffer_.length < SIZE_MOD) :
    represents s S := by
  refine ⟨h1, ?_, h3, h4, h5⟩
  apply List.ext_getElem?
  intro k
  rw [List.getElem?_take, List.getElem?_map]
  by_cases hk : k < s.size_
  · rw [if_pos hk, h2 k hk]
  · rw [if_neg hk, List.getElem?_eq_none (by omega)]
    rfl

theorem erase_range_spec (s : base_string α) (S : List α) (first last : Nat)
    (hs : represents s S) (h1 : first ≤ last) (h2 : last ≤ S.length) :
    ∃ s', erase_range s first last = Res.ok (s', first) ∧
      represents s' (S.take first ++ S.drop last) ∧
      s'.size_ = s.size_ - (last - first) ∧ s'.cap_ = s.cap_ := by
  obtain ⟨hsz, hc, hcap, hlen, hmod⟩ := hs
  unfold erase_range
  by_cases hall : first = 0 ∧ last = s.size_
  · obtain ⟨hf, hl⟩ := hall
    subst hf
    refine ⟨clear s, by simp [hl, clear], ?_, by simp [clear]; omega, rfl⟩
    have : S.drop last = [] := List.drop_eq_nil_of_le (by omega)
    simp only [List.take_zero, List.nil_append, this]
    exact ⟨rfl, by simp [clear], Nat.zero_le _, hlen, hmod⟩
  · rw [if_neg hall]
    have e1 : sub_sz s.size_ last = s.size_ - last := sub_sz_eq (by omega) (by omega)
    have e2 : sub_sz last first = last - first := sub_sz_eq h1 (by omega)
    have e3 : sub_sz s.size_ (last - first) = s.size_ - (last - first) :=
      sub_sz_eq (by omega) (by omega)
    obtain ⟨r, hr, hrl, hrg⟩ := char_traits.move_spec s.buffer_ first last (s.size_ - last)
      (by omega) (by omega)
    simp only [e1, e2, e3, hr, Res.bind_eq, Res.ok_bind, Res.pure_eq]
    refine ⟨_, rfl, ?_, rfl, rfl⟩
    apply represents_of_getElem?
    · simp [List.length_take, List.length_drop]
      omega
    · intro k hk
      simp only at hk
      simp only
      rw [hrg k, List.getElem?_append, List.length_take, List.getElem?_take, List.getElem?_drop]
      have hmin : min first S.length = first := by omega
      rw [hmin]
      by_cases hkf : k < first
      · rw [if_neg (by omega), if_pos hkf, if_pos hkf]
        exact represents_getElem? ⟨hsz, hc, hcap, hlen, hmod⟩ (by omega)
      · rw [if_pos (by omega), if_neg hkf]
        exact represents_getElem? ⟨hsz, hc, hcap, hlen, hmod⟩ (by omega)
    · simp only
      omega
    · simp only
      omega
    · simp only
      omega


theorem allocate_length (n : Nat) : (allocate n : List (Cell α)).length = n := by
  simp [allocate]

theorem reallocate_spec (s : base_string α) (S : List α) (need : Nat)
    (hs : represents s S) (hneed : s.cap_ + need < SIZE_MOD) :
    ∃ s', reallocate s need = Res.ok s' ∧ represents s' S ∧
      s'.cap_ = max (s.cap_ + need) (add_sz s.cap_ (s.cap_ / 2)) ∧
      s'.buffer_.length = s'.cap_ := by
  obtain ⟨hsz, hc, hcap, hlen, hmod⟩ := hs
  have e1 : add_sz s.cap_ need = s.cap_ + need := add_sz_eq hneed
  have e2 : add_sz s.cap_ (s.cap_ / 2) < SIZE_MOD := Nat.mod_lt _ (by decide)
  obtain ⟨r, hr, hrl, hrg⟩ := char_traits.copy_spec s.buffer_ s.size_
    (allocate (max (s.cap_ + need) (add_sz s.cap_ (s.cap_ / 2)))) 0 0
    (by rw [allocate_length]; omega) (by omega)
  rw [allocate_length] at hrl
  unfold reallocate char_traits.move_blocks
  simp only [e1, hr, Res.bind_eq, Res.ok_bind, Res.pure_eq]
  refine ⟨_, rfl, ?_, rfl, hrl⟩
  apply represents_of_getElem?
  · exact hsz
  · intro k hk
    simp only at hk
    simp only
    rw [hrg k, if_pos (by omega)]
    simpa using represents_getElem? ⟨hsz, hc, hcap, hlen, hmod⟩ hk
  · simp only
    omega
  · simp only
    omega
  · simp only
    omega

theorem append_spec (s : base_string α) (S : List α) (n : Nat) (ch : α)
    (hs : represents s S) (hn : n ≤ s.cap_ - s.size_ ∨ s.cap_ + n < SIZE_MOD) :
    ∃ s', append s n ch = Res.ok s' ∧ represents s' (S ++ List.replicate n ch) ∧
      s'.cap_ = (if n ≤ s.cap_ - s.size_ then s.cap_
        else max (s.cap_ + n) (add_sz s.cap_ (s.cap_ / 2))) := by
  have hs0 := hs
  obtain ⟨hsz, hc, hcap, hlen, hmod⟩ := hs
  have hnlt : n < SIZE_MOD := by omega
  have e0 : sub_sz npos n = npos - n := sub_sz_eq (by unfold npos SIZE_MOD at *; omega) (by decide)
  have e1 : sub_sz s.cap_ s.size_ = s.cap_ - s.size_ := sub_sz_eq hcap (by omega)
  have hle : ¬ s.size_ > npos - n := by unfold npos SIZE_MOD at *; omega
  unfold append
  rw [e0, if_neg hle, e1]
  -- the state the fill works on
  have key : ∀ s1 : base_string α, represents s1 S → s1.size_ + n ≤ s1.cap_ →
      ∃ s', ((char_traits.fill s1.buffer_ s1.size_ ch n).bind fun b =>
          Res.ok { buffer_ := b, size_ := add_sz s1.size_ n, cap_ := s1.cap_ }) = Res.ok s' ∧
        represents s' (S ++ List.replicate n ch) ∧ s'.cap_ = s1.cap_ := by
    intro s1 h1 hroom
    obtain ⟨gsz, gc, gcap, glen, gmod⟩ := h1
    obtain ⟨r, hr, hrl, hrg⟩ := char_traits.fill_spec ch n s1.buffer_ s1.size_ (by omega)
    have e2 : add_sz s1.size_ n = s1.size_ + n := add_sz_eq (by omega)
    rw [hr, e2]
    refine ⟨_, rfl, ?_, rfl⟩
    apply represents_of_getElem?
    · simp [gsz]
    · intro k hk
      simp only at hk
      simp only
      rw [hrg k, List.getElem?_append, List.getElem?_replicate]
      by_cases hks : k < s1.size_
      · rw [if_neg (by omega), if_pos (by omega)]
        exact represents_getElem? ⟨gsz, gc, gcap, glen, gmod⟩ hks
      · rw [if_pos (by omega), if_neg (by omega), if_pos (by omega)]
        rfl
    · simp only
      omega
    · simp only
      omega
    · simp only
      omega
  by_cases hg : s.cap_ - s.size_ < n
  · rw [if_pos hg, if_neg (by omega)]
    have hneed : s.cap_ + n < SIZE_MOD := by omega
    obtain ⟨s1, h1, h1r, h1c, _⟩ := reallocate_spec s S n hs0 hneed
    obtain ⟨s', h', hr', hc'⟩ := key s1 h1r (by rw [h1r.1, ← hsz, h1c]; omega)
    refine ⟨s', ?_, hr', by rw [hc', h1c]⟩
    simpa [h1] using h'
  · rw [if_neg hg, if_pos (by omega)]
    obtain ⟨s', h', hr', hc'⟩ := key s hs0 (by omega)
    exact ⟨s', by simpa using h', hr', hc'⟩

theorem resize_spec (s : base_string α) (S : List α) (n : Nat) (ch : α)
    (hs : represents s S) (hn : n ≤ s.cap_ ∨ s.cap_ + (n - s.size_) < SIZE_MOD) :
    ∃ s', resize s n ch = Res.ok s' ∧
      represents s' (S.take n ++ List.replicate (n - S.length) ch) := by
  have hs0 := hs
  obtain ⟨hsz, hc, hcap, hlen, hmod⟩ := hs
  unfold resize
  by_cases hlt : n < s.size_
  · rw [if_pos hlt]
    obtain ⟨s', h', hr', _, _⟩ := erase_range_spec s S n s.size_ hs0 (by omega) (by omega)
    refine ⟨s', by simp [h'], ?_⟩
    have e1 : S.drop s.size_ = [] := List.drop_eq_nil_of_le (by omega)
    have e2 : n - S.length = 0 := by omega
    rw [e1] at hr'
    rw [e2]
    simpa using hr'
  · rw [if_neg hlt]
    have e1 : sub_sz n s.size_ = n - s.size_ := sub_sz_eq (by omega) (by omega)
    rw [e1]
    obtain ⟨s', h', hr', _⟩ := append_spec s S (n - s.size_) ch hs0 (by omega)
    refine ⟨s', h', ?_⟩
    have e2 : S.take n = S := List.take_of_length_le (by omega)
    rw [e2, ← hsz]
    exact hr'

end base_string

theorem occurs_at_iff {α : Type} (S P : List α) (i : Nat) :
    occurs_at S P i ↔ i + P.length ≤ S.length ∧ ∀ t, t < P.length → S[i + t]? = P[t]? := by
  unfold occurs_at
  constructor
  · rintro ⟨h1, h2⟩
    refine ⟨h1, fun t ht => ?_⟩
    have h := congrArg (fun l => l[t]?) h2
    simpa [List.getElem?_take, ht, List.getElem?_drop] using h
  · rintro ⟨h1, h2⟩
    refine ⟨h1, ?_⟩
    apply List.ext_getElem?
    intro t
    rw [List.getElem?_take, List.getElem?_drop]
    by_cases ht : t < P.length
    · rw [if_pos ht, h2 t ht]
    · rw [if_neg ht, List.getElem?_eq_none (by omega)]

namespace base_string
variable {α : Type}

theorem load_value_eq {s : base_string α} {S : List α} (hs : represents s S) {k : Nat}
    (hk : k < S.length) : load_value s.buffer_ k = Res.ok S[k] := by
  have h := represents_getElem? hs (show k < s.size_ by rw [hs.1]; exact hk)
  rw [List.getElem?_eq_getElem hk] at h
  simp [load_value, h]

theorem read_run_eq {P : List α} {j : Nat} (hj : j < P.length) : read_run P j = Res.ok P[j] := by
  simp [read_run, List.getElem?_eq_getElem hj]

theorem find_inner_spec [DecidableEq α] {s : base_string α} {S : List α} (hs : represents s S)
    (P : List α) (i : Nat) (hi : i + P.length ≤ S.length) :
    ∀ fuel j, j ≤ P.length → P.length + 1 - j ≤ fuel →
      ∃ r, find_inner s P P.length i fuel j = Res.ok r ∧ j ≤ r ∧ r ≤ P.length ∧
        (∀ t, j ≤ t → t < r → S[i + t]? = P[t]?) ∧ (r < P.length → S[i + r]? ≠ P[r]?) := by
  intro fuel
  induction fuel with
  | zero => intro j h1 h2; omega
  | succ fuel ih =>
    intro j h1 h2
    unfold find_inner
    by_cases hj : j < P.length
    · have hmod : S.length < SIZE_MOD := by have := hs.1; have := hs.2.2; omega
      rw [if_pos hj, load_value_eq hs (show i + j < S.length by omega), read_run_eq hj]
      simp only [Res.bind_eq, Res.ok_bind, Res.pure_eq]
      by_cases hc : S[i + j] = P[j]
      · rw [if_neg (by simpa using hc), add_sz_eq (by omega)]
        obtain ⟨r, hr, g1, g2, g3, g4⟩ := ih (j + 1) (by omega) (by omega)
        refine ⟨r, hr, by omega, g2, fun t ht1 ht2 => ?_, g4⟩
        by_cases htj : t = j
        · subst htj
          rw [List.getElem?_eq_getElem (show i + t < S.length by omega),
            List.getElem?_eq_getElem hj, hc]
        · exact g3 t (by omega) ht2
      · rw [if_pos (by simpa using hc)]
        refine ⟨j, rfl, le_refl _, h1, fun t ht1 ht2 => by omega, fun _ => ?_⟩
        rw [List.getElem?_eq_getElem (show i + j < S.length by omega),
          List.getElem?_eq_getElem hj]
        simpa using hc
    · rw [if_neg hj]
      exact ⟨j, rfl, le_refl _, h1, fun t ht1 ht2 => by omega, fun h => by omega⟩

theorem find_n_loop_spec [DecidableEq α] {s : base_string α} {S : List α} (hs : represents s S)
    (P : List α) (hP : 0 < P.length) (hle : P.length ≤ S.length) :
    ∀ fuel i, i ≤ S.length - P.length + 1 → S.length - P.length + 2 - i ≤ fuel →
      ∃ r, find_n_loop s P P.length (S.length - P.length) fuel i = Res.ok r ∧
        ((r = npos ∧ ∀ k, i ≤ k → ¬ occurs_at S P k) ∨
         (i ≤ r ∧ r + P.length ≤ S.length ∧ occurs_at S P r ∧
            ∀ k, i ≤ k → k < r → ¬ occurs_at S P k)) := by
  have hmod : S.length < SIZE_MOD := by have := hs.1; have := hs.2.2; omega
  intro fuel
  induction fuel with
  | zero => intro i h1 h2; omega
  | succ fuel ih =>
    intro i h1 h2
    unfold find_n_loop
    by_cases hi : i ≤ S.length - P.length
    · rw [if_pos hi, load_value_eq hs (show i < S.length by omega), read_run_eq hP]
      simp only [Res.bind_eq, Res.ok_bind, Res.pure_eq]
      rw [add_sz_eq (by omega)]
      obtain ⟨r, hr, hcases⟩ := ih (i + 1) (by omega) (by omega)
      -- what a failed attempt at `i` gives
      have skip : ¬ occurs_at S P i →
          ((r = npos ∧ ∀ k, i ≤ k → ¬ occurs_at S P k) ∨
           (i ≤ r ∧ r + P.length ≤ S.length ∧ occurs_at S P r ∧
              ∀ k, i ≤ k → k < r → ¬ occurs_at S P k)) := by
        intro hno
        rcases hcases with ⟨e, h⟩ | ⟨g1, g2, g3, g4⟩
        · refine Or.inl ⟨e, fun k hk => ?_⟩
          by_cases hki : k = i
          · subst hki; exact hno
          · exact h k (by omega)
        · refine Or.inr ⟨by omega, g2, g3, fun k hk1 hk2 => ?_⟩
          by_cases hki : k = i
          · subst hki; exact hno
          · exact g4 k (by omega) hk2
      by_cases hc : S[i] = P[0]
      · rw [if_pos hc]
        obtain ⟨j, hj, j1, j2, j3, j4⟩ := find_inner_spec hs P i (by omega) P.length 1
          (by omega) (by omega)
        rw [hj]
        simp only [Res.ok_bind]
        by_cases hjc : j = P.length
        · rw [if_pos hjc]
          refine ⟨i, rfl, Or.inr ⟨le_refl _, by omega, ?_, fun k hk1 hk2 => by omega⟩⟩
          rw [occurs_at_iff]
          refine ⟨by omega, fun t ht => ?_⟩
          by_cases ht0 : t = 0
          · subst ht0
            rw [List.getElem?_eq_getElem (show i + 0 < S.length by omega),
              List.getElem?_eq_getElem hP]
            simpa using hc
          · exact j3 t (by omega) (by omega)
        · rw [if_neg hjc]
          refine ⟨r, hr, skip ?_⟩
          rw [occurs_at_iff]
          rintro ⟨_, h⟩
          exact j4 (by omega) (h j (by omega))
      · rw [if_neg hc]
        refine ⟨r, hr, skip ?_⟩
        rw [occurs_at_iff]
        rintro ⟨_, h⟩
        have h0 := h 0 hP
        rw [List.getElem?_eq_getElem (show i + 0 < S.length by omega),
          List.getElem?_eq_getElem hP] at h0
        exact hc (by simpa using h0)
    · rw [if_neg hi]
      refine ⟨npos, rfl, Or.inl ⟨rfl, fun k hk => ?_⟩⟩
      rw [occurs_at_iff]
      rintro ⟨h, _⟩
      omega


theorem subscript_eq [Zero α] {p : base_string α} {P : List α} (hp : represents p P) {j : Nat}
    (hj : j < P.length) : subscript p j = read_run P j := by
  unfold subscript
  rw [if_neg (by rw [hp.1]; omega), load_value_eq hp hj, read_run_eq hj]

theorem front_eq {p : base_string α} {P : List α} (hp : represents p P)
    (hP : 0 < P.length) : front p = read_run P 0 := by
  unfold front
  rw [load_value_eq hp hP, read_run_eq hP]

theorem find_str_inner_eq [DecidableEq α] [Zero α] (s : base_string α) {p : base_string α}
    {P : List α} (hp : represents p P) (i : Nat) :
    ∀ fuel j, find_str_inner s p P.length i fuel j = find_inner s P P.length i fuel j := by
  intro fuel
  induction fuel with
  | zero => intro j; rfl
  | succ fuel ih =>
    intro j
    unfold find_str_inner find_inner
    by_cases hj : j < P.length
    · simp only [if_pos hj, subscript_eq hp hj, ih]
    · simp only [if_neg hj]

theorem find_str_loop_eq [DecidableEq α] [Zero α] (s : base_string α) {p : base_string α}
    {P : List α} (hp : represents p P) (hP : 0 < P.length) (left : Nat) :
    ∀ fuel i, find_str_loop s p P.length left fuel i = find_n_loop s P P.length left fuel i := by
  intro fuel
  induction fuel with
  | zero => intro i; rfl
  | succ fuel ih =>
    intro i
    unfold find_str_loop find_n_loop
    simp only [front_eq hp hP, find_str_inner_eq s hp, ih]

theorem find_str_eq [DecidableEq α] [Zero α] (s : base_string α) {p : base_string α}
    {P : List α} (hp : represents p P) (pos : Nat) :
    find_str s p pos = find_n s P pos P.length := by
  unfold find_str find_n
  rw [hp.1]
  by_cases h0 : P.length = 0
  · simp only [if_pos h0]
  · simp only [if_neg h0, find_str_loop_eq s hp (by omega)]

theorem find_n_spec [DecidableEq α] {s : base_string α} {S : List α} (hs : represents s S)
    (P : List α) (hP : P ≠ []) (pos : Nat) (hpos : pos ≤ S.length) :
    ∃ r, find_n s P pos P.length = Res.ok r ∧
      (r = npos ↔ ∀ i, pos ≤ i → ¬ occurs_at S P i) ∧
      (r ≠ npos → pos ≤ r ∧ occurs_at S P r ∧ ∀ i, pos ≤ i → occurs_at S P i → r ≤ i) := by
  have hmod : S.length < SIZE_MOD := by have := hs.1; have := hs.2.2; omega
  have hlen : 0 < P.length := List.length_pos.mpr hP
  unfold find_n
  rw [if_neg (by omega), hs.1, sub_sz_eq hpos hmod]
  by_cases hshort : S.length - pos < P.length
  · rw [if_pos hshort]
    refine ⟨npos, rfl, ⟨fun _ i hi hocc => ?_, fun _ => rfl⟩, fun h => absurd rfl h⟩
    have := hocc.1
    omega
  · rw [if_neg hshort, sub_sz_eq (by omega) hmod]
    obtain ⟨r, hr, hcases⟩ := find_n_loop_spec hs P hlen (by omega) (S.length + 1) pos
      (by omega) (by omega)
    refine ⟨r, hr, ?_⟩
    rcases hcases with ⟨e, h⟩ | ⟨g1, g2, g3, g4⟩
    · exact ⟨⟨fun _ => h, fun _ => e⟩, fun hne => absurd e hne⟩
    · have hne : r ≠ npos := by unfold npos; unfold SIZE_MOD at hmod; omega
      refine ⟨⟨fun e => absurd e hne, fun h => absurd g3 (h r g1)⟩, fun _ => ⟨g1, g3, ?_⟩⟩
      intro i hi hocc
      by_contra hlt
      exact g4 i hi (by omega) hocc


theorem rfind_ch_loop_spec [DecidableEq α] {s : base_string α} {S : List α}
    (hs : represents s S) (ch : α) :
    ∀ fuel i, i < S.length → i + 1 ≤ fuel →
      ∃ r, rfind_ch_loop s ch fuel i = Res.ok r ∧
        ((r = npos ∧ ∀ k, k ≤ i → S[k]? ≠ some ch) ∨
         (r ≤ i ∧ S[r]? = some ch ∧ ∀ k, r < k → k ≤ i → S[k]? ≠ some ch)) := by
  have hmod : S.length < SIZE_MOD := by have := hs.1; have := hs.2.2; omega
  intro fuel
  induction fuel with
  | zero => intro i h1 h2; omega
  | succ fuel ih =>
    intro i h1 h2
    unfold rfind_ch_loop
    by_cases hi : i ≠ 0
    · rw [if_pos hi, load_value_eq hs h1]
      simp only [Res.bind_eq, Res.ok_bind, Res.pure_eq]
      by_cases hc : S[i] = ch
      · rw [if_pos hc]
        refine ⟨i, rfl, Or.inr ⟨le_refl _, ?_, fun k hk1 hk2 => by omega⟩⟩
        rw [List.getElem?_eq_getElem h1, hc]
      · rw [if_neg hc, sub_sz_eq (by omega) (by omega)]
        obtain ⟨r, hr, hcases⟩ := ih (i - 1) (by omega) (by omega)
        have hat : S[i]? ≠ some ch := by
          rw [List.getElem?_eq_getElem h1]
          simpa using hc
        refine ⟨r, hr, ?_⟩
        rcases hcases with ⟨e, h⟩ | ⟨g1, g2, g3⟩
        · refine Or.inl ⟨e, fun k hk => ?_⟩
          by_cases hki : k = i
          · subst hki; exact hat
          · exact h k (by omega)
        · refine Or.inr ⟨by omega, g2, fun k hk1 hk2 => ?_⟩
          by_cases hki : k = i
          · subst hki; exact hat
          · exact g3 k hk1 (by omega)
    · rw [if_neg hi]
      have hi0 : i = 0 := by omega
      subst hi0
      unfold front
      rw [load_value_eq hs h1]
      simp only [Res.bind_eq, Res.ok_bind, Res.pure_eq]
      by_cases hc : S[0] = ch
      · rw [if_pos hc]
        refine ⟨0, rfl, Or.inr ⟨le_refl _, ?_, fun k hk1 hk2 => by omega⟩⟩
        rw [List.getElem?_eq_getElem h1, hc]
      · rw [if_neg hc]
        refine ⟨npos, rfl, Or.inl ⟨rfl, fun k hk => ?_⟩⟩
        have hk0 : k = 0 := by omega
        subst hk0
        rw [List.getElem?_eq_getElem h1]
        simpa using hc

theorem clamp_eq {s : base_string α} {S : List α} (hs : represents s S) (hS : S ≠ [])
    (pos : Nat) :
    (if pos ≥ s.size_ then sub_sz s.size_ 1 else pos) = min pos (S.length - 1) := by
  have hmod : S.length < SIZE_MOD := by have := hs.1; have := hs.2.2; omega
  have hlen : 0 < S.length := List.length_pos.mpr hS
  rw [hs.1]
  by_cases h : pos ≥ S.length
  · rw [if_pos h, sub_sz_eq (by omega) hmod]
    omega
  · rw [if_neg h]
    omega

theorem rfind_ch_spec [DecidableEq α] {s : base_string α} {S : List α}
    (hs : represents s S) (hS : S ≠ []) (ch : α) (pos : Nat) :
    ∃ r, rfind_ch s ch pos = Res.ok r ∧
      (r = npos ↔ ∀ i, i ≤ min pos (S.length - 1) → S[i]? ≠ some ch) ∧
      (r ≠ npos → r ≤ min pos (S.length - 1) ∧ S[r]? = some ch ∧
        ∀ i, i ≤ min pos (S.length - 1) → S[i]? = some ch → i ≤ r) := by
  have hmod : S.length < SIZE_MOD := by have := hs.1; have := hs.2.2; omega
  have hlen : 0 < S.length := List.length_pos.mpr hS
  unfold rfind_ch
  simp only [clamp_eq hs hS]
  obtain ⟨r, hr, hcases⟩ := rfind_ch_loop_spec hs ch (min pos (S.length - 1) + 1)
    (min pos (S.length - 1)) (by omega) (le_refl _)
  refine ⟨r, hr, ?_⟩
  rcases hcases with ⟨e, h⟩ | ⟨g1, g2, g3⟩
  · exact ⟨⟨fun _ => h, fun _ => e⟩, fun hne => absurd e hne⟩
  · have hne : r ≠ npos := by unfold npos; unfold SIZE_MOD at hmod; omega
    refine ⟨⟨fun e => absurd e hne, fun h => absurd g2 (h r g1)⟩, fun _ => ⟨g1, g2, ?_⟩⟩
    intro i hi hocc
    by_contra hlt
    exact g3 i (by omega) hi hocc


theorem start_of_end {i len : Nat} (h0 : 0 < len) (h1 : len ≤ i + 1) (h2 : i < SIZE_MOD) :
    add_sz (sub_sz i len) 1 = i + 1 - len := by
  by_cases h : len ≤ i
  · rw [sub_sz_eq h h2, add_sz_eq (by omega)]
    omega
  · have e : i + SIZE_MOD - len = SIZE_MOD - 1 := by omega
    unfold add_sz sub_sz
    rw [e]
    have e2 : i + 1 - len = 0 := by omega
    rw [e2]
    decide

theorem rfind_inner_spec [DecidableEq α] {s : base_string α} {S : List α} (hs : represents s S)
    (P str : List α) (hstr : ∀ j, j < P.length → read_run str j = read_run P j)
    (i : Nat) (hi : i < S.length) (hlen : P.length ≤ i + 1) :
    ∀ fuel j, j ≤ P.length → P.length + 1 - j ≤ fuel →
      ∃ r, rfind_inner s str P.length i fuel j = Res.ok r ∧ j ≤ r ∧ r ≤ P.length ∧
        (∀ t, j ≤ t → t < r → S[i - t]? = P[P.length - t - 1]?) ∧
        (r < P.length → S[i - r]? ≠ P[P.length - r - 1]?) := by
  have hmod : S.length < SIZE_MOD := by have := hs.1; have := hs.2.2; omega
  intro fuel
  induction fuel with
  | zero => intro j h1 h2; omega
  | succ fuel ih =>
    intro j h1 h2
    unfold rfind_inner
    by_cases hj : j < P.length
    · have hb : P.length - j - 1 < P.length := by omega
      rw [if_pos hj, if_pos (by omega), load_value_eq hs (show i - j < S.length by omega),
        hstr _ hb, read_run_eq hb]
      simp only [Res.bind_eq, Res.ok_bind, Res.pure_eq]
      by_cases hc : S[i - j] = P[P.length - j - 1]
      · rw [if_neg (by simpa using hc), add_sz_eq (by omega)]
        obtain ⟨r, hr, g1, g2, g3, g4⟩ := ih (j + 1) (by omega) (by omega)
        refine ⟨r, hr, by omega, g2, fun t ht1 ht2 => ?_, g4⟩
        by_cases htj : t = j
        · subst htj
          rw [List.getElem?_eq_getElem (show i - t < S.length by omega),
            List.getElem?_eq_getElem hb, hc]
        · exact g3 t (by omega) ht2
      · rw [if_pos (by simpa using hc)]
        refine ⟨j, rfl, le_refl _, h1, fun t ht1 ht2 => by omega, fun _ => ?_⟩
        rw [List.getElem?_eq_getElem (show i - j < S.length by omega),
          List.getElem?_eq_getElem hb]
        simpa using hc
    · rw [if_neg hj]
      exact ⟨j, rfl, le_refl _, h1, fun t ht1 ht2 => by omega, fun h => by omega⟩

/-- An occurrence that ends at index `i`, read from its last element backwards. -/
theorem occurs_at_end_iff (S P : List α) (i : Nat) (hi : i < S.length) (hlen : P.length ≤ i + 1) :
    occurs_at S P (i + 1 - P.length) ↔ ∀ t, t < P.length → S[i - t]? = P[P.length - t - 1]? := by
  rw [occurs_at_iff]
  constructor
  · rintro ⟨_, h⟩ t ht
    have := h (P.length - t - 1) (by omega)
    rw [show i + 1 - P.length + (P.length - t - 1) = i - t by omega] at this
    exact this
  · intro h
    refine ⟨by omega, fun t ht => ?_⟩
    have := h (P.length - t - 1) (by omega)
    rw [show i - (P.length - t - 1) = i + 1 - P.length + t by omega,
      show P.length - (P.length - t - 1) - 1 = t by omega] at this
    exact this

theorem rfind_loop_spec [DecidableEq α] {s : base_string α} {S : List α} (hs : represents s S)
    (P str : List α) (hstr : ∀ j, j < P.length → read_run str j = read_run P j)
    (hP : 0 < P.length) (hPmod : P.length < SIZE_MOD) :
    ∀ fuel i, i < S.length → i + 2 ≤ fuel →
      (∀ r, occurs_at S P r → r + P.length ≤ i + 1 →
          (∀ k, occurs_at S P k → k + P.length ≤ i + 1 → k ≤ r) →
          rfind_loop s str P.length fuel i = Res.ok r) ∧
      (2 ≤ P.length → (∀ k, occurs_at S P k → ¬ k + P.length ≤ i + 1) →
          rfind_loop s str P.length fuel i = Res.ok npos) := by
  have hmod : S.length < SIZE_MOD := by have := hs.1; have := hs.2.2; omega
  have hlast : P.length - 1 < P.length := by omega
  intro fuel
  induction fuel with
  | zero => intro i h1 h2; omega
  | succ fuel ih =>
    intro i h1 h2
    simp only [rfind_loop]
    have e1 : sub_sz P.length 1 = P.length - 1 := sub_sz_eq hP hPmod
    rw [e1]
    by_cases hi : i ≥ P.length - 1
    · rw [if_pos hi, if_pos (show 1 ≤ P.length from hP), load_value_eq hs h1, hstr _ hlast,
        read_run_eq hlast]
      simp only [Res.bind_eq, Res.ok_bind, Res.pure_eq]
      -- whether the text ends at `i` with an occurrence
      have hend := occurs_at_end_iff S P i h1 (by omega)
      obtain ⟨j, hj, j1, j2, j3, j4⟩ := rfind_inner_spec hs P str hstr i h1 (by omega)
        P.length 1 (by omega) (by omega)
      have hmatch : (S[i] = P[P.length - 1] ∧ j = P.length) ↔
          occurs_at S P (i + 1 - P.length) := by
        rw [hend]
        constructor
        · rintro ⟨hc, hjl⟩ t ht
          by_cases ht0 : t = 0
          · subst ht0
            rw [List.getElem?_eq_getElem (show i - 0 < S.length by omega),
              List.getElem?_eq_getElem (show P.length - 0 - 1 < P.length by omega)]
            simpa using hc
          · exact j3 t (by omega) (by omega)
        · intro h
          have h0 := h 0 hP
          rw [List.getElem?_eq_getElem (show i - 0 < S.length by omega),
            List.getElem?_eq_getElem (show P.length - 0 - 1 < P.length by omega)] at h0
          refine ⟨by simpa using h0, ?_⟩
          by_contra hne
          exact j4 (by omega) (h j (by omega))
      by_cases hocc : occurs_at S P (i + 1 - P.length)
      · obtain ⟨hc, hjl⟩ := hmatch.mpr hocc
        rw [if_pos hc, hj]
        simp only [Res.ok_bind]
        rw [if_pos hjl, start_of_end hP (by omega) (by omega)]
        constructor
        · intro r hr1 hr2 hr3
          have := hr3 (i + 1 - P.length) hocc (by omega)
          have : r = i + 1 - P.length := by omega
          rw [this]
        · intro _ hnone
          exact absurd hocc (fun h => hnone _ h (by omega))
      · have hstep : (if S[i] = P[P.length - 1] then
              (Res.ok j).bind fun j => if j = P.length then Res.ok (add_sz (sub_sz i P.length) 1)
                else rfind_loop s str P.length fuel (sub_sz i 1)
            else rfind_loop s str P.length fuel (sub_sz i 1)) =
            rfind_loop s str P.length fuel (sub_sz i 1) := by
          by_cases hc : S[i] = P[P.length - 1]
          · rw [if_pos hc]
            simp only [Res.ok_bind]
            rw [if_neg (fun hjl => hocc (hmatch.mp ⟨hc, hjl⟩))]
          · rw [if_neg hc]
        rw [hj, hstep]
        constructor
        · intro r hr1 hr2 hr3
          have hri : r + P.length ≠ i + 1 := by
            intro h
            apply hocc
            rw [show i + 1 - P.length = r by omega]
            exact hr1
          have hi1 : 1 ≤ i := by omega
          rw [sub_sz_eq hi1 (by omega)]
          exact (ih (i - 1) (by omega) (by omega)).1 r hr1 (by omega)
            (fun k hk1 hk2 => hr3 k hk1 (by omega))
        · intro h2P hnone
          have hi1 : 1 ≤ i := by omega
          rw [sub_sz_eq hi1 (by omega)]
          exact (ih (i - 1) (by omega) (by omega)).2 h2P
            (fun k hk1 hk2 => hnone k hk1 (by omega))
    · rw [if_neg hi]
      constructor
      · intro r _ hr2 _
        omega
      · intro _ _
        rfl

end base_string

theorem char_traits.length_loop_eq {α : Type} [DecidableEq α] [Zero α] (P tl : List α)
    (hz : ∀ c, c ∈ P → c ≠ 0) :
    ∀ fuel i, i ≤ P.length → P.length + 1 - i ≤ fuel →
      char_traits.length_loop (P ++ 0 :: tl) fuel i = Res.ok (P.length % SIZE_MOD) := by
  intro fuel
  induction fuel with
  | zero => intro i h1 h2; omega
  | succ fuel ih =>
    intro i h1 h2
    unfold char_traits.length_loop
    by_cases hi : i < P.length
    · have e : read_run (P ++ 0 :: tl) i = Res.ok P[i] := by
        simp [read_run, List.getElem?_append_left hi, List.getElem?_eq_getElem hi]
      rw [e]
      simp only [Res.bind_eq, Res.ok_bind]
      rw [if_pos (hz _ (List.getElem_mem hi))]
      exact ih (i + 1) (by omega) (by omega)
    · have hi2 : i = P.length := by omega
      subst hi2
      have e : read_run (P ++ 0 :: tl) P.length = Res.ok 0 := by
        unfold read_run
        rw [List.getElem?_append_right (le_refl _)]
        simp
      rw [e]
      simp

theorem char_traits.length_eq {α : Type} [DecidableEq α] [Zero α] (P tl : List α)
    (hz : ∀ c, c ∈ P → c ≠ 0) (hmod : P.length < SIZE_MOD) :
    char_traits.length (P ++ 0 :: tl) = Res.ok P.length := by
  unfold char_traits.length
  rw [char_traits.length_loop_eq P tl hz _ 0 (by omega) (by simp), Nat.mod_eq_of_lt hmod]

namespace base_string
variable {α : Type}

theorem represents_length_lt {s : base_string α} {S : List α} (hs : represents s S) :
    S.length < SIZE_MOD := by
  have := hs.1; have := hs.2.2; omega

theorem rfind_str_inner_eq [DecidableEq α] [Zero α] (s : base_string α) {p : base_string α}
    {P : List α} (hp : represents p P) (i : Nat) :
    ∀ fuel j, rfind_str_inner s p P.length i fuel j = rfind_inner s P P.length i fuel j := by
  have hmod := represents_length_lt hp
  intro fuel
  induction fuel with
  | zero => intro j; rfl
  | succ fuel ih =>
    intro j
    unfold rfind_str_inner rfind_inner
    by_cases hj : j < P.length
    · have e1 : sub_sz (sub_sz P.length j) 1 = P.length - j - 1 := by
        rw [sub_sz_eq (by omega) hmod, sub_sz_eq (by omega) (by omega)]
      simp only [if_pos hj, e1, subscript_eq hp (show P.length - j - 1 < P.length by omega), ih]
    · simp only [if_neg hj]

theorem rfind_str_loop_eq [DecidableEq α] [Zero α] (s : base_string α) {p : base_string α}
    {P : List α} (hp : represents p P) (hP : 0 < P.length) :
    ∀ fuel i, rfind_str_loop s p P.length fuel i = rfind_loop s P P.length fuel i := by
  have hmod := represents_length_lt hp
  have e1 : sub_sz P.length 1 = P.length - 1 := sub_sz_eq hP hmod
  intro fuel
  induction fuel with
  | zero => intro i; rfl
  | succ fuel ih =>
    intro i
    simp only [rfind_str_loop, rfind_loop, e1, if_pos (show 1 ≤ P.length from hP),
      subscript_eq hp (show P.length - 1 < P.length by omega), rfind_str_inner_eq s hp, ih]

theorem rfind_n_spec [DecidableEq α] {s : base_string α} {S : List α} (hs : represents s S)
    (hS : S ≠ []) (P str : List α) (hstr : ∀ j, j < P.length → read_run str j = read_run P j)
    (hP : 0 < P.length) (hPmod : P.length < SIZE_MOD) (pos : Nat) :
    (∀ r, occurs_at S P r → r + P.length ≤ min pos (S.length - 1) + 1 →
        (∀ k, occurs_at S P k → k + P.length ≤ min pos (S.length - 1) + 1 → k ≤ r) →
        rfind_n s str pos P.length = Res.ok r) ∧
    (2 ≤ P.length → (∀ k, occurs_at S P k → ¬ k + P.length ≤ min pos (S.length - 1) + 1) →
        rfind_n s str pos P.length = Res.ok npos) := by
  have hlen : 0 < S.length := List.length_pos.mpr hS
  have e1 : sub_sz P.length 1 = P.length - 1 := sub_sz_eq hP hPmod
  unfold rfind_n
  simp only [clamp_eq hs hS, if_neg (show ¬ P.length = 0 by omega), e1]
  by_cases hshort : min pos (S.length - 1) < P.length - 1
  · simp only [if_pos hshort]
    exact ⟨fun r _ h _ => by omega, fun _ _ => rfl⟩
  · simp only [if_neg hshort]
    exact rfind_loop_spec hs P str hstr hP hPmod _ _ (by omega) (le_refl _)

theorem occurs_at_single (S P : List α) (h1 : P.length = 1) (k : Nat) :
    occurs_at S P k ↔ S[k]? = P[0]? := by
  rw [occurs_at_iff]
  constructor
  · rintro ⟨_, h⟩
    exact h 0 (by omega)
  · intro h
    have hk : k < S.length := by
      by_contra hk
      rw [List.getElem?_eq_none (by omega), List.getElem?_eq_getElem (show 0 < P.length by omega)] at h
      exact absurd h (by simp)
    refine ⟨by omega, fun t ht => ?_⟩
    have : t = 0 := by omega
    subst this
    exact h

theorem rfind_cstr_spec [DecidableEq α] [Zero α] {s : base_string α} {S : List α}
    (hs : represents s S) (hS : S ≠ []) (P tl : List α) (hz : ∀ c, c ∈ P → c ≠ 0)
    (hP : 0 < P.length) (hPmod : P.length < SIZE_MOD) (pos : Nat) :
    (∀ r, occurs_at S P r → r + P.length ≤ min pos (S.length - 1) + 1 →
        (∀ k, occurs_at S P k → k + P.length ≤ min pos (S.length - 1) + 1 → k ≤ r) →
        rfind_cstr s (P ++ 0 :: tl) pos = Res.ok r) ∧
    ((∀ k, occurs_at S P k → ¬ k + P.length ≤ min pos (S.length - 1) + 1) →
        rfind_cstr s (P ++ 0 :: tl) pos = Res.ok npos) := by
  have hlen : 0 < S.length := List.length_pos.mpr hS
  have hstr : ∀ j, j < P.length → read_run (P ++ 0 :: tl) j = read_run P j := by
    intro j hj
    simp [read_run, List.getElem?_append_left hj]
  unfold rfind_cstr
  simp only [clamp_eq hs hS, char_traits.length_eq P tl hz hPmod, Res.bind_eq, Res.ok_bind]
  by_cases h1 : P.length = 1
  · rw [h1]
    simp only [hstr 0 hP, read_run_eq hP, Res.ok_bind]
    obtain ⟨r', hr', hcases⟩ := rfind_ch_loop_spec hs P[0] (min pos (S.length - 1) + 1)
      (min pos (S.length - 1)) (by omega) (le_refl _)
    rw [hr']
    have hocc : ∀ k, occurs_at S P k ↔ S[k]? = some P[0] := by
      intro k
      rw [occurs_at_single S P h1 k, List.getElem?_eq_getElem hP]
    constructor
    · intro r hr1 hr2 hr3
      rcases hcases with ⟨_, h⟩ | ⟨g1, g2, g3⟩
      · exact absurd ((hocc r).mp hr1) (h r (by omega))
      · have a1 := hr3 r' ((hocc r').mpr g2) (by omega)
        have a2 : ¬ r' < r := fun hlt => g3 r hlt (by omega) ((hocc r).mp hr1)
        have : r' = r := by omega
        rw [this]
    · intro hnone
      rcases hcases with ⟨e, _⟩ | ⟨g1, g2, _⟩
      · rw [e]
      · exact (hnone r' ((hocc r').mpr g2) (by omega)).elim
  · have h2 : 2 ≤ P.length := by omega
    obtain ⟨n, hn⟩ : ∃ n, P.length = n + 2 := ⟨P.length - 2, by omega⟩
    have key := rfind_loop_spec hs P (P ++ 0 :: tl) hstr hP hPmod
      (min pos (S.length - 1) + 2) (min pos (S.length - 1)) (by omega) (le_refl _)
    rw [hn] at key ⊢
    simp only
    exact ⟨key.1, key.2 (by omega)⟩


theorem insert_spec (s : base_string α) (S : List α) (pos : Nat) (ch : α)
    (hs : represents s S) (hpos : pos ≤ S.length) (hroom : s.size_ < s.cap_) :
    ∃ s', insert s pos ch = Res.ok (s', pos) ∧
      represents s' (S.take pos ++ ch :: S.drop pos) ∧ s'.cap_ = s.cap_ := by
  have hs0 := hs
  obtain ⟨hsz, hc, hcap, hlen, hmod⟩ := hs
  unfold insert
  rw [if_neg (by omega), sub_sz_eq (by omega) (by omega), add_sz_eq (by omega)]
  obtain ⟨b, hb, hbl, hbg⟩ := char_traits.move_spec s.buffer_ (pos + 1) pos (s.size_ - pos)
    (by omega) (by omega)
  simp only [hb, Res.bind_eq, Res.ok_bind, Res.pure_eq, store_eq _ (show pos < b.length by omega)]
  refine ⟨_, rfl, ?_, rfl⟩
  apply represents_of_getElem?
  · simp [List.length_take, List.length_drop]
    omega
  · intro k hk
    simp only at hk
    simp only
    rw [List.getElem?_set, hbg k]
    by_cases h1 : k < pos
    · rw [if_neg (by omega), if_neg (by omega),
        List.getElem?_append_left (by rw [List.length_take]; omega), List.getElem?_take,
        if_pos h1]
      exact represents_getElem? hs0 (by omega)
    · rw [List.getElem?_append_right (by rw [List.length_take]; omega), List.length_take,
        show min pos S.length = pos by omega]
      by_cases h2 : k = pos
      · subst h2
        rw [if_pos rfl, if_pos (by omega)]
        simp
      · rw [if_neg (by omega), if_pos (by omega)]
        obtain ⟨m, hm⟩ : ∃ m, k - pos = m + 1 := ⟨k - pos - 1, by omega⟩
        rw [hm, List.getElem?_cons_succ, List.getElem?_drop,
          show pos + (k - (pos + 1)) = pos + m by omega]
        exact represents_getElem? hs0 (by omega)
  · simp only
    omega
  · simp only [List.length_set]
    omega
  · simp only [List.length_set]
    omega

theorem erase_spec (s : base_string α) (S : List α) (pos : Nat)
    (hs : represents s S) (hpos : pos < S.length) :
    ∃ s', erase s pos = Res.ok (s', pos) ∧
      represents s' (S.take pos ++ S.drop (pos + 1)) ∧ s'.cap_ = s.cap_ := by
  have hs0 := hs
  obtain ⟨hsz, hc, hcap, hlen, hmod⟩ := hs
  unfold erase
  rw [sub_sz_eq (show pos ≤ s.size_ by omega) (by omega),
    sub_sz_eq (show 1 ≤ s.size_ - pos by omega) (by omega),
    sub_sz_eq (show 1 ≤ s.size_ by omega) (by omega)]
  obtain ⟨b, hb, hbl, hbg⟩ := char_traits.move_spec s.buffer_ pos (pos + 1) (s.size_ - pos - 1)
    (by omega) (by omega)
  simp only [hb, Res.bind_eq, Res.ok_bind, Res.pure_eq]
  refine ⟨_, rfl, ?_, rfl⟩
  apply represents_of_getElem?
  · simp [List.length_take, List.length_drop]
    omega
  · intro k hk
    simp only at hk
    simp only
    rw [hbg k, List.getElem?_append, List.length_take, List.getElem?_take, List.getElem?_drop,
      show min pos S.length = pos by omega]
    by_cases h1 : k < pos
    · rw [if_neg (by omega), if_pos h1, if_pos h1]
      exact represents_getElem? hs0 (by omega)
    · rw [if_pos (by omega), if_neg h1]
      exact represents_getElem? hs0 (by omega)
  · simp only
    omega
  · simp only
    omega
  · simp only
    omega

theorem take_append_drop_succ (S : List α) (pos : Nat) (ch : α) (hpos : pos ≤ S.length) :
    (S.take pos ++ ch :: S.drop pos).take pos ++ (S.take pos ++ ch :: S.drop pos).drop (pos + 1)
      = S := by
  have hl : (S.take pos).length = pos := by rw [List.length_take]; omega
  rw [List.take_append_of_le_length (by omega), List.take_of_length_le (by omega),
    List.drop_append_eq_append_drop, List.drop_of_length_le (by omega), hl]
  simp

theorem insert_erase_room (s : base_string α) (S : List α) (pos : Nat) (ch : α)
    (hs : represents s S) (hpos : pos ≤ S.length) (hroom : s.size_ < s.cap_) :
    ∃ s1 s2, insert s pos ch = Res.ok (s1, pos) ∧ erase s1 pos = Res.ok (s2, pos) ∧
      represents s2 S ∧ s2.cap_ = s.cap_ := by
  obtain ⟨s1, h1, r1, c1⟩ := insert_spec s S pos ch hs hpos hroom
  obtain ⟨s2, h2, r2, c2⟩ := erase_spec s1 _ pos r1 (by simp [List.length_take]; omega)
  rw [take_append_drop_succ S pos ch hpos] at r2
  exact ⟨s1, s2, h1, h2, r2, by rw [c2, c1]⟩


theorem replace_spec (s : base_string α) (S : List α) (pos count : Nat) (X : List α)
    (hs : represents s S) (hpos : pos ≤ S.length)
    (hroom : X.length - min count (S.length - pos) ≤ s.cap_ - s.size_) :
    ∃ s', replace s pos count X X.length = Res.ok s' ∧
      represents s' (S.take pos ++ X ++ S.drop (pos + min count (S.length - pos))) ∧
      s'.cap_ = s.cap_ := by
  have hs0 := hs
  obtain ⟨hsz, hc, hcap, hlen, hmod⟩ := hs
  have hr : (if sub_sz s.size_ pos < count then sub_sz s.size_ pos else count)
      = min count (S.length - pos) := by
    rw [sub_sz_eq (by omega) (by omega), hsz]
    by_cases h : S.length - pos < count
    · rw [if_pos h]; omega
    · rw [if_neg h]; omega
  generalize hrdef : min count (S.length - pos) = r at hr hroom ⊢
  have hrle : pos + r ≤ S.length := by omega
  obtain ⟨b, hb, hbl, hbg⟩ := char_traits.move_spec s.buffer_ (pos + X.length) (pos + r)
    (s.size_ - (pos + r)) (by omega) (by omega)
  obtain ⟨b1, hb1, hb1l, hb1g⟩ := char_traits.copy_spec (X.map some) X.length b pos 0
    (by omega) (by simp)
  -- the buffer after the two moves holds the spliced text
  have hcells : ∀ k, k < s.size_ + X.length - r →
      b1[k]? = Option.map some (S.take pos ++ X ++ S.drop (pos + r))[k]? := by
    intro k hk
    rw [hb1g k]
    by_cases h1 : k < pos
    · rw [if_neg (by omega), hbg k, if_neg (by omega), List.append_assoc,
        List.getElem?_append_left (by rw [List.length_take]; omega), List.getElem?_take,
        if_pos h1]
      exact represents_getElem? hs0 (by omega)
    · by_cases h2 : k < pos + X.length
      · rw [if_pos (by omega), List.getElem?_append_left
          (by rw [List.length_append, List.length_take]; omega),
          List.getElem?_append_right (by rw [List.length_take]; omega), List.length_take,
          show min pos S.length = pos by omega, List.getElem?_map, Nat.zero_add]
      · rw [if_neg (by omega), hbg k, if_pos (by omega), List.getElem?_append_right
          (by rw [List.length_append, List.length_take]; omega), List.length_append,
          List.length_take, show min pos S.length = pos by omega, List.getElem?_drop,
          show pos + r + (k - (pos + X.length)) = pos + r + (k - (pos + X.length)) from rfl]
        exact represents_getElem? hs0 (by omega)
  have hlenT : (S.take pos ++ X ++ S.drop (pos + r)).length = s.size_ + X.length - r := by
    simp [List.length_take, List.length_drop]
    omega
  have hfin : ∀ n, n = s.size_ + X.length - r →
      represents ({ buffer_ := b1, size_ := n, cap_ := s.cap_ } : base_string α)
        (S.take pos ++ X ++ S.drop (pos + r)) := by
    intro n hn
    subst hn
    apply represents_of_getElem?
    · exact hlenT.symm
    · exact hcells
    · simp only
      omega
    · simp only
      omega
    · simp only
      omega
  unfold replace
  rw [if_neg (by omega)]
  unfold replace_cstr
  simp only [hr]
  have hnp : npos + 1 = SIZE_MOD := by decide
  by_cases hlt : r < X.length
  · have e1 : sub_sz X.length r = X.length - r := sub_sz_eq (by omega) (by omega)
    have e2 : sub_sz npos (X.length - r) = npos - (X.length - r) :=
      sub_sz_eq (by omega) (by omega)
    have e3 : sub_sz s.cap_ s.size_ = s.cap_ - s.size_ := sub_sz_eq hcap (by omega)
    have e4 : sub_sz s.size_ (pos + r) = s.size_ - (pos + r) := sub_sz_eq (by omega) (by omega)
    have e5 : add_sz s.size_ (X.length - r) = s.size_ + (X.length - r) := add_sz_eq (by omega)
    rw [if_pos hlt]
    simp only [e1, e2, e3, e4, e5]
    rw [if_neg (by omega), if_neg (by omega), hb]
    simp only [Res.bind_eq, Res.ok_bind, Res.pure_eq, hb1]
    exact ⟨_, rfl, hfin _ (by omega), rfl⟩
  · have e1 : sub_sz r X.length = r - X.length := sub_sz_eq (by omega) (by omega)
    have e4 : sub_sz s.size_ (pos + r) = s.size_ - (pos + r) := sub_sz_eq (by omega) (by omega)
    have e5 : sub_sz s.size_ (r - X.length) = s.size_ - (r - X.length) :=
      sub_sz_eq (by omega) (by omega)
    rw [if_neg hlt]
    simp only [e1, e4, e5, hb, Res.bind_eq, Res.ok_bind, Res.pure_eq, hb1]
    exact ⟨_, rfl, hfin _ (by omega), rfl⟩

theorem replace_back (S X : List α) (pos r : Nat) (hr : pos + r ≤ S.length) :
    (S.take pos ++ X ++ S.drop (pos + r)).take pos ++ (S.drop pos).take r ++
      (S.take pos ++ X ++ S.drop (pos + r)).drop (pos + X.length) = S := by
  have hl : (S.take pos).length = pos := by rw [List.length_take]; omega
  have e1 : (S.take pos ++ X ++ S.drop (pos + r)).take pos = S.take pos := by
    rw [List.append_assoc, List.take_append_of_le_length (by omega),
      List.take_of_length_le (by omega)]
  have e2 : (S.take pos ++ X ++ S.drop (pos + r)).drop (pos + X.length) = S.drop (pos + r) := by
    have : (S.take pos ++ X).length = pos + X.length := by rw [List.length_append, hl]
    rw [← this, List.drop_left]
  rw [e1, e2, List.append_assoc]
  have e3 : (S.drop pos).take r ++ S.drop (pos + r) = S.drop pos := by
    rw [← List.drop_drop]
    exact List.take_append_drop r (S.drop pos)
  rw [e3, List.take_append_drop]

theorem replace_roundtrip_room (s : base_string α) (S : List α) (pos r : Nat) (X : List α)
    (hs : represents s S) (hr : pos + r ≤ S.length) (hroom : X.length - r ≤ s.cap_ - s.size_) :
    ∃ s1 s2, replace s pos r X X.length = Res.ok s1 ∧
      replace s1 pos X.length ((S.drop pos).take r) r = Res.ok s2 ∧
      represents s2 S ∧ s2.cap_ = s.cap_ := by
  have hmin : min r (S.length - pos) = r := by omega
  obtain ⟨s1, h1, r1, c1⟩ := replace_spec s S pos r X hs (by omega) (by rw [hmin]; exact hroom)
  rw [hmin] at r1
  have hOlen : ((S.drop pos).take r).length = r := by
    rw [List.length_take, List.length_drop]; omega
  have hl1 : (S.take pos ++ X ++ S.drop (pos + r)).length = S.length + X.length - r := by
    simp [List.length_take, List.length_drop]
    omega
  have hmin2 : min X.length ((S.take pos ++ X ++ S.drop (pos + r)).length - pos) = X.length := by
    rw [hl1]; omega
  have hsz1 := r1.1
  have hsz := hs.1
  have hcap := hs.2.2.1
  obtain ⟨s2, h2, r2, c2⟩ := replace_spec s1 _ pos X.length ((S.drop pos).take r) r1
    (by rw [hl1]; omega) (by rw [hOlen, hmin2, c1, hsz1, hl1]; omega)
  rw [hOlen] at h2
  rw [hmin2, replace_back S X pos r hr] at r2
  exact ⟨s1, s2, h1, h2, r2, by rw [c2, c1]⟩


/-! ## The claims -/

/-- C1. For every string `S`, every non-empty pattern `P` and every `pos <= length(S)`,
`find(P, pos)` (the pattern given as a run with its count, or as another `base_string`) returns
the smallest index `i >= pos` at which `P` occurs in `S` (`i + |P| <= length(S)` and
`S[i..i+|P|)` equals `P`), and returns `npos` if and only if there is no such index. -/
theorem find_returns_first_occurrence [DecidableEq α] [Zero α] (s p : base_string α)
    (S P : List α) (pos : Nat) (hs : represents s S) (hp : represents p P) (hP : P ≠ [])
    (hpos : pos ≤ S.length) :
    ∃ r, find_n s P pos P.length = Res.ok r ∧ find_str s p pos = Res.ok r ∧
      (r = npos ↔ ∀ i, pos ≤ i → ¬ occurs_at S P i) ∧
      (r ≠ npos → pos ≤ r ∧ occurs_at S P r ∧ ∀ i, pos ≤ i → occurs_at S P i → r ≤ i) := by
  obtain ⟨r, hr, h1, h2⟩ := find_n_spec hs P hP pos hpos
  exact ⟨r, hr, by rw [find_str_eq s hp pos, hr], h1, h2⟩

theorem find_returns_first_occurrence_witness :
    represents examples.hello_world "hello world".toList ∧
    represents examples.world "world".toList ∧ "world".toList ≠ [] ∧
    0 ≤ "hello world".toList.length ∧
    ∃ r, find_n examples.hello_world "world".toList 0 "world".toList.length = Res.ok r ∧
      find_str examples.hello_world examples.world 0 = Res.ok r ∧
      (r = npos ↔ ∀ i, 0 ≤ i → ¬ occurs_at "hello world".toList "world".toList i) ∧
      (r ≠ npos → 0 ≤ r ∧ occurs_at "hello world".toList "world".toList r ∧
        ∀ i, 0 ≤ i → occurs_at "hello world".toList "world".toList i → r ≤ i) :=
  ⟨by decide, by decide, by decide, by decide,
    find_returns_first_occurrence examples.hello_world examples.world "hello world".toList
      "world".toList 0 (by decide) (by decide) (by decide) (by decide)⟩

/-- C2 (code bug). On the default-constructed string (`size_ == cap_ == 0`) the call
`insert(begin(), 'a')` takes the `size_ == cap_` branch: `reallocate_and_fill` builds the
complete result (`"a"`, size 1, capacity 1) in a new block and releases the old one, its return
value is discarded, and the statements that follow work on the stale iterator `r`; the call has no
defined result, so a following `erase(begin())` cannot restore the empty string. -/
theorem insert_at_full_capacity_undefined :
    represents examples.default_constructed [] ∧
    examples.default_constructed.size_ = examples.default_constructed.cap_ ∧
    reallocate_and_fill examples.default_constructed 0 1 'a'
      = Res.ok ({ buffer_ := [some 'a'], size_ := 1, cap_ := 1 }, 0) ∧
    insert examples.default_constructed 0 'a' = Res.fault Fault.undefined_behaviour ∧
    ((insert examples.default_constructed 0 'a').bind fun r => erase r.1 0)
      = Res.fault Fault.undefined_behaviour := by
  decide

/-- C3 (code bug). For the string `""` built by `base_string("", 0)` (capacity 35) and
`n = npos - 10`, `length(S) + n <= max_size` holds and the guard of line 852 passes, yet
`append(n, 'x')` does not yield a string: `cap_ + need` wraps to 24 in `reallocate` (line 1793),
52 cells are allocated and `fill` writes past them. -/
theorem append_growth_wraps :
    of_run ([] : List Char) 0 = Res.ok examples.empty_35 ∧
    represents examples.empty_35 [] ∧
    ([] : List Char).length + (npos - 10) ≤ npos ∧
    (reallocate examples.empty_35 (npos - 10)).bind (fun s1 => Res.ok (s1.size_, s1.cap_))
      = Res.ok (0, 52) ∧
    append examples.empty_35 (npos - 10) 'x' = Res.fault Fault.undefined_behaviour := by
  decide

/-- What `append(n, ch)` does when the sum `cap_ + need` of `reallocate` does not wrap: for every
string `S` with capacity `cap`, count `n` and character `ch` such that `n <= cap - length(S)` (no
growth) or `cap + n <= max_size`, it yields a string of length exactly `length(S) + n` whose
first `length(S)` elements are those of `S` in order and whose last `n` elements all equal `ch`,
whether or not the call had to grow the buffer. -/
theorem append_fill_appends (s : base_string α) (S : List α) (n : Nat) (ch : α)
    (hs : represents s S) (hn : n ≤ s.cap_ - s.size_ ∨ s.cap_ + n ≤ npos) :
    ∃ s', append s n ch = Res.ok s' ∧ s'.size_ = S.length + n ∧
      content s' = (S ++ List.replicate n ch).map some ∧
      represents s' (S ++ List.replicate n ch) := by
  have hnp : npos + 1 = SIZE_MOD := by decide
  obtain ⟨s', h', hr', _⟩ := append_spec s S n ch hs (by omega)
  exact ⟨s', h', by simpa using hr'.1, hr'.2.1, hr'⟩

theorem append_fill_appends_witness :
    represents examples.abcd ['a', 'b', 'c', 'd'] ∧
    (40 ≤ examples.abcd.cap_ - examples.abcd.size_ ∨ examples.abcd.cap_ + 40 ≤ npos) ∧
    ∃ s', append examples.abcd 40 'x' = Res.ok s' ∧ s'.size_ = ['a', 'b', 'c', 'd'].length + 40 ∧
      content s' = (['a', 'b', 'c', 'd'] ++ List.replicate 40 'x').map some ∧
      represents s' (['a', 'b', 'c', 'd'] ++ List.replicate 40 'x') :=
  ⟨by decide, by decide,
    append_fill_appends examples.abcd ['a', 'b', 'c', 'd'] 40 'x' (by decide) (by decide)⟩

/-- C4 (code bug). On the default-constructed string (`size_ == cap_ == 0`) the call
`replace(0, 0, "a", 1)` has `r = 0 < k = 1` and needs growth: `reallocate(1)` moves the string to
a new block, and the source goes on with the iterator `first` into the old block
(`end() - (first + count1)`), so the call has no defined result instead of yielding `"a"`. -/
theorem replace_with_growth_undefined :
    represents examples.default_constructed [] ∧ 0 ≤ ([] : List Char).length ∧
    (reallocate examples.default_constructed 1).bind (fun s1 => Res.ok (s1.size_, s1.cap_))
      = Res.ok (0, 1) ∧
    replace examples.default_constructed 0 0 ['a'] 1 = Res.fault Fault.undefined_behaviour := by
  decide

/-- C5 (code bug). On `"hello world"` (capacity 35), `replace(0, 5, X, 30)` with `X` thirty times
`'x'` needs growth (25 more elements, 24 free) and has no defined result, so the second
`replace(0, 30, "hello", 5)` cannot restore the original content. -/
theorem replace_roundtrip_with_growth_undefined :
    of_run "hello world".toList 11 = Res.ok examples.hello_world ∧
    represents examples.hello_world "hello world".toList ∧
    0 + 5 ≤ "hello world".toList.length ∧
    (("hello world".toList.drop 0).take 5) = "hello".toList ∧
    ((replace examples.hello_world 0 5 (List.replicate 30 'x') 30).bind fun s1 =>
        replace s1 0 30 "hello".toList 5) = Res.fault Fault.undefined_behaviour := by
  decide

/-- C6. For every string `S` and indices `0 <= first <= last <= length(S)`,
`erase(begin()+first, begin()+last)` yields `S[0..first) ++ S[last..length(S))`, decreases the
length by exactly `last - first` and leaves `capacity()` unchanged; in the whole-string case
`first = 0`, `last = length(S)` the resulting state is the one `clear()` gives. -/
theorem erase_range_removes_span (s : base_string α) (S : List α) (first last : Nat)
    (hs : represents s S) (h1 : first ≤ last) (h2 : last ≤ S.length) :
    ∃ s', erase_range s first last = Res.ok (s', first) ∧
      content s' = (S.take first ++ S.drop last).map some ∧
      s'.size_ = S.length - (last - first) ∧ s'.cap_ = s.cap_ ∧
      represents s' (S.take first ++ S.drop last) ∧
      (first = 0 → last = S.length → s' = clear s) := by
  obtain ⟨s', h', hr', hsz', hcap'⟩ := erase_range_spec s S first last hs h1 h2
  refine ⟨s', h', hr'.2.1, by rw [hsz', hs.1], hcap', hr', fun hf hl => ?_⟩
  have hall : first = 0 ∧ last = s.size_ := ⟨hf, by rw [hl, hs.1]⟩
  have e : erase_range s first last = Res.ok (clear s, (clear s).size_) := by
    unfold erase_range
    rw [if_pos hall]
    rfl
  rw [e] at h'
  injection h' with h'
  injection h' with h' _
  exact h'.symm

theorem erase_range_removes_span_witness :
    represents examples.hello_world "hello world".toList ∧ 5 ≤ 6 ∧
    6 ≤ "hello world".toList.length ∧
    ∃ s', erase_range examples.hello_world 5 6 = Res.ok (s', 5) ∧
      content s' = ("hello world".toList.take 5 ++ "hello world".toList.drop 6).map some ∧
      s'.size_ = "hello world".toList.length - (6 - 5) ∧ s'.cap_ = examples.hello_world.cap_ ∧
      represents s' ("hello world".toList.take 5 ++ "hello world".toList.drop 6) ∧
      (5 = 0 → 6 = "hello world".toList.length → s' = clear examples.hello_world) :=
  ⟨by decide, by decide, by decide,
    erase_range_removes_span examples.hello_world "hello world".toList 5 6 (by decide)
      (by decide) (by decide)⟩


/-- C7 (code bug). For the string `""` built by `base_string("", 0)` (capacity 35) the call
`resize(npos, 'x')` does not leave a string of length `npos`: it appends `npos` elements, the
guard of line 852 passes, the growth computation `cap_ + need` of `reallocate` (line 1793) wraps
to 34, 52 cells are allocated and `fill` writes past them. -/
theorem resize_growth_wraps :
    of_run ([] : List Char) 0 = Res.ok examples.empty_35 ∧
    represents examples.empty_35 [] ∧
    resize examples.empty_35 npos 'x' = Res.fault Fault.undefined_behaviour := by
  decide

/-- What `resize(n, ch)` does when the sum `cap_ + need` of `reallocate` does not wrap: for every
string `S` with capacity `cap`, target size `n` and fill character `ch` such that `n <= cap` or
`cap + (n - length(S)) <= max_size`, after the call the length is exactly `n`, every element at
index `i < min(n, length(S))` equals `S[i]`, and every element at index `i` with
`length(S) <= i < n` equals `ch`. -/
theorem resize_sets_length (s : base_string α) (S : List α) (n : Nat) (ch : α)
    (hs : represents s S) (hn : n ≤ s.cap_ ∨ s.cap_ + (n - S.length) ≤ npos) :
    ∃ s', resize s n ch = Res.ok s' ∧ s'.size_ = n ∧
      (∀ i, i < min n S.length → (content s')[i]? = Option.map some S[i]?) ∧
      (∀ i, S.length ≤ i → i < n → (content s')[i]? = some (some ch)) ∧
      represents s' (S.take n ++ List.replicate (n - S.length) ch) := by
  have hnp : npos + 1 = SIZE_MOD := by decide
  have hsz := hs.1
  obtain ⟨s', h', hr'⟩ := resize_spec s S n ch hs (by omega)
  have hc : content s' = (S.take n ++ List.replicate (n - S.length) ch).map some := hr'.2.1
  have hl : (S.take n).length = min n S.length := List.length_take _ _
  refine ⟨s', h', ?_, fun i hi => ?_, fun i hi1 hi2 => ?_, hr'⟩
  · rw [hr'.1, List.length_append, hl, List.length_replicate]
    omega
  · rw [hc, List.getElem?_map, List.getElem?_append_left (by omega), List.getElem?_take,
      if_pos (by omega)]
  · rw [hc, List.getElem?_map, List.getElem?_append_right (by omega), List.getElem?_replicate,
      if_pos (by omega)]
    rfl

theorem resize_sets_length_witness :
    represents examples.abcd ['a', 'b', 'c', 'd'] ∧
    (50 ≤ examples.abcd.cap_ ∨ examples.abcd.cap_ + (50 - ['a', 'b', 'c', 'd'].length) ≤ npos) ∧
    ∃ s', resize examples.abcd 50 'x' = Res.ok s' ∧ s'.size_ = 50 ∧
      (∀ i, i < min 50 ['a', 'b', 'c', 'd'].length →
        (content s')[i]? = Option.map some ['a', 'b', 'c', 'd'][i]?) ∧
      (∀ i, ['a', 'b', 'c', 'd'].length ≤ i → i < 50 → (content s')[i]? = some (some 'x')) ∧
      represents s' (['a', 'b', 'c', 'd'].take 50 ++
        List.replicate (50 - ['a', 'b', 'c', 'd'].length) 'x') :=
  ⟨by decide, by decide,
    resize_sets_length examples.abcd ['a', 'b', 'c', 'd'] 50 'x' (by decide) (by decide)⟩

/-- C8 (code bug). On `"abcd"` (capacity 35, so capacity suffices) the call
`insert(begin()+1, 1, 'X')` moves only `count = 1` element of the tail `"bcd"` instead of the whole
tail: the result has length 5 and holds `a X b d` followed by an indeterminate cell, not
`"aXbcd"`. -/
theorem insert_count_loses_tail :
    of_run ['a', 'b', 'c', 'd'] 4 = Res.ok examples.abcd ∧
    represents examples.abcd ['a', 'b', 'c', 'd'] ∧
    1 ≤ examples.abcd.cap_ - examples.abcd.size_ ∧
    ∃ s', insert_count examples.abcd 1 1 'X' = Res.ok (s', 1) ∧ s'.size_ = 5 ∧
      content s' = [some 'a', some 'X', some 'b', some 'd', none] ∧
      ¬ represents s' (['a', 'b', 'c', 'd'].take 1 ++ List.replicate 1 'X' ++
        ['a', 'b', 'c', 'd'].drop 1) :=
  ⟨by decide, by decide, by decide, _, rfl, by decide, by decide, by decide⟩

/-- C9 (counterexample). In `"abcab"` the pattern `"ab"` occurs at index 3 and `3 <= min(3, 4)`,
but `rfind("ab", 3)` returns 0 in all three overloads: `pos` bounds the index of the last
element of the match, not the index where the match starts. -/
theorem rfind_bounds_match_end :
    represents examples.abcab ['a', 'b', 'c', 'a', 'b'] ∧ represents examples.ab ['a', 'b'] ∧
    occurs_at ['a', 'b', 'c', 'a', 'b'] ['a', 'b'] 3 ∧
    3 ≤ min 3 (['a', 'b', 'c', 'a', 'b'].length - 1) ∧
    rfind_cstr examples.abcab ['a', 'b', 0] 3 = Res.ok 0 ∧
    rfind_n examples.abcab ['a', 'b'] 3 2 = Res.ok 0 ∧
    rfind_str examples.abcab examples.ab 3 = Res.ok 0 := by
  decide

/-- C9 (amended). For every non-empty string `S`, every pattern `P` with `|P| >= 1` (without
zero character when passed as a zero-terminated run) and every `pos`, with
`c = min(pos, length(S) - 1)`: if `P` occurs in `S` with its last element at or before index `c`,
all three overloads of `rfind(P, pos)` return the largest index `i` with `i + |P| - 1 <= c` at
which `P` occurs (the bound `pos` limits where the match ends); if there is no such occurrence,
the zero-terminated overload returns `npos`, and so do the counted and the `base_string`
overloads when `|P| >= 2`.  The condition on the zero character is a hypothesis of the
zero-terminated overload only; the counted and the `base_string` overloads take any `P`. -/
theorem rfind_returns_last_occurrence [DecidableEq α] [Zero α] (s p : base_string α)
    (S P tl : List α) (pos : Nat) (hs : represents s S) (hp : represents p P) (hS : S ≠ [])
    (hP : P ≠ []) :
    (∀ r, occurs_at S P r → r + P.length ≤ min pos (S.length - 1) + 1 →
        (∀ k, occurs_at S P k → k + P.length ≤ min pos (S.length - 1) + 1 → k ≤ r) →
        ((∀ c, c ∈ P → c ≠ 0) → rfind_cstr s (P ++ 0 :: tl) pos = Res.ok r) ∧
          rfind_n s P pos P.length = Res.ok r ∧ rfind_str s p pos = Res.ok r) ∧
    ((∀ k, occurs_at S P k → ¬ k + P.length ≤ min pos (S.length - 1) + 1) →
        ((∀ c, c ∈ P → c ≠ 0) → rfind_cstr s (P ++ 0 :: tl) pos = Res.ok npos) ∧
        (2 ≤ P.length → rfind_n s P pos P.length = Res.ok npos ∧
          rfind_str s p pos = Res.ok npos)) := by
  have hlen : 0 < P.length := List.length_pos.mpr hP
  have hmod := represents_length_lt hp
  have hc := fun hz => rfind_cstr_spec hs hS P tl hz hlen hmod pos
  have hn := rfind_n_spec hs hS P P (fun _ _ => rfl) hlen hmod pos
  have hstr : rfind_str s p pos = rfind_n s P pos P.length := by
    unfold rfind_str rfind_n
    have e1 : sub_sz P.length 1 = P.length - 1 := sub_sz_eq hlen hmod
    simp only [hp.1, if_neg (show ¬ P.length = 0 by omega), e1,
      rfind_str_loop_eq s hp hlen]
  rw [hstr]
  exact ⟨fun r h1 h2 h3 => ⟨fun hz => (hc hz).1 r h1 h2 h3, hn.1 r h1 h2 h3, hn.1 r h1 h2 h3⟩,
    fun h => ⟨fun hz => (hc hz).2 h, fun h2 => ⟨hn.2 h2 h, hn.2 h2 h⟩⟩⟩

theorem rfind_returns_last_occurrence_witness :
    represents examples.abcab ['a', 'b', 'c', 'a', 'b'] ∧ represents examples.ab ['a', 'b'] ∧
    ['a', 'b', 'c', 'a', 'b'] ≠ [] ∧ ['a', 'b'] ≠ [] ∧ (∀ c, c ∈ ['a', 'b'] → c ≠ 0) ∧
    rfind_cstr examples.abcab (['a', 'b'] ++ 0 :: []) 4 = Res.ok 3 ∧
    rfind_n examples.abcab ['a', 'b'] 4 ['a', 'b'].length = Res.ok 3 ∧
    rfind_str examples.abcab examples.ab 4 = Res.ok 3 :=
  ⟨by decide, by decide, by decide, by decide, by decide,
    (fun t => ⟨t.1 (by decide), t.2⟩)
      ((rfind_returns_last_occurrence examples.abcab examples.ab ['a', 'b', 'c', 'a', 'b']
        ['a', 'b'] [] 4 (by decide) (by decide) (by decide) (by decide)).1 3
        (by decide) (by decide) (fun k _ hk => by
          have : min 4 (['a', 'b', 'c', 'a', 'b'].length - 1) = 4 := by decide
          have : ['a', 'b'].length = 2 := rfl
          omega))⟩

/-- C10. For every non-empty string `S`, character `ch` and `pos` (including `pos = npos`),
`rfind(ch, pos)` returns the largest index `i <= min(pos, length(S) - 1)` with `S[i] == ch`, and
returns `npos` if and only if no such index exists; in particular index 0 is examined. -/
theorem rfind_ch_returns_last_index [DecidableEq α] (s : base_string α) (S : List α) (ch : α)
    (pos : Nat) (hs : represents s S) (hS : S ≠ []) :
    ∃ r, rfind_ch s ch pos = Res.ok r ∧
      (r = npos ↔ ∀ i, i ≤ min pos (S.length - 1) → S[i]? ≠ some ch) ∧
      (r ≠ npos → r ≤ min pos (S.length - 1) ∧ S[r]? = some ch ∧
        ∀ i, i ≤ min pos (S.length - 1) → S[i]? = some ch → i ≤ r) ∧
      (S[0]? = some ch → r ≠ npos) := by
  obtain ⟨r, hr, h1, h2⟩ := rfind_ch_spec hs hS ch pos
  exact ⟨r, hr, h1, h2, fun h0 hn => (h1.mp hn) 0 (Nat.zero_le _) h0⟩

theorem rfind_ch_returns_last_index_witness :
    represents examples.hello_world "hello world".toList ∧ "hello world".toList ≠ [] ∧
    ∃ r, rfind_ch examples.hello_world 'h' npos = Res.ok r ∧
      (r = npos ↔ ∀ i, i ≤ min npos ("hello world".toList.length - 1) →
        "hello world".toList[i]? ≠ some 'h') ∧
      (r ≠ npos → r ≤ min npos ("hello world".toList.length - 1) ∧
        "hello world".toList[r]? = some 'h' ∧
        ∀ i, i ≤ min npos ("hello world".toList.length - 1) →
          "hello world".toList[i]? = some 'h' → i ≤ r) ∧
      ("hello world".toList[0]? = some 'h' → r ≠ npos) :=
  ⟨by decide, by decide,
    rfind_ch_returns_last_index examples.hello_world "hello world".toList 'h' npos
      (by decide) (by decide)⟩

end base_string

/-! ## Character-set search, `count`, `reverse` and `compare` -/

theorem member_at_iff {α : Type} (S C : List α) {k : Nat} (hk : k < S.length) :
    member_at S C k ↔ S[k] ∈ C := by
  unfold member_at
  rw [List.getElem?_eq_getElem hk]

theorem member_at_lt {α : Type} {S C : List α} {k : Nat} (h : member_at S C k) :
    k < S.length := by
  by_contra hk
  unfold member_at at h
  rw [List.getElem?_eq_none (by omega)] at h
  exact h

namespace base_string
variable {α : Type}

theorem find_cstr_empty [DecidableEq α] [Zero α] (s : base_string α) (tl : List α) (pos : Nat) :
    find_cstr s (0 :: tl) pos = Res.ok pos := by
  have h := char_traits.length_eq ([] : List α) tl (fun c hc => by simp at hc) (by simp [SIZE_MOD])
  simp only [List.nil_append, List.length_nil] at h
  unfold find_cstr
  rw [h]
  simp

theorem any_equal_spec [DecidableEq α] (C : List α) (hC : C.length < SIZE_MOD) (ch : α) :
    ∀ fuel j, j ≤ C.length → C.length + 1 - j ≤ fuel →
      ∃ b, any_equal C C.length ch fuel j = Res.ok b ∧ (b = true ↔ ch ∈ C.drop j) := by
  intro fuel
  induction fuel with
  | zero => intro j h1 h2; omega
  | succ fuel ih =>
    intro j h1 h2
    unfold any_equal
    by_cases hj : j < C.length
    · rw [if_pos hj, read_run_eq hj, List.drop_eq_getElem_cons hj]
      simp only [Res.bind_eq, Res.ok_bind, Res.pure_eq]
      by_cases hc : ch = C[j]
      · rw [if_pos hc]
        exact ⟨true, rfl, fun _ => by rw [hc]; exact List.mem_cons_self _ _, fun _ => rfl⟩
      · rw [if_neg hc, add_sz_eq (by omega)]
        obtain ⟨b, hb, hiff⟩ := ih (j + 1) (by omega) (by omega)
        refine ⟨b, hb, hiff.trans ⟨fun h => List.mem_cons_of_mem _ h, fun h => ?_⟩⟩
        rcases List.mem_cons.mp h with h | h
        · exact absurd h hc
        · exact h
    · rw [if_neg hj, List.drop_eq_nil_of_le (by omega)]
      exact ⟨false, rfl, by simp⟩

theorem any_equal_mem [DecidableEq α] (C : List α) (hC : C.length < SIZE_MOD) (ch : α) :
    ∃ b, any_equal C C.length ch (C.length + 1) 0 = Res.ok b ∧ (b = true ↔ ch ∈ C) := by
  simpa using any_equal_spec C hC ch (C.length + 1) 0 (by omega) (by omega)

theorem find_first_of_n_loop_spec [DecidableEq α] {s : base_string α} {S : List α}
    (hs : represents s S) (C : List α) (hC : C.length < SIZE_MOD) :
    ∀ fuel i, S.length - i + 1 ≤ fuel →
      ∃ r, find_first_of_n_loop s C C.length fuel i = Res.ok r ∧
        ((r = npos ∧ ∀ k, i ≤ k → ¬ member_at S C k) ∨
         (i ≤ r ∧ r < S.length ∧ member_at S C r ∧
            ∀ k, i ≤ k → k < r → ¬ member_at S C k)) := by
  have hmod := represents_length_lt hs
  intro fuel
  induction fuel with
  | zero => intro i h; omega
  | succ fuel ih =>
    intro i h
    unfold find_first_of_n_loop
    rw [hs.1]
    by_cases hi : i < S.length
    · rw [if_pos hi, load_value_eq hs hi]
      obtain ⟨b, hb, hiff⟩ := any_equal_mem C hC S[i]
      simp only [Res.bind_eq, Res.ok_bind, Res.pure_eq, hb]
      cases b with
      | true =>
        simp only [if_true]
        refine ⟨i, rfl, Or.inr ⟨le_refl _, hi, ?_, fun k h1 h2 => by omega⟩⟩
        exact (member_at_iff S C hi).mpr (hiff.mp rfl)
      | false =>
        have hno : ¬ member_at S C i := fun hm =>
          absurd (hiff.mpr ((member_at_iff S C hi).mp hm)) (by simp)
        rw [add_sz_eq (by omega)]
        obtain ⟨r, hr, hcases⟩ := ih (i + 1) (by omega)
        refine ⟨r, by simpa using hr, ?_⟩
        rcases hcases with ⟨e, hn⟩ | ⟨g1, g2, g3, g4⟩
        · refine Or.inl ⟨e, fun k hk => ?_⟩
          by_cases hki : k = i
          · subst hki; exact hno
          · exact hn k (by omega)
        · refine Or.inr ⟨by omega, g2, g3, fun k hk1 hk2 => ?_⟩
          by_cases hki : k = i
          · subst hki; exact hno
          · exact g4 k (by omega) hk2
    · rw [if_neg hi]
      exact ⟨npos, rfl, Or.inl ⟨rfl, fun k hk hm => by have := member_at_lt hm; omega⟩⟩

theorem count_loop_spec [DecidableEq α] {s : base_string α} {S : List α}
    (hs : represents s S) (ch : α) :
    ∀ fuel i n, S.length - i + 1 ≤ fuel → n + (S.length - i) < SIZE_MOD →
      count_loop s ch fuel i n = Res.ok (n + List.count ch (S.drop i)) := by
  have hmod := represents_length_lt hs
  intro fuel
  induction fuel with
  | zero => intro i n h; omega
  | succ fuel ih =>
    intro i n h hn
    unfold count_loop
    rw [hs.1]
    by_cases hi : i < S.length
    · rw [if_pos hi, load_value_eq hs hi, List.drop_eq_getElem_cons hi, List.count_cons]
      simp only [Res.bind_eq, Res.ok_bind]
      rw [add_sz_eq (show i + 1 < SIZE_MOD by omega)]
      by_cases hc : S[i] = ch
      · rw [if_pos hc, add_sz_eq (by omega), ih (i + 1) (n + 1) (by omega) (by omega)]
        simp [hc]
        omega
      · rw [if_neg hc, ih (i + 1) n (by omega) (by omega)]
        simp [hc]
    · rw [if_neg hi, List.drop_eq_nil_of_le (by omega)]
      simp


theorem iter_swap_spec (b : List (Cell α)) (i j : Nat) (hi : i < b.length) (hj : j < b.length) :
    ∃ r, iter_swap b i j = Res.ok r ∧ r.length = b.length ∧
      ∀ t, r[t]? = if j = t then b[i]? else if i = t then b[j]? else b[t]? := by
  unfold iter_swap
  rw [load_eq hi, load_eq hj]
  simp only [Res.bind_eq, Res.ok_bind]
  rw [store_eq _ hi]
  simp only [Res.ok_bind]
  rw [store_eq _ (by rw [List.length_set]; exact hj)]
  refine ⟨_, rfl, by simp, fun t => ?_⟩
  rw [List.getElem?_set, List.getElem?_set, List.length_set]
  by_cases h1 : j = t
  · rw [if_pos h1, if_pos h1, if_pos hj, List.getElem?_eq_getElem hi]
  · rw [if_neg h1, if_neg h1]
    by_cases h2 : i = t
    · rw [if_pos h2, if_pos h2, if_pos hi, List.getElem?_eq_getElem hj]
    · rw [if_neg h2, if_neg h2]

theorem reverse_loop_spec : ∀ (fuel : Nat) (b : List (Cell α)) (i j : Nat),
    j ≤ b.length → j - i + 1 ≤ fuel →
    ∃ r, reverse_loop b fuel i j = Res.ok r ∧ r.length = b.length ∧
      ∀ t, r[t]? = if i ≤ t ∧ t < j then b[i + j - 1 - t]? else b[t]? := by
  intro fuel
  induction fuel with
  | zero => intro b i j h1 h2; omega
  | succ fuel ih =>
    intro b i j h1 h2
    unfold reverse_loop
    by_cases hij : i < j
    · rw [if_pos hij]
      obtain ⟨b1, hb1, hl1, hg1⟩ := iter_swap_spec b i (j - 1) (by omega) (by omega)
      obtain ⟨r, hr, hl, hg⟩ := ih b1 (i + 1) (j - 1) (by omega) (by omega)
      simp only [hb1, Res.bind_eq, Res.ok_bind]
      refine ⟨r, hr, by omega, fun t => ?_⟩
      rw [hg t]
      by_cases h3 : i + 1 ≤ t ∧ t < j - 1
      · rw [if_pos h3, if_pos (by omega), hg1, if_neg (by omega), if_neg (by omega)]
        congr 1
        omega
      · rw [if_neg h3, hg1]
        by_cases h4 : j - 1 = t
        · rw [if_pos h4, if_pos (by omega)]
          congr 1
          omega
        · rw [if_neg h4]
          by_cases h5 : i = t
          · rw [if_pos h5, if_pos (by omega)]
            congr 1
            omega
          · rw [if_neg h5, if_neg (by omega)]
    · rw [if_neg hij]
      exact ⟨b, rfl, rfl, fun t => by rw [if_neg (by omega)]⟩

theorem reverse_spec (s : base_string α) (S : List α) (hs : represents s S) :
    ∃ s', reverse s = Res.ok s' ∧ represents s' S.reverse ∧ s'.cap_ = s.cap_ ∧
      s'.buffer_.drop s.size_ = s.buffer_.drop s.size_ := by
  have hs0 := hs
  obtain ⟨hsz, hc, hcap, hlen, hmod⟩ := hs
  obtain ⟨r, hr, hl, hg⟩ := reverse_loop_spec (s.size_ + 1) s.buffer_ 0 s.size_ (by omega)
    (by omega)
  unfold reverse
  simp only [hr, Res.bind_eq, Res.ok_bind, Res.pure_eq]
  refine ⟨_, rfl, ?_, rfl, ?_⟩
  · apply represents_of_getElem?
    · simp [hsz]
    · intro k hk
      simp only at hk
      simp only
      rw [hg k, if_pos (by omega), List.getElem?_reverse (by omega),
        represents_getElem? hs0 (by omega)]
      congr 2
      omega
    · exact hcap
    · simp only
      omega
    · simp only
      omega
  · simp only
    apply List.ext_getElem?
    intro t
    rw [List.getElem?_drop, List.getElem?_drop, hg, if_neg (by omega)]

end base_string

theorem char_traits.compare_loop_spec {α : Type} [LinearOrder α] {a b : base_string α}
    {A B : List α} (ha : base_string.represents a A) (hb : base_string.represents b B) :
    ∀ n i, i + n ≤ A.length → i + n ≤ B.length →
      ∃ r, char_traits.compare a.buffer_ i b.buffer_ i n = Res.ok r ∧
        ((r = 0 ∧ ∀ t, i ≤ t → t < i + n → A[t]? = B[t]?) ∨
         (r = -1 ∧ ∃ k, i ≤ k ∧ k < i + n ∧ (∀ t, i ≤ t → t < k → A[t]? = B[t]?) ∧
            ∃ x y, A[k]? = some x ∧ B[k]? = some y ∧ x < y) ∨
         (r = 1 ∧ ∃ k, i ≤ k ∧ k < i + n ∧ (∀ t, i ≤ t → t < k → A[t]? = B[t]?) ∧
            ∃ x y, A[k]? = some x ∧ B[k]? = some y ∧ y < x)) := by
  intro n
  induction n with
  | zero =>
    intro i _ _
    exact ⟨0, rfl, Or.inl ⟨rfl, fun t h1 h2 => by omega⟩⟩
  | succ n ih =>
    intro i h1 h2
    have hiA : i < A.length := by omega
    have hiB : i < B.length := by omega
    unfold char_traits.compare
    rw [base_string.load_value_eq ha hiA, base_string.load_value_eq hb hiB]
    simp only [Res.bind_eq, Res.ok_bind, Res.pure_eq]
    by_cases hlt : A[i] < B[i]
    · rw [if_pos hlt]
      exact ⟨-1, rfl, Or.inr (Or.inl ⟨rfl, i, le_refl _, by omega, fun t h3 h4 => by omega,
        A[i], B[i], List.getElem?_eq_getElem hiA, List.getElem?_eq_getElem hiB, hlt⟩)⟩
    · rw [if_neg hlt]
      by_cases hgt : B[i] < A[i]
      · rw [if_pos hgt]
        exact ⟨1, rfl, Or.inr (Or.inr ⟨rfl, i, le_refl _, by omega, fun t h3 h4 => by omega,
          A[i], B[i], List.getElem?_eq_getElem hiA, List.getElem?_eq_getElem hiB, hgt⟩)⟩
      · rw [if_neg hgt]
        have heq : A[i] = B[i] := le_antisymm (not_lt.mp hgt) (not_lt.mp hlt)
        have heq2 : A[i]? = B[i]? := by
          rw [List.getElem?_eq_getElem hiA, List.getElem?_eq_getElem hiB, heq]
        have hext : ∀ k, (∀ t, i + 1 ≤ t → t < k → A[t]? = B[t]?) →
            ∀ t, i ≤ t → t < k → A[t]? = B[t]? := by
          intro k h t h3 h4
          by_cases hti : t = i
          · subst hti; exact heq2
          · exact h t (by omega) h4
        obtain ⟨r, hr, hcases⟩ := ih (i + 1) (by omega) (by omega)
        refine ⟨r, hr, ?_⟩
        rcases hcases with ⟨e, h⟩ | ⟨e, k, k1, k2, k3, k4⟩ | ⟨e, k, k1, k2, k3, k4⟩
        · exact Or.inl ⟨e, hext _ (fun t h3 h4 => h t h3 (by omega))⟩
        · exact Or.inr (Or.inl ⟨e, k, by omega, by omega, hext k k3, k4⟩)
        · exact Or.inr (Or.inr ⟨e, k, by omega, by omega, hext k k3, k4⟩)

theorem first_difference_less_excl {α : Type} [LinearOrder α] {A B : List α}
    (h1 : first_difference_less A B) (h2 : first_difference_less B A) : False := by
  obtain ⟨k, _, _, hk, x, y, hx, hy, hxy⟩ := h1
  obtain ⟨m, _, _, hm, u, v, hu, hv, huv⟩ := h2
  rcases Nat.lt_trichotomy k m with h | h | h
  · have := hm k h
    rw [hx, hy] at this
    have e : y = x := Option.some.inj this
    exact absurd hxy (by rw [e]; exact lt_irrefl _)
  · subst h
    rw [hx] at hv
    rw [hy] at hu
    have e1 : x = v := Option.some.inj hv
    have e2 : y = u := Option.some.inj hu
    rw [← e1, ← e2] at huv
    exact lt_asymm hxy huv
  · have := hk m h
    rw [hu, hv] at this
    have e : v = u := Option.some.inj this
    exact absurd huv (by rw [e]; exact lt_irrefl _)

theorem first_difference_less_ne {α : Type} [LinearOrder α] {A B : List α}
    (h1 : first_difference_less A B) (m : Nat) (hA : m ≤ A.length) (hB : m ≤ B.length)
    (hm : A.length ≤ m ∨ B.length ≤ m) (h2 : ∀ t, t < m → A[t]? = B[t]?) : False := by
  obtain ⟨k, kA, kB, _, x, y, hx, hy, hxy⟩ := h1
  have := h2 k (by omega)
  rw [hx, hy] at this
  have e : x = y := Option.some.inj this
  exact absurd hxy (by rw [e]; exact lt_irrefl _)

namespace base_string
variable {α : Type}

theorem compare_spec [LinearOrder α] {a b : base_string α} {A B : List α}
    (ha : represents a A) (hb : represents b B) :
    ∃ r, compare a b = Res.ok r ∧ (r = -1 ∨ r = 0 ∨ r = 1) ∧
      (r = -1 ↔ lex_smaller A B) ∧ (r = 1 ↔ lex_smaller B A) ∧ (r = 0 ↔ A = B) := by
  obtain ⟨c, hc, hcases⟩ := char_traits.compare_loop_spec ha hb (min A.length B.length) 0
    (by omega) (by omega)
  unfold compare compare_cstr
  rw [ha.1, hb.1]
  simp only [hc, Res.bind_eq, Res.ok_bind, Res.pure_eq]
  -- the ways the two lists can be related
  have nAB : ¬ (proper_initial_segment A B ∧ proper_initial_segment B A) := fun h => by
    have := h.1.1; have := h.2.1; omega
  have eq_of : A.length = B.length → (∀ t, t < A.length → A[t]? = B[t]?) → A = B := by
    intro hl h
    apply List.ext_getElem?
    intro t
    by_cases ht : t < A.length
    · exact h t ht
    · rw [List.getElem?_eq_none (by omega), List.getElem?_eq_none (by omega)]
  have irr : ¬ first_difference_less A A := fun h => first_difference_less_excl h h
  have nppA : ¬ proper_initial_segment A A := fun h => by have := h.1; omega
  rcases hcases with ⟨e, h⟩ | ⟨e, k, _, k2, k3, x, y, hx, hy, hxy⟩ |
      ⟨e, k, _, k2, k3, x, y, hx, hy, hxy⟩
  · -- equal over the shared length: the lengths decide
    subst e
    have h' : ∀ t, t < min A.length B.length → A[t]? = B[t]? := fun t ht =>
      h t (Nat.zero_le _) (by omega)
    have nfAB : ¬ first_difference_less A B := fun hf =>
      first_difference_less_ne hf (min A.length B.length) (by omega) (by omega) (by omega)
        h'
    have nfBA : ¬ first_difference_less B A := fun hf =>
      first_difference_less_ne hf (min A.length B.length) (by omega) (by omega) (by omega)
        (fun t ht => (h' t (by omega)).symm)
    simp only [ne_eq, not_true_eq_false, if_false]
    by_cases hlt : A.length < B.length
    · have pp : proper_initial_segment A B := ⟨hlt, fun t ht => h' t (by omega)⟩
      rw [if_pos hlt]
      refine ⟨-1, rfl, Or.inl rfl, ⟨fun _ => Or.inr pp, fun _ => rfl⟩,
        ⟨fun h => absurd h (by decide), fun h => ?_⟩,
        ⟨fun h => absurd h (by decide), fun h => ?_⟩⟩
      · rcases h with h | h
        · exact absurd h nfBA
        · exact absurd ⟨pp, h⟩ nAB
      · rw [h] at hlt; omega
    · rw [if_neg hlt]
      by_cases hgt : A.length > B.length
      · have pp : proper_initial_segment B A := ⟨hgt, fun t ht => (h' t (by omega)).symm⟩
        rw [if_pos hgt]
        refine ⟨1, rfl, Or.inr (Or.inr rfl), ⟨fun h => absurd h (by decide), fun h => ?_⟩,
          ⟨fun _ => Or.inr pp, fun _ => rfl⟩, ⟨fun h => absurd h (by decide), fun h => ?_⟩⟩
        · rcases h with h | h
          · exact absurd h nfAB
          · exact absurd ⟨h, pp⟩ nAB
        · rw [h] at hgt; omega
      · rw [if_neg hgt]
        have hAB : A = B := eq_of (by omega) (fun t ht => h' t (by omega))
        refine ⟨0, rfl, Or.inr (Or.inl rfl), ⟨fun h => absurd h (by decide), fun h => ?_⟩,
          ⟨fun h => absurd h (by decide), fun h => ?_⟩, ⟨fun _ => hAB, fun _ => rfl⟩⟩
        · rw [hAB] at h
          rcases h with h | h
          · exact absurd h (fun h => first_difference_less_excl h h)
          · have := h.1; omega
        · rw [hAB] at h
          rcases h with h | h
          · exact absurd h (fun h => first_difference_less_excl h h)
          · have := h.1; omega
  · -- the first difference has the smaller element in `A`
    subst e
    have fAB : first_difference_less A B :=
      ⟨k, by omega, by omega, fun t ht => k3 t (Nat.zero_le _) ht, x, y, hx, hy, hxy⟩
    rw [if_pos (by decide)]
    refine ⟨-1, rfl, Or.inl rfl, ⟨fun _ => Or.inl fAB, fun _ => rfl⟩,
      ⟨fun h => absurd h (by decide), fun h => ?_⟩, ⟨fun h => absurd h (by decide), fun h => ?_⟩⟩
    · rcases h with h | h
      · exact (first_difference_less_excl fAB h).elim
      · exact (first_difference_less_ne fAB B.length (by have := h.1; omega) (le_refl _)
          (Or.inr (le_refl _)) (fun t ht => (h.2 t ht).symm)).elim
    · rw [h] at fAB
      exact (first_difference_less_excl fAB fAB).elim
  · -- the first difference has the smaller element in `B`
    subst e
    have fBA : first_difference_less B A :=
      ⟨k, by omega, by omega, fun t ht => (k3 t (Nat.zero_le _) ht).symm, y, x, hy, hx, hxy⟩
    rw [if_pos (by decide)]
    refine ⟨1, rfl, Or.inr (Or.inr rfl), ⟨fun h => absurd h (by decide), fun h => ?_⟩,
      ⟨fun _ => Or.inl fBA, fun _ => rfl⟩, ⟨fun h => absurd h (by decide), fun h => ?_⟩⟩
    · rcases h with h | h
      · exact (first_difference_less_excl h fBA).elim
      · exact (first_difference_less_ne fBA A.length (by have := h.1; omega) (le_refl _)
          (Or.inr (le_refl _)) (fun t ht => (h.2 t ht).symm)).elim
    · rw [h] at fBA
      exact (first_difference_less_excl fBA fBA).elim


theorem rfind_cstr_empty [DecidableEq α] [Zero α] {s : base_string α} {S : List α}
    (hs : represents s S) (hS : S ≠ []) (tl : List α) (pos : Nat) :
    rfind_cstr s (0 :: tl) pos = Res.ok (min pos (S.length - 1)) := by
  have h := char_traits.length_eq ([] : List α) tl (fun c hc => by simp at hc)
    (by simp [SIZE_MOD])
  simp only [List.nil_append, List.length_nil] at h
  unfold rfind_cstr
  simp only [clamp_eq hs hS, h, Res.bind_eq, Res.ok_bind, Res.pure_eq]

theorem rfind_str_empty [DecidableEq α] [Zero α] {s p : base_string α} {S : List α}
    (hs : represents s S) (hS : S ≠ []) (hp : represents p []) (pos : Nat) :
    rfind_str s p pos = Res.ok (min pos (S.length - 1)) := by
  have h0 : p.size_ = 0 := hp.1
  unfold rfind_str
  simp only [clamp_eq hs hS, h0, if_true, Res.pure_eq]

theorem compare_pair [LinearOrder α] {a b : base_string α} {A B : List α}
    (ha : represents a A) (hb : represents b B) :
    ∃ r1 r2 : Int, compare a b = Res.ok r1 ∧ compare b a = Res.ok r2 ∧
      ((r1 = -1 ∧ r2 = 1 ∧ A ≠ B) ∨ (r1 = 0 ∧ r2 = 0 ∧ A = B) ∨ (r1 = 1 ∧ r2 = -1 ∧ A ≠ B)) := by
  obtain ⟨r1, h1, t1, l1, g1, e1⟩ := compare_spec ha hb
  obtain ⟨r2, h2, t2, l2, g2, e2⟩ := compare_spec hb ha
  refine ⟨r1, r2, h1, h2, ?_⟩
  rcases t1 with h | h | h
  · refine Or.inl ⟨h, g2.mpr (l1.mp h), fun hAB => ?_⟩
    have := e1.mpr hAB
    omega
  · exact Or.inr (Or.inl ⟨h, e2.mpr (e1.mp h).symm, e1.mp h⟩)
  · refine Or.inr (Or.inr ⟨h, l2.mpr (g1.mp h), fun hAB => ?_⟩)
    have := e1.mpr hAB
    omega

end base_string

/-! ## The claims on search with a character set, `reverse`, `compare` and the operators -/

namespace base_string
variable {α : Type}

/-- C11 (code bug). On `"abc"` with `pos = 10` the clamped position is `min(10, 2) = 2`; the
zero-terminated overload and the `base_string` overload of `rfind` return 2 for an empty pattern,
but `rfind(str, 10, 0)` tests `count == 0` before it clamps `pos` and returns 10. -/
theorem rfind_counted_empty_pattern_unclamped :
    represents examples.abc ['a', 'b', 'c'] ∧ represents examples.empty_35 [] ∧
    min 10 (['a', 'b', 'c'].length - 1) = 2 ∧
    rfind_cstr examples.abc [0] 10 = Res.ok 2 ∧
    rfind_str examples.abc examples.empty_35 10 = Res.ok 2 ∧
    rfind_n examples.abc [] 10 0 = Res.ok 10 := by
  decide

/-- C12. For every string and every `pos` (in particular every `pos <= length(S)`), `find` with
an empty pattern returns `pos`, for all three pattern forms: a zero-terminated run of length 0,
a run with explicit count 0, and an empty `base_string`. -/
theorem find_empty_pattern_returns_pos [DecidableEq α] [Zero α] (s p : base_string α)
    (str tl : List α) (pos : Nat) (hp : represents p []) :
    find_cstr s (0 :: tl) pos = Res.ok pos ∧ find_n s str pos 0 = Res.ok pos ∧
      find_str s p pos = Res.ok pos := by
  have h0 : p.size_ = 0 := hp.1
  refine ⟨find_cstr_empty s tl pos, ?_, ?_⟩
  · unfold find_n
    rw [if_pos rfl]
    rfl
  · unfold find_str
    simp only [h0, if_true, Res.pure_eq]

theorem find_empty_pattern_returns_pos_witness :
    represents examples.empty_35 [] ∧
    find_cstr examples.hello_world (0 :: []) 11 = Res.ok 11 ∧
    find_n examples.hello_world [] 11 0 = Res.ok 11 ∧
    find_str examples.hello_world examples.empty_35 11 = Res.ok 11 :=
  ⟨by decide,
    find_empty_pattern_returns_pos examples.hello_world examples.empty_35 [] [] 11 (by decide)⟩

/-- C13. For every string `S`, character set `C` (a run of `count` characters) and `pos`,
`find_first_of(C, pos, count)` returns the smallest index `i` with `pos <= i < length(S)` and
`S[i]` a member of `C`, and returns `npos` if and only if no such index exists (in particular for
an empty set or `pos >= length(S)`). -/
theorem find_first_of_returns_first_member [DecidableEq α] (s : base_string α) (S C : List α)
    (pos : Nat) (hs : represents s S) (hC : C.length < SIZE_MOD) :
    ∃ r, find_first_of_n s C pos C.length = Res.ok r ∧
      (r = npos ↔ ∀ i, pos ≤ i → i < S.length → ¬ member_at S C i) ∧
      (r ≠ npos → pos ≤ r ∧ r < S.length ∧ member_at S C r ∧
        ∀ i, pos ≤ i → i < S.length → member_at S C i → r ≤ i) ∧
      (C = [] ∨ S.length ≤ pos → r = npos) := by
  have hmod := represents_length_lt hs
  obtain ⟨r, hr, hcases⟩ := find_first_of_n_loop_spec hs C hC (S.length + 1) pos (by omega)
  unfold find_first_of_n
  rw [hs.1]
  refine ⟨r, hr, ?_⟩
  rcases hcases with ⟨e, h⟩ | ⟨g1, g2, g3, g4⟩
  · exact ⟨⟨fun _ i hi _ => h i hi, fun _ => e⟩, fun hne => absurd e hne, fun _ => e⟩
  · have hne : r ≠ npos := by unfold npos; unfold SIZE_MOD at hmod; omega
    refine ⟨⟨fun e => absurd e hne, fun h => absurd g3 (h r g1 g2)⟩,
      fun _ => ⟨g1, g2, g3, fun i hi _ hm => ?_⟩, fun h => ?_⟩
    · by_contra hlt
      exact g4 i hi (by omega) hm
    · rcases h with h | h
      · subst h
        rw [member_at_iff _ _ g2] at g3
        simp at g3
      · omega

theorem find_first_of_returns_first_member_witness :
    represents examples.hello_world "hello world".toList ∧ "ow".toList.length < SIZE_MOD ∧
    ∃ r, find_first_of_n examples.hello_world "ow".toList 5 "ow".toList.length = Res.ok r ∧
      (r = npos ↔ ∀ i, 5 ≤ i → i < "hello world".toList.length →
        ¬ member_at "hello world".toList "ow".toList i) ∧
      (r ≠ npos → 5 ≤ r ∧ r < "hello world".toList.length ∧
        member_at "hello world".toList "ow".toList r ∧
        ∀ i, 5 ≤ i → i < "hello world".toList.length →
          member_at "hello world".toList "ow".toList i → r ≤ i) ∧
      ("ow".toList = [] ∨ "hello world".toList.length ≤ 5 → r = npos) :=
  ⟨by decide, by decide,
    find_first_of_returns_first_member examples.hello_world "hello world".toList "ow".toList 5
      (by decide) (by decide)⟩

/-- C14 (code bug). With the default `pos = 0` the loop condition `i >= pos` of `find_last_of`
never fails: `find_last_of('b')` on `"abc"` returns 1, but when no element of `"abc"` is a member
of the set the index wraps below 0 and the next read is outside the block, so the call has no
defined result instead of `npos`; on the empty string the first read is already at index
`size_ - 1 = 2^64 - 1`. -/
theorem find_last_of_without_match_undefined :
    represents examples.abc ['a', 'b', 'c'] ∧ represents examples.empty_35 [] ∧
    (∀ i, i < 3 → ¬ member_at ['a', 'b', 'c'] ['x'] i) ∧
    (∀ i, i < 3 → ¬ member_at ['a', 'b', 'c'] ['x', 'y'] i) ∧
    find_last_of_ch examples.abc 'b' 0 = Res.ok 1 ∧
    find_last_of_ch examples.abc 'x' 0 = Res.fault Fault.undefined_behaviour ∧
    find_last_of_n examples.abc ['x', 'y'] 0 2 = Res.fault Fault.undefined_behaviour ∧
    find_last_of_ch examples.empty_35 'x' 0 = Res.fault Fault.undefined_behaviour ∧
    find_last_of_n examples.empty_35 ['x', 'y'] 0 2 = Res.fault Fault.undefined_behaviour := by
  decide

/-- C15 (code bug). On `"abc"` with the set `"ab"` the elements at index 0 and 1 are members and
the element at index 2 is not, so the answer is 2; `find_first_not_of` returns 0 in the counted
and in the `base_string` overload, because its inner loop returns at the first character of the
set that differs from `S[i]` (with the one-character set `"a"` it returns 1, as it should).  With
an empty set it returns `npos` although no element is a member. -/
theorem find_first_not_of_returns_member :
    represents examples.abc ['a', 'b', 'c'] ∧ represents examples.ab ['a', 'b'] ∧
    member_at ['a', 'b', 'c'] ['a', 'b'] 0 ∧ member_at ['a', 'b', 'c'] ['a', 'b'] 1 ∧
    ¬ member_at ['a', 'b', 'c'] ['a', 'b'] 2 ∧
    find_first_not_of_n examples.abc ['a', 'b'] 0 2 = Res.ok 0 ∧
    find_first_not_of_str examples.abc examples.ab 0 = Res.ok 0 ∧
    find_first_not_of_n examples.abc ['a'] 0 1 = Res.ok 1 ∧
    ¬ member_at ['a', 'b', 'c'] [] 0 ∧
    find_first_not_of_n examples.abc [] 0 0 = Res.ok npos := by
  decide

/-- C16. For every string `S`, character `ch` and `pos`, `count(ch, pos)` equals the number of
occurrences of `ch` among the elements `S[pos..length(S))`, which is 0 when `pos >= length(S)`. -/
theorem count_counts_occurrences [DecidableEq α] (s : base_string α) (S : List α) (ch : α)
    (pos : Nat) (hs : represents s S) :
    count s ch pos = Res.ok (List.count ch (S.drop pos)) ∧
      (S.length ≤ pos → count s ch pos = Res.ok 0) := by
  have hmod := represents_length_lt hs
  have h : count s ch pos = Res.ok (List.count ch (S.drop pos)) := by
    unfold count
    rw [hs.1, count_loop_spec hs ch (S.length + 1) pos 0 (by omega) (by omega), Nat.zero_add]
  refine ⟨h, fun hp => ?_⟩
  rw [h, List.drop_eq_nil_of_le hp]
  rfl

theorem count_counts_occurrences_witness :
    represents examples.hello_world "hello world".toList ∧
    count examples.hello_world 'o' 5 = Res.ok (List.count 'o' ("hello world".toList.drop 5)) ∧
    ("hello world".toList.length ≤ 5 → count examples.hello_world 'o' 5 = Res.ok 0) :=
  ⟨by decide,
    count_counts_occurrences examples.hello_world "hello world".toList 'o' 5 (by decide)⟩

/-- C17. For every string `S` (of even, odd or zero length), `reverse()` yields the string whose
element at index `i` is `S[length(S) - 1 - i]`, and applying `reverse()` twice yields exactly
`S` (the state is the one before the two calls). -/
theorem reverse_is_involution (s : base_string α) (S : List α) (hs : represents s S) :
    ∃ s1 s2, reverse s = Res.ok s1 ∧ s1.size_ = S.length ∧
      (∀ i, i < S.length → (content s1)[i]? = Option.map some S[S.length - 1 - i]?) ∧
      represents s1 S.reverse ∧ reverse s1 = Res.ok s2 ∧ represents s2 S ∧ s2 = s := by
  obtain ⟨s1, h1, r1, c1, d1⟩ := reverse_spec s S hs
  obtain ⟨s2, h2, r2, c2, d2⟩ := reverse_spec s1 S.reverse r1
  rw [List.reverse_reverse] at r2
  have hsz1 : s1.size_ = s.size_ := by rw [r1.1, hs.1, List.length_reverse]
  have hsz2 : s2.size_ = s.size_ := by rw [r2.1, hs.1]
  refine ⟨s1, s2, h1, by rw [r1.1, List.length_reverse], fun i hi => ?_, r1, h2, r2, ?_⟩
  · have hc : content s1 = S.reverse.map some := r1.2.1
    rw [hc, List.getElem?_map, List.getElem?_reverse hi]
  · have hb : s2.buffer_ = s.buffer_ := by
      rw [← List.take_append_drop s.size_ s2.buffer_, ← List.take_append_drop s.size_ s.buffer_]
      congr 1
      · have e2 := r2.2.1
        rw [hsz2] at e2
        rw [e2, hs.2.1]
      · rw [hsz1] at d2
        rw [d2, d1]
    cases s with
    | mk b0 z0 c0 =>
      cases s2 with
      | mk b2 z2 c2' =>
        simp only at hb hsz2 c2 c1
        simp only [base_string.mk.injEq]
        exact ⟨hb, hsz2, by rw [c2, c1]⟩

theorem reverse_is_involution_witness :
    represents examples.abc ['a', 'b', 'c'] ∧
    ∃ s1 s2, reverse examples.abc = Res.ok s1 ∧ s1.size_ = ['a', 'b', 'c'].length ∧
      (∀ i, i < ['a', 'b', 'c'].length →
        (content s1)[i]? = Option.map some ['a', 'b', 'c'][['a', 'b', 'c'].length - 1 - i]?) ∧
      represents s1 ['a', 'b', 'c'].reverse ∧ reverse s1 = Res.ok s2 ∧
      represents s2 ['a', 'b', 'c'] ∧ s2 = examples.abc :=
  ⟨by decide, reverse_is_involution examples.abc ['a', 'b', 'c'] (by decide)⟩


/-- C18. For all strings `A` and `B` over the generic character strategy, `A.compare(B)` returns
a value in `{-1, 0, 1}`: -1 if and only if `A` is lexicographically smaller (smaller element at the
first differing index within the shared length, or `A` a proper prefix of `B`), 1 if and only if
`B` is lexicographically smaller than `A`, and 0 if and only if `A` and `B` have the same length
and the same elements. -/
theorem compare_is_lexicographic [LinearOrder α] (a b : base_string α) (A B : List α)
    (ha : represents a A) (hb : represents b B) :
    ∃ r, compare a b = Res.ok r ∧ (r = -1 ∨ r = 0 ∨ r = 1) ∧
      (r = -1 ↔ lex_smaller A B) ∧ (r = 1 ↔ lex_smaller B A) ∧ (r = 0 ↔ A = B) :=
  compare_spec ha hb

theorem compare_is_lexicographic_witness :
    represents examples.abc ['a', 'b', 'c'] ∧ represents examples.abcd ['a', 'b', 'c', 'd'] ∧
    ∃ r, compare examples.abc examples.abcd = Res.ok r ∧ (r = -1 ∨ r = 0 ∨ r = 1) ∧
      (r = -1 ↔ lex_smaller ['a', 'b', 'c'] ['a', 'b', 'c', 'd']) ∧
      (r = 1 ↔ lex_smaller ['a', 'b', 'c', 'd'] ['a', 'b', 'c']) ∧
      (r = 0 ↔ ['a', 'b', 'c'] = ['a', 'b', 'c', 'd']) :=
  ⟨by decide, by decide,
    compare_is_lexicographic examples.abc examples.abcd ['a', 'b', 'c'] ['a', 'b', 'c', 'd']
      (by decide) (by decide)⟩

/-- C19. For all strings `A` and `B` (generic character strategy) the six relational operators
return a value, exactly one of `A < B`, `A == B`, `B < A` holds, `A == B` holds iff `A` and `B`
have identical content, `A != B` is the negation of `A == B`, `A <= B` holds iff not `B < A`,
`A >= B` iff not `A < B`, and `A > B` iff `B < A`. -/
theorem relational_operators_consistent [LinearOrder α] (a b : base_string α) (A B : List α)
    (ha : represents a A) (hb : represents b B) :
    ∃ lt eq lt_rev ne le ge gt : Bool,
      op_lt a b = Res.ok lt ∧ op_eq a b = Res.ok eq ∧ op_lt b a = Res.ok lt_rev ∧
      op_ne a b = Res.ok ne ∧ op_le a b = Res.ok le ∧ op_ge a b = Res.ok ge ∧
      op_gt a b = Res.ok gt ∧
      ((lt = true ∧ eq = false ∧ lt_rev = false) ∨ (lt = false ∧ eq = true ∧ lt_rev = false) ∨
        (lt = false ∧ eq = false ∧ lt_rev = true)) ∧
      (eq = true ↔ A = B) ∧ ne = !eq ∧ le = !lt_rev ∧ ge = !lt ∧ gt = lt_rev := by
  obtain ⟨r1, r2, h1, h2, hcases⟩ := compare_pair ha hb
  have hsz : A = B → a.size_ = b.size_ := fun h => by rw [ha.1, hb.1, h]
  refine ⟨decide (r1 < 0), decide (a.size_ = b.size_ ∧ r1 = 0), decide (r2 < 0),
    decide (a.size_ ≠ b.size_ ∨ r1 ≠ 0), decide (r1 ≤ 0), decide (r1 ≥ 0), decide (r1 > 0),
    ?_, ?_, ?_, ?_, ?_, ?_, ?_, ?_⟩
  · simp [op_lt, h1]
  · unfold op_eq
    by_cases h : a.size_ = b.size_
    · simp [h, h1]
    · simp [h]
  · simp [op_lt, h2]
  · unfold op_ne
    by_cases h : a.size_ = b.size_
    · simp [h, h1]
    · simp [h]
  · simp [op_le, h1]
  · simp [op_ge, h1]
  · simp [op_gt, h1]
  · rcases hcases with ⟨e1, e2, hne⟩ | ⟨e1, e2, heq⟩ | ⟨e1, e2, hne⟩
    · subst e1 e2
      simp [hne]
    · subst e1 e2
      simp [heq, hsz heq]
    · subst e1 e2
      simp [hne]

theorem relational_operators_consistent_witness :
    represents examples.abc ['a', 'b', 'c'] ∧ represents examples.abcd ['a', 'b', 'c', 'd'] ∧
    ∃ lt eq lt_rev ne le ge gt : Bool,
      op_lt examples.abc examples.abcd = Res.ok lt ∧
      op_eq examples.abc examples.abcd = Res.ok eq ∧
      op_lt examples.abcd examples.abc = Res.ok lt_rev ∧
      op_ne examples.abc examples.abcd = Res.ok ne ∧
      op_le examples.abc examples.abcd = Res.ok le ∧
      op_ge examples.abc examples.abcd = Res.ok ge ∧
      op_gt examples.abc examples.abcd = Res.ok gt ∧
      ((lt = true ∧ eq = false ∧ lt_rev = false) ∨ (lt = false ∧ eq = true ∧ lt_rev = false) ∨
        (lt = false ∧ eq = false ∧ lt_rev = true)) ∧
      (eq = true ↔ ['a', 'b', 'c'] = ['a', 'b', 'c', 'd']) ∧ ne = !eq ∧ le = !lt_rev ∧
      ge = !lt ∧ gt = lt_rev :=
  ⟨by decide, by decide,
    relational_operators_consistent examples.abc examples.abcd ['a', 'b', 'c']
      ['a', 'b', 'c', 'd'] (by decide) (by decide)⟩

/-- C20 (code bug). For `L = "a"` and `R = "bcd"` the overloads `L + R` (both `const&`),
`std::move(L) + R` and `std::move(L) + std::move(R)` return `"abcd"`, but `L + std::move(R)`
returns a string of length 4 that holds `a b d` followed by an indeterminate cell: the range
`insert` it delegates to moves `len = 1` element of the tail instead of the 3 elements of `R`. -/
theorem concat_moved_right_operand_loses_tail :
    represents examples.a_string ['a'] ∧ represents examples.bcd ['b', 'c', 'd'] ∧
    (op_plus examples.a_string examples.bcd).bind (fun r => Res.ok (content r))
      = Res.ok [some 'a', some 'b', some 'c', some 'd'] ∧
    (op_plus_move_left examples.a_string examples.bcd).bind (fun r => Res.ok (content r))
      = Res.ok [some 'a', some 'b', some 'c', some 'd'] ∧
    (op_plus_move_both examples.a_string examples.bcd).bind (fun r => Res.ok (content r))
      = Res.ok [some 'a', some 'b', some 'c', some 'd'] ∧
    (op_plus_move_right examples.a_string examples.bcd).bind
        (fun r => Res.ok (r.size_, content r))
      = Res.ok (4, [some 'a', some 'b', some 'd', none]) := by
  decide

end base_string

/-! ## Which faults an operation can end with, and what a returned value tells -/

theorem Res.bind_eq_ok {β γ : Type} {r : Res β} {k : β → Res γ} {v : γ}
    (h : Res.bind r k = Res.ok v) : ∃ a, r = Res.ok a ∧ k a = Res.ok v := by
  cases r with
  | ok a => exact ⟨a, rfl, h⟩
  | fault f => exact absurd h (by simp)

theorem Res.bind_eq_fault {β γ : Type} {r : Res β} {k : β → Res γ} {f : Fault}
    (h : Res.bind r k = Res.fault f) : r = Res.fault f ∨ ∃ a, r = Res.ok a ∧ k a = Res.fault f := by
  cases r with
  | ok a => exact Or.inr ⟨a, rfl, h⟩
  | fault g =>
    simp only [Res.fault_bind] at h
    injection h with h
    exact Or.inl (by rw [h])

theorem load_fault {α : Type} {b : List (Cell α)} {i : Nat} {f : Fault}
    (h : load b i = Res.fault f) : f = Fault.undefined_behaviour := by
  unfold load at h
  split at h
  · exact absurd h (by simp)
  · injection h with h
    exact h.symm

theorem store_fault {α : Type} {b : List (Cell α)} {i : Nat} {c : Cell α} {f : Fault}
    (h : store b i c = Res.fault f) : f = Fault.undefined_behaviour := by
  unfold store at h
  split at h
  · exact absurd h (by simp)
  · injection h with h
    exact h.symm

namespace char_traits

theorem copy_fault {α : Type} (src : List (Cell α)) (n : Nat) :
    ∀ (dst : List (Cell α)) (d s : Nat) (f : Fault),
      copy dst d src s n = Res.fault f → f = Fault.undefined_behaviour := by
  induction n with
  | zero => intro dst d s f h; exact absurd h (by simp [copy])
  | succ n ih =>
    intro dst d s f h
    unfold copy at h
    simp only [Res.bind_eq] at h
    rcases Res.bind_eq_fault h with h1 | ⟨c, _, h2⟩
    · exact load_fault h1
    · rcases Res.bind_eq_fault h2 with h3 | ⟨b1, _, h4⟩
      · exact store_fault h3
      · exact ih _ _ _ _ h4

theorem fill_fault {α : Type} (ch : α) (n : Nat) :
    ∀ (b : List (Cell α)) (d : Nat) (f : Fault),
      fill b d ch n = Res.fault f → f = Fault.undefined_behaviour := by
  induction n with
  | zero => intro b d f h; exact absurd h (by simp [fill])
  | succ n ih =>
    intro b d f h
    unfold fill at h
    simp only [Res.bind_eq] at h
    rcases Res.bind_eq_fault h with h1 | ⟨b1, _, h2⟩
    · exact store_fault h1
    · exact ih _ _ _ h2

theorem move_up_fault {α : Type} (n : Nat) :
    ∀ (b : List (Cell α)) (d s : Nat) (f : Fault),
      move_up b d s n = Res.fault f → f = Fault.undefined_behaviour := by
  induction n with
  | zero => intro b d s f h; exact absurd h (by simp [move_up])
  | succ n ih =>
    intro b d s f h
    unfold move_up at h
    simp only [Res.bind_eq] at h
    rcases Res.bind_eq_fault h with h1 | ⟨c, _, h2⟩
    · exact load_fault h1
    · rcases Res.bind_eq_fault h2 with h3 | ⟨b1, _, h4⟩
      · exact store_fault h3
      · exact ih _ _ _ _ h4

theorem move_down_fault {α : Type} (n : Nat) :
    ∀ (b : List (Cell α)) (d s : Nat) (f : Fault),
      move_down b d s n = Res.fault f → f = Fault.undefined_behaviour := by
  induction n with
  | zero => intro b d s f h; exact absurd h (by simp [move_down])
  | succ n ih =>
    intro b d s f h
    unfold move_down at h
    simp only [Res.bind_eq] at h
    rcases Res.bind_eq_fault h with h1 | ⟨c, _, h2⟩
    · exact load_fault h1
    · rcases Res.bind_eq_fault h2 with h3 | ⟨b1, _, h4⟩
      · exact store_fault h3
      · exact ih _ _ _ _ h4

theorem move_fault {α : Type} {b : List (Cell α)} {d s n : Nat} {f : Fault}
    (h : move b d s n = Res.fault f) : f = Fault.undefined_behaviour := by
  unfold move at h
  split at h
  · exact move_up_fault _ _ _ _ _ h
  · split at h
    · exact move_down_fault _ _ _ _ _ h
    · exact absurd h (by simp)

theorem length_loop_fault {α : Type} [DecidableEq α] [Zero α] (str : List α) :
    ∀ (fuel i : Nat) (f : Fault), length_loop str fuel i = Res.fault f →
      f = Fault.undefined_behaviour ∨ f = Fault.fuel_exhausted := by
  intro fuel
  induction fuel with
  | zero =>
    intro i f h
    simp only [length_loop] at h
    injection h with h
    exact Or.inr h.symm
  | succ fuel ih =>
    intro i f h
    unfold length_loop at h
    simp only [Res.bind_eq] at h
    rcases Res.bind_eq_fault h with h1 | ⟨c, _, h2⟩
    · unfold read_run at h1
      split at h1
      · exact absurd h1 (by simp)
      · injection h1 with h1
        exact Or.inl h1.symm
    · split at h2
      · exact ih _ _ h2
      · exact absurd h2 (by simp)

end char_traits

namespace base_string
variable {α : Type}

theorem reallocate_fault {s : base_string α} {need : Nat} {f : Fault}
    (h : reallocate s need = Res.fault f) : f = Fault.undefined_behaviour := by
  unfold reallocate char_traits.move_blocks at h
  simp only [Res.bind_eq, Res.pure_eq] at h
  rcases Res.bind_eq_fault h with h1 | ⟨b, _, h2⟩
  · exact char_traits.copy_fault _ _ _ _ _ _ h1
  · exact absurd h2 (by simp)

theorem append_fault {s : base_string α} {n : Nat} {ch : α} {f : Fault}
    (h : append s n ch = Res.fault f) :
    (f = Fault.length_error ∧ s.size_ > sub_sz npos n) ∨
      (f = Fault.undefined_behaviour ∧ ¬ s.size_ > sub_sz npos n) := by
  unfold append at h
  split at h
  · injection h with h
    exact Or.inl ⟨h.symm, by assumption⟩
  · refine Or.inr ⟨?_, by assumption⟩
    simp only [Res.bind_eq, Res.pure_eq] at h
    split at h
    · rcases Res.bind_eq_fault h with h1 | ⟨s1, _, h2⟩
      · exact reallocate_fault h1
      · rcases Res.bind_eq_fault h2 with h3 | ⟨b, _, h4⟩
        · exact char_traits.fill_fault _ _ _ _ _ h3
        · exact absurd h4 (by simp)
    · rw [Res.ok_bind] at h
      rcases Res.bind_eq_fault h with h3 | ⟨b, _, h4⟩
      · exact char_traits.fill_fault _ _ _ _ _ h3
      · exact absurd h4 (by simp)

theorem replace_cstr_from_fault {s : base_string α} {first count1 : Nat} {src : List (Cell α)}
    {off count2 : Nat} {f : Fault}
    (h : replace_cstr_from s first count1 src off count2 = Res.fault f) :
    f = Fault.length_error ∨ f = Fault.undefined_behaviour := by
  unfold replace_cstr_from at h
  simp only [Res.bind_eq, Res.pure_eq] at h
  generalize (if sub_sz s.size_ first < count1 then sub_sz s.size_ first else count1) = c at h
  split at h
  · split at h
    · injection h with h
      exact Or.inl h.symm
    · split at h
      · rcases Res.bind_eq_fault h with h1 | ⟨_, _, h2⟩
        · exact Or.inr (reallocate_fault h1)
        · injection h2 with h2
          exact Or.inr h2.symm
      · rcases Res.bind_eq_fault h with h1 | ⟨_, _, h2⟩
        · exact Or.inr (char_traits.move_fault h1)
        · rcases Res.bind_eq_fault h2 with h3 | ⟨_, _, h4⟩
          · exact Or.inr (char_traits.copy_fault _ _ _ _ _ _ h3)
          · exact absurd h4 (by simp)
  · rcases Res.bind_eq_fault h with h1 | ⟨_, _, h2⟩
    · exact Or.inr (char_traits.move_fault h1)
    · rcases Res.bind_eq_fault h2 with h3 | ⟨_, _, h4⟩
      · exact Or.inr (char_traits.copy_fault _ _ _ _ _ _ h3)
      · exact absurd h4 (by simp)

theorem replace_cstr_eq_from (s : base_string α) (first count1 : Nat) (str : List α)
    (count2 : Nat) :
    replace_cstr s first count1 str count2
      = replace_cstr_from s first count1 (str.map some) 0 count2 := rfl

theorem replace_fill_fault {s : base_string α} {first count1 count2 : Nat} {ch : α} {f : Fault}
    (h : replace_fill s first count1 count2 ch = Res.fault f) :
    f = Fault.length_error ∨ f = Fault.undefined_behaviour := by
  unfold replace_fill at h
  simp only [Res.bind_eq, Res.pure_eq] at h
  generalize (if sub_sz s.size_ first < count1 then sub_sz s.size_ first else count1) = c at h
  split at h
  · split at h
    · injection h with h
      exact Or.inl h.symm
    · split at h
      · rcases Res.bind_eq_fault h with h1 | ⟨_, _, h2⟩
        · exact Or.inr (reallocate_fault h1)
        · injection h2 with h2
          exact Or.inr h2.symm
      · rcases Res.bind_eq_fault h with h1 | ⟨_, _, h2⟩
        · exact Or.inr (char_traits.move_fault h1)
        · rcases Res.bind_eq_fault h2 with h3 | ⟨_, _, h4⟩
          · exact Or.inr (char_traits.fill_fault _ _ _ _ _ h3)
          · exact absurd h4 (by simp)
  · rcases Res.bind_eq_fault h with h1 | ⟨_, _, h2⟩
    · exact Or.inr (char_traits.move_fault h1)
    · rcases Res.bind_eq_fault h2 with h3 | ⟨_, _, h4⟩
      · exact Or.inr (char_traits.fill_fault _ _ _ _ _ h3)
      · exact absurd h4 (by simp)

theorem replace_cptr_body_fault [DecidableEq α] [Zero α] {s : base_string α} {pos count : Nat}
    {str : List α} {f : Fault}
    (h : ((char_traits.length str).bind fun n => replace_cstr s pos count str n)
      = Res.fault f) : f ≠ Fault.out_of_range := by
  rcases Res.bind_eq_fault h with h1 | ⟨n, _, h2⟩
  · unfold char_traits.length at h1
    rcases char_traits.length_loop_fault _ _ _ _ h1 with e | e <;> rw [e] <;> decide
  · rw [replace_cstr_eq_from] at h2
    rcases replace_cstr_from_fault h2 with e | e <;> rw [e] <;> decide

end base_string

namespace base_string
variable {α : Type}

/-! ### Capacity of the state a call returns -/

theorem move_blocks_fresh (s : base_string α) (S : List α) (hs : represents s S) (n : Nat)
    (hn : s.size_ ≤ n) :
    ∃ r, char_traits.move_blocks (allocate n) 0 s.buffer_ 0 s.size_ = Res.ok r ∧ r.length = n ∧
      ∀ k, k < s.size_ → r[k]? = Option.map some S[k]? := by
  obtain ⟨hsz, hc, hcap, hlen, hmod⟩ := hs
  obtain ⟨r, hr, hrl, hrg⟩ := char_traits.copy_spec s.buffer_ s.size_ (allocate n) 0 0
    (by rw [allocate_length]; omega) (by omega)
  rw [allocate_length] at hrl
  refine ⟨r, hr, hrl, ?_⟩
  intro k hk
  rw [hrg k, if_pos (by omega)]
  simpa using represents_getElem? ⟨hsz, hc, hcap, hlen, hmod⟩ hk

theorem reserve_spec (s : base_string α) (S : List α) (n : Nat) (hs : represents s S)
    (hn : n < SIZE_MOD) :
    ∃ s', reserve s n = Res.ok s' ∧ represents s' S ∧ s'.cap_ = max s.cap_ n ∧
      (n ≤ s.cap_ → s' = s) := by
  have hs0 := hs
  obtain ⟨hsz, hc, hcap, hlen, hmod⟩ := hs
  unfold reserve
  by_cases hlt : s.cap_ < n
  · have hmax : ¬ n > max_size := by unfold max_size npos; unfold SIZE_MOD at hn; omega
    obtain ⟨r, hr, hrl, hrg⟩ := move_blocks_fresh s S hs0 n (by omega)
    rw [if_pos hlt, if_neg hmax]
    simp only [hr, Res.bind_eq, Res.ok_bind, Res.pure_eq]
    refine ⟨_, rfl, ?_, ?_, ?_⟩
    · apply represents_of_getElem?
      · exact hsz
      · exact hrg
      · simp only
        omega
      · simp only
        omega
      · simp only
        omega
    · simp only
      omega
    · intro h
      omega
  · rw [if_neg hlt]
    exact ⟨s, rfl, hs0, by omega, fun _ => rfl⟩

theorem shrink_to_fit_spec (s : base_string α) (S : List α) (hs : represents s S) :
    ∃ s', shrink_to_fit s = Res.ok s' ∧ represents s' S ∧ s'.cap_ = S.length := by
  have hs0 := hs
  obtain ⟨hsz, hc, hcap, hlen, hmod⟩ := hs
  unfold shrink_to_fit
  by_cases hne : s.size_ ≠ s.cap_
  · obtain ⟨r, hr, hrl, hrg⟩ := move_blocks_fresh s S hs0 s.size_ (le_refl _)
    rw [if_pos hne]
    unfold reinsert
    simp only [hr, Res.bind_eq, Res.ok_bind, Res.pure_eq]
    refine ⟨_, rfl, ?_, hsz⟩
    apply represents_of_getElem?
    · exact hsz
    · exact hrg
    · exact le_refl _
    · simp only
      omega
    · simp only
      omega
  · rw [if_neg hne]
    exact ⟨s, rfl, hs0, by omega⟩

theorem at_index_spec [Zero α] (s : base_string α) (S : List α) (n : Nat)
    (hs : represents s S) :
    (at_index s n = Res.fault Fault.out_of_range ↔ S.length ≤ n) ∧
      ∀ h : n < S.length, at_index s n = Res.ok (S[n], s) := by
  have hsz := hs.1
  unfold at_index
  constructor
  · constructor
    · intro h
      by_contra hn
      rw [if_neg (by omega)] at h
      unfold subscript_state at h
      rw [if_neg (by omega), load_value_eq hs (by omega)] at h
      simp only [Res.bind_eq, Res.ok_bind, Res.pure_eq] at h
      exact absurd h (by simp)
    · intro h
      rw [if_pos (by omega)]
  · intro h
    rw [if_neg (by omega)]
    unfold subscript_state
    rw [if_neg (by omega), load_value_eq hs h]
    rfl

end base_string

namespace base_string
variable {α : Type}

/-! ## The claims on checked access, capacity, moves and default construction -/

/-- C21. For every string `S` and index `n`, `at(n)` raises `out_of_range` if and only if
`n >= length(S)`; otherwise it returns the element `S[n]` and leaves the members of the string
(so its content, length and capacity) unchanged. -/
theorem at_raises_iff_index_beyond_length [Zero α] (s : base_string α) (S : List α) (n : Nat)
    (hs : represents s S) :
    (at_index s n = Res.fault Fault.out_of_range ↔ S.length ≤ n) ∧
      ∀ h : n < S.length, at_index s n = Res.ok (S[n], s) :=
  at_index_spec s S n hs

theorem at_raises_iff_index_beyond_length_witness :
    represents examples.abc ['a', 'b', 'c'] ∧
    (at_index examples.abc 1 = Res.fault Fault.out_of_range ↔ ['a', 'b', 'c'].length ≤ 1) ∧
      ∀ h : 1 < ['a', 'b', 'c'].length,
        at_index examples.abc 1 = Res.ok (['a', 'b', 'c'][1], examples.abc) :=
  ⟨by decide, at_raises_iff_index_beyond_length examples.abc ['a', 'b', 'c'] 1 (by decide)⟩

/-- C22 (counterexample). For `S = "abc"` and `T = "ab"` the call `S.replace(3, 0, T, 3, 0)` has
`pos1 == length(S)`, yet it raises `out_of_range`: the overload with a position into the source
string also checks `pos2 > length(T)`. -/
theorem replace_sub_raises_at_length :
    represents examples.abc ['a', 'b', 'c'] ∧ represents examples.ab ['a', 'b'] ∧
    replace_sub examples.abc 3 0 examples.ab 3 0 = Res.fault Fault.out_of_range ∧
    replace_sub_call examples.abc 3 0 examples.ab 3 0
      = (some examples.abc, Res.fault Fault.out_of_range) := by
  decide

/-- C22 (amended). For every string `S` and every index-based `replace` overload,
`replace(pos, ...)` raises `out_of_range` if `pos > length(S)`, and in that case the members of
the string (content, length and capacity) are unchanged; with `pos == length(S)` it does not
raise `out_of_range`, except that the overload `replace(pos1, count1, str, pos2, count2)` raises
`out_of_range` (leaving the string unchanged) also when `pos2 > length(str)`, and with
`pos1 == length(S)` and `pos2 <= length(str)` it does not. -/
theorem replace_raises_iff_position_beyond_length [DecidableEq α] [Zero α]
    (s : base_string α) (S : List α) (hs : represents s S) (pos count count2 pos2 : Nat)
    (str : base_string α) (run : List α) (ch : α) :
    (S.length < pos →
      (replace_str s pos count str = Res.fault Fault.out_of_range ∧
        replace_str_call s pos count str = (some s, Res.fault Fault.out_of_range)) ∧
      (replace_cptr s pos count run = Res.fault Fault.out_of_range ∧
        replace_cptr_call s pos count run = (some s, Res.fault Fault.out_of_range)) ∧
      (replace s pos count run count2 = Res.fault Fault.out_of_range ∧
        replace_call s pos count run count2 = (some s, Res.fault Fault.out_of_range)) ∧
      (replace_count_ch s pos count count2 ch = Res.fault Fault.out_of_range ∧
        replace_count_ch_call s pos count count2 ch
          = (some s, Res.fault Fault.out_of_range))) ∧
    (S.length < pos ∨ str.size_ < pos2 →
      replace_sub s pos count str pos2 count2 = Res.fault Fault.out_of_range ∧
        replace_sub_call s pos count str pos2 count2
          = (some s, Res.fault Fault.out_of_range)) ∧
    (pos = S.length →
      replace_str s pos count str ≠ Res.fault Fault.out_of_range ∧
      replace_cptr s pos count run ≠ Res.fault Fault.out_of_range ∧
      replace s pos count run count2 ≠ Res.fault Fault.out_of_range ∧
      replace_count_ch s pos count count2 ch ≠ Res.fault Fault.out_of_range ∧
      (pos2 ≤ str.size_ →
        replace_sub s pos count str pos2 count2 ≠ Res.fault Fault.out_of_range)) := by
  have hsz := hs.1
  refine ⟨?_, ?_, ?_⟩
  · intro h
    have hp : pos > s.size_ := by omega
    unfold replace_str replace_str_call replace_cptr replace_cptr_call replace replace_call
      replace_count_ch replace_count_ch_call guarded
    simp only [hp, if_true, decide_True, and_self]
  · intro h
    have hp : pos > s.size_ ∨ pos2 > str.size_ := by omega
    unfold replace_sub replace_sub_call guarded
    simp only [hp, if_true, decide_True, and_self]
  · intro h
    have hp : ¬ pos > s.size_ := by omega
    refine ⟨?_, ?_, ?_, ?_, ?_⟩
    · unfold replace_str
      rw [if_neg hp]
      intro hf
      rcases replace_cstr_from_fault hf with e | e <;> exact absurd e (by decide)
    · unfold replace_cptr
      rw [if_neg hp]
      intro hf
      exact replace_cptr_body_fault hf rfl
    · unfold replace
      rw [if_neg hp, replace_cstr_eq_from]
      intro hf
      rcases replace_cstr_from_fault hf with e | e <;> exact absurd e (by decide)
    · unfold replace_count_ch
      rw [if_neg hp]
      intro hf
      rcases replace_fill_fault hf with e | e <;> exact absurd e (by decide)
    · intro h2
      unfold replace_sub
      rw [if_neg (by omega)]
      intro hf
      rcases replace_cstr_from_fault hf with e | e <;> exact absurd e (by decide)

theorem replace_raises_iff_position_beyond_length_witness :
    represents examples.abc ['a', 'b', 'c'] ∧
    replace_str_call examples.abc 4 0 examples.ab
      = (some examples.abc, Res.fault Fault.out_of_range) ∧
    replace_count_ch examples.abc 4 0 2 'x' = Res.fault Fault.out_of_range ∧
    replace_str examples.abc 3 0 examples.ab ≠ Res.fault Fault.out_of_range ∧
    replace_sub examples.abc 3 0 examples.ab 2 0 ≠ Res.fault Fault.out_of_range :=
  ⟨by decide,
    ((replace_raises_iff_position_beyond_length examples.abc ['a', 'b', 'c'] (by decide) 4 0 2 0
      examples.ab ['a', 'b', 0] 'x').1 (by decide)).1.2,
    ((replace_raises_iff_position_beyond_length examples.abc ['a', 'b', 'c'] (by decide) 4 0 2 0
      examples.ab ['a', 'b', 0] 'x').1 (by decide)).2.2.2.1,
    ((replace_raises_iff_position_beyond_length examples.abc ['a', 'b', 'c'] (by decide) 3 0 2 2
      examples.ab ['a', 'b', 0] 'x').2.2 rfl).1,
    ((replace_raises_iff_position_beyond_length examples.abc ['a', 'b', 'c'] (by decide) 3 0 0 2
      examples.ab ['a', 'b', 0] 'x').2.2 rfl).2.2.2.2 (by decide)⟩

/-- C23. For every string `S`, count `n` (a `size_type`) and character `ch`, `append(n, ch)`
raises `length_error` if and only if `length(S) + n`, computed without wrap-around, exceeds
`max_size() = 2^64 - 1`, and when it raises the members of the string (content, length and
capacity) are unchanged. -/
theorem append_raises_iff_length_exceeds_max_size (s : base_string α) (S : List α) (n : Nat)
    (ch : α) (hs : represents s S) (hn : n < SIZE_MOD) :
    max_size + 1 = SIZE_MOD ∧
    (append s n ch = Res.fault Fault.length_error ↔ max_size < S.length + n) ∧
    (max_size < S.length + n →
      append_call s n ch = (some s, Res.fault Fault.length_error)) := by
  have hnp : npos + 1 = SIZE_MOD := by decide
  have hsz := hs.1
  have e0 : sub_sz npos n = npos - n := sub_sz_eq (by omega) (by omega)
  have hg : max_size < S.length + n → s.size_ > sub_sz npos n := by
    unfold max_size
    omega
  refine ⟨hnp, ⟨?_, ?_⟩, ?_⟩
  · intro h
    rcases append_fault h with ⟨_, h1⟩ | ⟨h1, _⟩
    · unfold max_size
      omega
    · exact absurd h1 (by decide)
  · intro h
    unfold append
    rw [if_pos (hg h)]
  · intro h
    unfold append_call guarded
    simp only [hg h, decide_True, if_true]

theorem append_raises_iff_length_exceeds_max_size_witness :
    represents examples.abc ['a', 'b', 'c'] ∧ npos < SIZE_MOD ∧
    max_size + 1 = SIZE_MOD ∧
    (append examples.abc npos 'x' = Res.fault Fault.length_error
      ↔ max_size < ['a', 'b', 'c'].length + npos) ∧
    (max_size < ['a', 'b', 'c'].length + npos →
      append_call examples.abc npos 'x' = (some examples.abc, Res.fault Fault.length_error)) :=
  ⟨by decide, by decide,
    append_raises_iff_length_exceeds_max_size examples.abc ['a', 'b', 'c'] npos 'x' (by decide)
      (by decide)⟩

/-- C25. For every string `S` and every `n` (a `size_type`), `reserve(n)` returns and leaves the
content and length of `S` unchanged; if `n <= capacity()` it changes no member at all, and
otherwise `capacity()` afterwards equals `n`, so in all cases the capacity afterwards is
`max(old capacity, n)`. -/
theorem reserve_sets_capacity_to_max (s : base_string α) (S : List α) (n : Nat)
    (hs : represents s S) (hn : n < SIZE_MOD) :
    ∃ s', reserve s n = Res.ok s' ∧ represents s' S ∧ s'.size_ = s.size_ ∧
      content s' = content s ∧ (n ≤ capacity s → s' = s) ∧ (capacity s < n → capacity s' = n) ∧
      capacity s' = max (capacity s) n := by
  obtain ⟨s', h1, h2, h3, h4⟩ := reserve_spec s S n hs hn
  unfold capacity
  refine ⟨s', h1, h2, by rw [h2.1, hs.1], ?_, h4, ?_, h3⟩
  · unfold content
    rw [h2.2.1, hs.2.1]
  · intro h
    omega

theorem reserve_sets_capacity_to_max_witness :
    represents examples.abc ['a', 'b', 'c'] ∧ 100 < SIZE_MOD ∧
    ∃ s', reserve examples.abc 100 = Res.ok s' ∧ represents s' ['a', 'b', 'c'] ∧
      s'.size_ = examples.abc.size_ ∧ content s' = content examples.abc ∧
      (100 ≤ capacity examples.abc → s' = examples.abc) ∧
      (capacity examples.abc < 100 → capacity s' = 100) ∧
      capacity s' = max (capacity examples.abc) 100 :=
  ⟨by decide, by decide,
    reserve_sets_capacity_to_max examples.abc ['a', 'b', 'c'] 100 (by decide) (by decide)⟩

/-- C26. For every string `S`, `shrink_to_fit()` returns, the capacity afterwards equals
`length(S)` exactly, and the content and length of `S` are unchanged. -/
theorem shrink_to_fit_sets_capacity_to_length (s : base_string α) (S : List α)
    (hs : represents s S) :
    ∃ s', shrink_to_fit s = Res.ok s' ∧ capacity s' = S.length ∧ represents s' S ∧
      s'.size_ = s.size_ ∧ content s' = content s := by
  obtain ⟨s', h1, h2, h3⟩ := shrink_to_fit_spec s S hs
  refine ⟨s', h1, h3, h2, by rw [h2.1, hs.1], ?_⟩
  unfold content
  rw [h2.2.1, hs.2.1]

theorem shrink_to_fit_sets_capacity_to_length_witness :
    represents examples.hello_world "hello world".toList ∧
    ∃ s', shrink_to_fit examples.hello_world = Res.ok s' ∧
      capacity s' = "hello world".toList.length ∧ represents s' "hello world".toList ∧
      s'.size_ = examples.hello_world.size_ ∧ content s' = content examples.hello_world :=
  ⟨by decide,
    shrink_to_fit_sets_capacity_to_length examples.hello_world "hello world".toList (by decide)⟩

/-- C27 (code bug). On the default-constructed string (`size_ == cap_ == 0`, 35 cells allocated)
the iterator-range call `replace(begin(), begin(), first2, last2)` with the one element `'a'`
between `first2` and `last2` returns with `size_ == 1` and `cap_ == 0`: the growth test of
`replace_copy` is `size_ > cap_ - add` (line 1771), whose right side wraps to `2^64 - 1`, so no
growth happens and `length <= capacity` no longer holds.  The single-character `insert` on the
same state does not return a string at all. -/
theorem replace_range_breaks_length_le_capacity :
    represents examples.default_constructed [] ∧
    examples.default_constructed.size_ ≤ examples.default_constructed.cap_ ∧
    sub_sz examples.default_constructed.cap_ 1 = npos ∧
    (replace_range examples.default_constructed 0 0 examples.a_string.buffer_ 0 1).bind
        (fun r => Res.ok (r.size_, r.cap_, content r))
      = Res.ok (1, 0, [some 'a']) ∧
    (replace_range examples.default_constructed 0 0 examples.a_string.buffer_ 0 1).bind
        (fun r => Res.ok (decide (r.size_ ≤ r.cap_)))
      = Res.ok false ∧
    insert examples.default_constructed 0 'a' = Res.fault Fault.undefined_behaviour := by
  decide

/-- C28 (code bug). After default construction and `push_back('a')` the block has 1 cell and
`size_ == 1`, and after `shrink_to_fit()` on `"abc"` the block has 3 cells and `size_ == 3`: the
cell at index `length` is outside the block, and the write of the terminator by `c_str()`,
`data()` and `operator[](length)` is out of bounds.  `reallocate`, `reinsert` and `reserve`
allocate exactly `cap_` cells, while the constructors allocate `count + 1`. -/
theorem terminator_slot_outside_block :
    (push_back examples.default_constructed 'a').bind
        (fun r => Res.ok (r.size_, r.cap_, r.buffer_.length))
      = Res.ok (1, 1, 1) ∧
    (push_back examples.default_constructed 'a').bind c_str
      = Res.fault Fault.undefined_behaviour ∧
    (push_back examples.default_constructed 'a').bind data
      = Res.fault Fault.undefined_behaviour ∧
    (push_back examples.default_constructed 'a').bind (fun r => subscript_state r r.size_)
      = Res.fault Fault.undefined_behaviour ∧
    represents examples.abc ['a', 'b', 'c'] ∧
    (shrink_to_fit examples.abc).bind (fun r => Res.ok (r.size_, r.cap_, r.buffer_.length))
      = Res.ok (3, 3, 3) ∧
    (shrink_to_fit examples.abc).bind c_str = Res.fault Fault.undefined_behaviour ∧
    (c_str examples.abc).bind (fun r => Res.ok (r.buffer_.take 4))
      = Res.ok [some 'a', some 'b', some 'c', some 0] := by
  decide

/-- C29. For every string `A`, move construction and move assignment from `A` produce a
destination whose members (so its content, length and capacity) are those `A` had before, and
leave `A` with length 0, capacity 0 and no buffer. -/
theorem move_transfers_members_and_empties_source (a d : base_string α) :
    ((move_construct a).1 = a ∧ content (move_construct a).1 = content a ∧
      (move_construct a).1.size_ = a.size_ ∧ capacity (move_construct a).1 = capacity a ∧
      (move_construct a).2 = { buffer_ := [], size_ := 0, cap_ := 0 }) ∧
    ((move_assign d a).1 = a ∧ content (move_assign d a).1 = content a ∧
      (move_assign d a).1.size_ = a.size_ ∧ capacity (move_assign d a).1 = capacity a ∧
      (move_assign d a).2 = { buffer_ := [], size_ := 0, cap_ := 0 }) :=
  ⟨⟨rfl, rfl, rfl, rfl, rfl⟩, ⟨rfl, rfl, rfl, rfl, rfl⟩⟩

/-- C30. Default construction always yields a valid empty instance: length 0, `empty()` true and
`capacity()` 0, both when the initial allocation succeeds and when it fails; `try_init` is total
and absorbs the allocation failure, so none is surfaced to the caller. -/
theorem default_construction_yields_empty (alloc_ok : Bool) :
    (try_init alloc_ok : base_string α).size_ = 0 ∧
    empty (try_init alloc_ok : base_string α) = true ∧
    capacity (try_init alloc_ok : base_string α) = 0 ∧
    represents (try_init alloc_ok : base_string α) [] ∧
    ((try_init alloc_ok : base_string α).buffer_ = [] ↔ alloc_ok = false) := by
  cases alloc_ok <;> simp [try_init, empty, capacity, represents, allocate, STRING_INIT_SIZE,
    SIZE_MOD]

end base_string

namespace base_string
variable {α : Type}

/-! ## The terminator, runs of `push_back`, growth and the splice of `insert` -/

theorem to_raw_pointer_spec [Zero α] (s : base_string α) (S : List α) (hs : represents s S)
    (hroom : s.size_ < s.buffer_.length) :
    ∃ s', to_raw_pointer s = Res.ok s' ∧ s'.size_ = s.size_ ∧ s'.cap_ = s.cap_ ∧
      represents s' S ∧ s'.buffer_[S.length]? = some (some 0) ∧
      s'.buffer_.length = s.buffer_.length := by
  have hs0 := hs
  obtain ⟨hsz, hc, hcap, hlen, hmod⟩ := hs
  unfold to_raw_pointer
  rw [store_eq _ hroom]
  simp only [Res.bind_eq, Res.ok_bind, Res.pure_eq]
  refine ⟨_, rfl, rfl, rfl, ?_, ?_, ?_⟩
  · apply represents_of_getElem?
    · exact hsz
    · intro k hk
      simp only at hk
      simp only
      rw [List.getElem?_set_ne (by omega)]
      exact represents_getElem? hs0 hk
    · exact hcap
    · simp only [List.length_set]
      exact hlen
    · simp only [List.length_set]
      exact hmod
  · simp only
    rw [← hsz, List.getElem?_set_self hroom]
  · simp only [List.length_set]

theorem push_back_all_spec : ∀ (cs : List α) (s : base_string α) (S : List α),
    represents s S → S.length + cs.length ≤ npos →
    ∃ s', push_back_all s cs = Res.ok s' ∧ represents s' (S ++ cs) := by
  have hnp : npos + 1 = SIZE_MOD := by decide
  intro cs
  induction cs with
  | nil =>
    intro s S hs _
    exact ⟨s, rfl, by simpa using hs⟩
  | cons c cs ih =>
    intro s S hs hlen
    simp only [List.length_cons] at hlen
    have hsz := hs.1
    have hcap := hs.2.2.1
    obtain ⟨s1, h1, hr1, _⟩ := append_spec s S 1 c hs (by omega)
    obtain ⟨s', h', hr'⟩ := ih s1 (S ++ [c]) (by simpa using hr1)
      (by simp only [List.length_append, List.length_singleton]; omega)
    refine ⟨s', ?_, by simpa using hr'⟩
    simp only [push_back_all, push_back, h1, Res.bind_eq, Res.ok_bind]
    exact h'

theorem reallocate_and_fill_ok {s : base_string α} {pos n : Nat} {ch : α}
    {r : base_string α × Nat} (h : reallocate_and_fill s pos n ch = Res.ok r) :
    r.1.cap_ = max (add_sz s.cap_ n) (add_sz s.cap_ (s.cap_ / 2)) ∧ r.2 = pos := by
  unfold reallocate_and_fill at h
  simp only [Res.bind_eq, Res.pure_eq] at h
  obtain ⟨_, _, h⟩ := Res.bind_eq_ok h
  obtain ⟨_, _, h⟩ := Res.bind_eq_ok h
  obtain ⟨_, _, h⟩ := Res.bind_eq_ok h
  injection h with h
  subst h
  exact ⟨rfl, rfl⟩

theorem reallocate_and_copy_ok {s : base_string α} {pos first last : Nat}
    {src : List (Cell α)} {r : base_string α × Nat}
    (h : reallocate_and_copy s pos src first last = Res.ok r) :
    r.1.cap_ = max (add_sz s.cap_ (sub_sz last first)) (add_sz s.cap_ (s.cap_ / 2)) ∧
      r.2 = pos := by
  unfold reallocate_and_copy at h
  simp only [Res.bind_eq, Res.pure_eq] at h
  obtain ⟨_, _, h⟩ := Res.bind_eq_ok h
  obtain ⟨_, _, h⟩ := Res.bind_eq_ok h
  obtain ⟨_, _, h⟩ := Res.bind_eq_ok h
  injection h with h
  subst h
  exact ⟨rfl, rfl⟩

theorem reallocate_and_fill_spec (s : base_string α) (S : List α) (pos n : Nat) (ch : α)
    (hs : represents s S) (hpos : pos ≤ S.length) (hw : s.cap_ + n < SIZE_MOD) :
    ∃ s', reallocate_and_fill s pos n ch = Res.ok (s', pos) ∧
      represents s' (S.take pos ++ List.replicate n ch ++ S.drop pos) ∧
      s'.cap_ = max (s.cap_ + n) (add_sz s.cap_ (s.cap_ / 2)) := by
  have hs0 := hs
  obtain ⟨hsz, hc, hcap, hlen, hmod⟩ := hs
  have e1 : add_sz s.cap_ n = s.cap_ + n := add_sz_eq hw
  have e2 : add_sz s.cap_ (s.cap_ / 2) < SIZE_MOD := Nat.mod_lt _ (by decide)
  have e3 : sub_sz s.size_ pos = s.size_ - pos := sub_sz_eq (by omega) (by omega)
  have e4 : add_sz s.size_ n = s.size_ + n := add_sz_eq (by omega)
  obtain ⟨b1, hb1, l1, g1⟩ := char_traits.copy_spec s.buffer_ pos
    (allocate (max (s.cap_ + n) (add_sz s.cap_ (s.cap_ / 2)))) 0 0
    (by rw [allocate_length]; omega) (by omega)
  rw [allocate_length] at l1
  obtain ⟨b2, hb2, l2, g2⟩ := char_traits.fill_spec ch n b1 pos (by omega)
  obtain ⟨b3, hb3, l3, g3⟩ := char_traits.copy_spec s.buffer_ (s.size_ - pos) b2 (pos + n) pos
    (by omega) (by omega)
  unfold reallocate_and_fill char_traits.move_blocks
  simp only [e1, e3, e4, hb1, hb2, hb3, Res.bind_eq, Res.ok_bind, Res.pure_eq]
  refine ⟨_, rfl, ?_, rfl⟩
  apply represents_of_getElem?
  · simp only [List.length_append, List.length_take, List.length_replicate, List.length_drop]
    omega
  · intro k hk
    simp only at hk
    simp only
    rw [g3 k, g2 k, g1 k]
    by_cases h1 : k < pos
    · rw [if_neg (by omega), if_neg (by omega), if_pos (by omega),
        List.append_assoc,
        List.getElem?_append_left (by rw [List.length_take]; omega), List.getElem?_take,
        if_pos h1]
      simpa using represents_getElem? hs0 (show k < s.size_ by omega)
    · rw [List.append_assoc,
        List.getElem?_append_right (by rw [List.length_take]; omega), List.length_take,
        show min pos S.length = pos by omega]
      by_cases h2 : k < pos + n
      · rw [if_neg (by omega), if_pos (by omega),
          List.getElem?_append_left (by rw [List.length_replicate]; omega),
          List.getElem?_replicate, if_pos (by omega)]
        rfl
      · rw [if_pos (by omega),
          List.getElem?_append_right (by rw [List.length_replicate]; omega),
          List.length_replicate, List.getElem?_drop,
          show pos + (k - pos - n) = pos + (k - (pos + n)) by omega]
        exact represents_getElem? hs0 (by omega)
  · simp only
    omega
  · simp only
    omega
  · simp only
    omega

theorem copy_zero (dst src : List (Cell α)) (d s : Nat) :
    char_traits.copy dst d src s 0 = Res.ok dst := rfl

theorem insert_count_end_eq_append (s : base_string α) (S : List α) (n : Nat) (ch : α)
    (hs : represents s S) (hn : S.length + n ≤ npos) :
    (insert_count s s.size_ n ch).bind (fun r => Res.ok r.1) = append s n ch := by
  have hnp : npos + 1 = SIZE_MOD := by decide
  obtain ⟨hsz, hc, hcap, hlen, hmod⟩ := hs
  have e0 : sub_sz npos n = npos - n := sub_sz_eq (by omega) (by omega)
  have e3 : sub_sz s.size_ s.size_ = 0 := by
    rw [sub_sz_eq (le_refl _) (by omega)]
    omega
  have hle : ¬ s.size_ > npos - n := by
    unfold npos SIZE_MOD at *
    omega
  unfold insert_count append
  rw [e0, if_neg hle]
  by_cases h0 : n = 0
  · subst h0
    have e4 : add_sz s.size_ 0 = s.size_ := add_sz_eq (by omega)
    rw [if_pos rfl, if_neg (by omega)]
    simp only [char_traits.fill, Res.bind_eq, Res.pure_eq, Res.ok_bind, e4]
  · rw [if_neg h0]
    by_cases hg : sub_sz s.cap_ s.size_ < n
    · rw [if_pos hg, if_pos hg]
      unfold reallocate_and_fill reallocate char_traits.move_blocks
      simp only [e3, copy_zero, Res.bind_eq, Res.pure_eq]
      cases char_traits.copy (allocate (max (add_sz s.cap_ n) (add_sz s.cap_ (s.cap_ / 2))))
          0 s.buffer_ 0 s.size_ with
      | fault f => rfl
      | ok b1 =>
        simp only [Res.ok_bind]
        cases char_traits.fill b1 s.size_ ch n with
        | fault f => rfl
        | ok b2 => rfl
    · rw [if_neg hg, if_neg hg, if_pos rfl]
      simp only [Res.bind_eq, Res.pure_eq, Res.ok_bind]
      cases char_traits.fill s.buffer_ s.size_ ch n with
      | fault f => rfl
      | ok b => rfl

end base_string

/-! ## The claims on the raw view, the scenarios, growth and the splice -/

namespace base_string
variable {α : Type}

/-- C31. For every string `S` whose block has more than `length(S)` cells, `c_str()` and `data()`
return and expose a run whose first `length(S)` elements are the elements of `S` in order and
whose element at index `length(S)` is the zero character; the length, the capacity and the first
`length(S)` elements of the string are unchanged. -/
theorem c_str_exposes_terminated_run [Zero α] (s : base_string α) (S : List α)
    (hs : represents s S) (hroom : S.length < s.buffer_.length) :
    ∃ s', c_str s = Res.ok s' ∧ data s = Res.ok s' ∧
      s'.buffer_.take (S.length + 1) = S.map some ++ [some 0] ∧
      s'.size_ = s.size_ ∧ content s' = content s ∧ capacity s' = capacity s := by
  obtain ⟨s', h, hsz, hcap, hr, hz, _⟩ := to_raw_pointer_spec s S hs (by rw [hs.1]; exact hroom)
  refine ⟨s', h, h, ?_, hsz, ?_, hcap⟩
  · rw [List.take_succ, hz, ← hr.1, hr.2.1]
    rfl
  · unfold content
    rw [hr.2.1, hs.2.1]

theorem c_str_exposes_terminated_run_witness :
    represents examples.abc ['a', 'b', 'c'] ∧
    ['a', 'b', 'c'].length < examples.abc.buffer_.length ∧
    ∃ s', c_str examples.abc = Res.ok s' ∧ data examples.abc = Res.ok s' ∧
      s'.buffer_.take (['a', 'b', 'c'].length + 1) = ['a', 'b', 'c'].map some ++ [some 0] ∧
      s'.size_ = examples.abc.size_ ∧ content s' = content examples.abc ∧
      capacity s' = capacity examples.abc :=
  ⟨by decide, by decide,
    c_str_exposes_terminated_run examples.abc ['a', 'b', 'c'] (by decide) (by decide)⟩

/-- C32. For the string `S` constructed from `"hello world"`: `S.find("world")` returns 6; then
`S.replace(0, 5, "HELLO")` makes the content `"HELLO world"`; then `S.rfind('o')` returns 7; then
erasing the element at index 5 makes the content `"HELLOworld"` with length 10. -/
theorem hello_world_scenario :
    of_cstr ("hello world".toList ++ [0]) = Res.ok examples.hello_world ∧
    find_cstr examples.hello_world ['w', 'o', 'r', 'l', 'd', 0] 0 = Res.ok 6 ∧
    (replace_cptr examples.hello_world 0 5 ['H', 'E', 'L', 'L', 'O', 0]).bind
        (fun s1 => Res.ok (s1.size_, content s1))
      = Res.ok (11, "HELLO world".toList.map some) ∧
    ((replace_cptr examples.hello_world 0 5 ['H', 'E', 'L', 'L', 'O', 0]).bind
        fun s1 => rfind_ch s1 'o' npos)
      = Res.ok 7 ∧
    ((replace_cptr examples.hello_world 0 5 ['H', 'E', 'L', 'L', 'O', 0]).bind
        fun s1 => (erase s1 5).bind fun r => Res.ok (r.1.size_, content r.1))
      = Res.ok (10, "HELLOworld".toList.map some) := by
  decide

/-- C33. For every sequence of characters `c1..ck` with `k <= max_size()`, starting from a
default-constructed string (whether or not its initial allocation succeeded) the calls
`push_back(c1), ..., push_back(ck)` all return and yield a string of length `k` whose content is
exactly `c1..ck` in order, however many capacity boundaries are crossed. -/
theorem push_back_run_preserves_content (alloc_ok : Bool) (cs : List α)
    (hk : cs.length ≤ max_size) :
    ∃ s', push_back_all (try_init alloc_ok) cs = Res.ok s' ∧ s'.size_ = cs.length ∧
      content s' = cs.map some ∧ represents s' cs := by
  have h0 : represents (try_init alloc_ok : base_string α) [] := by
    cases alloc_ok <;> simp [try_init, represents, allocate, STRING_INIT_SIZE, SIZE_MOD]
  obtain ⟨s', h, hr⟩ := push_back_all_spec cs (try_init alloc_ok) [] h0
    (by simpa [max_size] using hk)
  rw [List.nil_append] at hr
  exact ⟨s', h, hr.1, hr.2.1, hr⟩

theorem push_back_run_preserves_content_witness :
    "hello world".toList.length ≤ max_size ∧
    ∃ s', push_back_all (try_init true) "hello world".toList = Res.ok s' ∧
      s'.size_ = "hello world".toList.length ∧
      content s' = "hello world".toList.map some ∧ represents s' "hello world".toList :=
  ⟨by decide, push_back_run_preserves_content true "hello world".toList (by decide)⟩

/-- C34 (counterexample). After default construction and `push_back` of `a`, `b`, `c` the
capacity is 3; the next `push_back` grows (`reallocate(1)`) to `max(3 + 1, 3 + (3 >> 1)) = 4`,
and `2 * 4 = 8 < 9 = 3 * 3`. -/
theorem growth_below_three_halves :
    ((push_back_all examples.default_constructed ['a', 'b', 'c']).bind fun s =>
      (push_back s 'd').bind fun s1 => Res.ok (capacity s, s.size_, capacity s1))
      = Res.ok (3, 3, 4) ∧
    ((push_back_all examples.default_constructed ['a', 'b', 'c']).bind fun s =>
      (reallocate s 1).bind fun s1 => Res.ok (capacity s, capacity s1))
      = Res.ok (3, 4) ∧
    ¬ (2 * 4 ≥ 3 * 3) := by
  decide

/-- C34 (amended). Whenever an implicit growth occurs with a needed amount `>= 1` such that
`cap + needed` and `cap + floor(cap / 2)` do not exceed `max_size()`, the new capacity is
`max(cap + needed, cap + floor(cap / 2))`; it is greater than the prior capacity and satisfies
`2 * new_cap + 1 >= 3 * old_cap`, and `2 * new_cap >= 3 * old_cap` when the prior capacity is
even.  This holds for `reallocate`, `reallocate_and_fill` and `reallocate_and_copy`. -/
theorem growth_at_least_three_halves_rounded_down (s : base_string α) (S : List α)
    (need : Nat) (hs : represents s S) (h1 : 1 ≤ need) (hw1 : capacity s + need ≤ max_size)
    (hw2 : capacity s + capacity s / 2 ≤ max_size) :
    (∃ s', reallocate s need = Res.ok s' ∧
      capacity s' = max (capacity s + need) (capacity s + capacity s / 2) ∧
      3 * capacity s ≤ 2 * capacity s' + 1 ∧
      (capacity s % 2 = 0 → 3 * capacity s ≤ 2 * capacity s') ∧
      capacity s < capacity s') ∧
    (∀ pos ch r, reallocate_and_fill s pos need ch = Res.ok r →
      capacity r.1 = max (capacity s + need) (capacity s + capacity s / 2) ∧
      3 * capacity s ≤ 2 * capacity r.1 + 1 ∧
      (capacity s % 2 = 0 → 3 * capacity s ≤ 2 * capacity r.1)) ∧
    (∀ pos src first last r, sub_sz last first = need →
      reallocate_and_copy s pos src first last = Res.ok r →
      capacity r.1 = max (capacity s + need) (capacity s + capacity s / 2) ∧
      3 * capacity s ≤ 2 * capacity r.1 + 1 ∧
      (capacity s % 2 = 0 → 3 * capacity s ≤ 2 * capacity r.1)) := by
  have hnp : npos + 1 = SIZE_MOD := by decide
  unfold capacity max_size at *
  have e1 : add_sz s.cap_ need = s.cap_ + need := add_sz_eq (by omega)
  have e2 : add_sz s.cap_ (s.cap_ / 2) = s.cap_ + s.cap_ / 2 := add_sz_eq (by omega)
  refine ⟨?_, ?_, ?_⟩
  · obtain ⟨s', h, _, hc, _⟩ := reallocate_spec s S need hs (by omega)
    rw [e2] at hc
    exact ⟨s', h, hc, by omega, by omega, by omega⟩
  · intro pos ch r h
    have hc := (reallocate_and_fill_ok h).1
    rw [e1, e2] at hc
    exact ⟨hc, by omega, by omega⟩
  · intro pos src first last r hneed h
    have hc := (reallocate_and_copy_ok h).1
    rw [hneed, e1, e2] at hc
    exact ⟨hc, by omega, by omega⟩

theorem growth_at_least_three_halves_rounded_down_witness :
    represents examples.abc ['a', 'b', 'c'] ∧ 1 ≤ 40 ∧ capacity examples.abc + 40 ≤ max_size ∧
    capacity examples.abc + capacity examples.abc / 2 ≤ max_size ∧
    ∃ s', reallocate examples.abc 40 = Res.ok s' ∧
      capacity s' = max (capacity examples.abc + 40)
        (capacity examples.abc + capacity examples.abc / 2) ∧
      3 * capacity examples.abc ≤ 2 * capacity s' + 1 ∧
      (capacity examples.abc % 2 = 0 → 3 * capacity examples.abc ≤ 2 * capacity s') ∧
      capacity examples.abc < capacity s' :=
  ⟨by decide, by decide, by decide, by decide,
    (growth_at_least_three_halves_rounded_down examples.abc ['a', 'b', 'c'] 40 (by decide)
      (by decide) (by decide) (by decide)).1⟩

/-- C35. For every string `S` with capacity `cap` and every `append(n, ch)` with
`n > cap - length(S)` for which `cap + n` and `cap + floor(cap / 2)` do not exceed `max_size()`
(no arithmetic overflow), the call returns and the capacity afterwards is exactly
`max(cap + n, cap + floor(cap / 2))`, which is at least `length(S) + n`; when
`n <= cap - length(S)` the call returns and the capacity is unchanged. -/
theorem append_capacity_follows_growth_policy (s : base_string α) (S : List α) (n : Nat)
    (ch : α) (hs : represents s S)
    (hw : n ≤ capacity s - S.length ∨
      (capacity s + n ≤ max_size ∧ capacity s + capacity s / 2 ≤ max_size)) :
    ∃ s', append s n ch = Res.ok s' ∧ represents s' (S ++ List.replicate n ch) ∧
      (capacity s - S.length < n →
        capacity s' = max (capacity s + n) (capacity s + capacity s / 2) ∧
        S.length + n ≤ capacity s') ∧
      (n ≤ capacity s - S.length → capacity s' = capacity s) := by
  have hnp : npos + 1 = SIZE_MOD := by decide
  unfold capacity max_size at *
  have hsz := hs.1
  have hcap := hs.2.2.1
  obtain ⟨s', h, hr, hc⟩ := append_spec s S n ch hs (by omega)
  refine ⟨s', h, hr, ?_, ?_⟩
  · intro hg
    have e2 : add_sz s.cap_ (s.cap_ / 2) = s.cap_ + s.cap_ / 2 := add_sz_eq (by omega)
    rw [if_neg (by omega), e2] at hc
    exact ⟨hc, by omega⟩
  · intro hg
    rw [if_pos (by omega)] at hc
    exact hc

theorem append_capacity_follows_growth_policy_witness :
    represents examples.abcd ['a', 'b', 'c', 'd'] ∧
    (40 ≤ capacity examples.abcd - ['a', 'b', 'c', 'd'].length ∨
      (capacity examples.abcd + 40 ≤ max_size ∧
        capacity examples.abcd + capacity examples.abcd / 2 ≤ max_size)) ∧
    ∃ s', append examples.abcd 40 'x' = Res.ok s' ∧
      represents s' (['a', 'b', 'c', 'd'] ++ List.replicate 40 'x') ∧
      (capacity examples.abcd - ['a', 'b', 'c', 'd'].length < 40 →
        capacity s' = max (capacity examples.abcd + 40)
          (capacity examples.abcd + capacity examples.abcd / 2) ∧
        ['a', 'b', 'c', 'd'].length + 40 ≤ capacity s') ∧
      (40 ≤ capacity examples.abcd - ['a', 'b', 'c', 'd'].length →
        capacity s' = capacity examples.abcd) :=
  ⟨by decide, by decide,
    append_capacity_follows_growth_policy examples.abcd ['a', 'b', 'c', 'd'] 40 'x' (by decide)
      (by decide)⟩

/-- C36 (code bug). For the string `""` built by `base_string("", 0)` (capacity 35),
`pos = 0` and `n = npos - 10` the conditions `pos <= length(S)`, `n >= 1` and
`n > cap - length(S)` hold (and `length(S) + n <= max_size`), yet `insert(begin(), n, 'x')` does
not yield a string: `old_cap + n` wraps to 24 in `reallocate_and_fill` (line 1808), 52 cells are
allocated and `fill` writes past them. -/
theorem insert_count_growth_wraps :
    of_run ([] : List Char) 0 = Res.ok examples.empty_35 ∧
    represents examples.empty_35 [] ∧
    0 ≤ ([] : List Char).length ∧ 1 ≤ npos - 10 ∧
    capacity examples.empty_35 - ([] : List Char).length < npos - 10 ∧
    ([] : List Char).length + (npos - 10) ≤ max_size ∧
    max (add_sz (capacity examples.empty_35) (npos - 10))
      (add_sz (capacity examples.empty_35) (capacity examples.empty_35 / 2)) = 52 ∧
    insert_count examples.empty_35 0 (npos - 10) 'x' = Res.fault Fault.undefined_behaviour := by
  decide

/-- What `insert(begin()+pos, n, ch)` does on the growth path when the sums of
`reallocate_and_fill` do not wrap: for every string `S` with capacity `cap`, position
`pos <= length(S)`, count `n >= 1` with `n > cap - length(S)` such that `cap + n` and
`cap + floor(cap / 2)` do not exceed `max_size()`, and character `ch`, the call is one call of
`reallocate_and_fill` whose result is `S[0..pos) ++ (n copies of ch) ++ S[pos..length(S))`, with
length `length(S) + n` and capacity `max(cap + n, cap + floor(cap / 2))`, and the returned
position is index `pos` of the new buffer. -/
theorem insert_count_growth_splices (s : base_string α) (S : List α) (pos n : Nat) (ch : α)
    (hs : represents s S) (hpos : pos ≤ S.length) (h1 : 1 ≤ n)
    (hg : capacity s - S.length < n) (hw1 : capacity s + n ≤ max_size)
    (hw2 : capacity s + capacity s / 2 ≤ max_size) :
    ∃ s', insert_count s pos n ch = Res.ok (s', pos) ∧
      insert_count s pos n ch = reallocate_and_fill s pos n ch ∧
      represents s' (S.take pos ++ List.replicate n ch ++ S.drop pos) ∧
      s'.size_ = S.length + n ∧
      capacity s' = max (capacity s + n) (capacity s + capacity s / 2) := by
  have hnp : npos + 1 = SIZE_MOD := by decide
  unfold capacity max_size at *
  have hsz := hs.1
  have hcap := hs.2.2.1
  have hlen := hs.2.2.2.1
  have hmod := hs.2.2.2.2
  have e0 : sub_sz s.cap_ s.size_ = s.cap_ - s.size_ := sub_sz_eq hcap (by omega)
  have e2 : add_sz s.cap_ (s.cap_ / 2) = s.cap_ + s.cap_ / 2 := add_sz_eq (by omega)
  have hi : insert_count s pos n ch = reallocate_and_fill s pos n ch := by
    unfold insert_count
    rw [if_neg (by omega), e0, if_pos (by omega)]
  obtain ⟨s', h, hr, hc⟩ := reallocate_and_fill_spec s S pos n ch hs hpos (by omega)
  rw [e2] at hc
  refine ⟨s', by rw [hi, h], hi, hr, ?_, hc⟩
  rw [hr.1]
  simp only [List.length_append, List.length_take, List.length_replicate, List.length_drop]
  omega

theorem insert_count_growth_splices_witness :
    represents examples.abc ['a', 'b', 'c'] ∧ 1 ≤ ['a', 'b', 'c'].length ∧ 1 ≤ 40 ∧
    capacity examples.abc - ['a', 'b', 'c'].length < 40 ∧
    capacity examples.abc + 40 ≤ max_size ∧
    capacity examples.abc + capacity examples.abc / 2 ≤ max_size ∧
    ∃ s', insert_count examples.abc 1 40 'x' = Res.ok (s', 1) ∧
      insert_count examples.abc 1 40 'x' = reallocate_and_fill examples.abc 1 40 'x' ∧
      represents s' (['a', 'b', 'c'].take 1 ++ List.replicate 40 'x' ++ ['a', 'b', 'c'].drop 1) ∧
      s'.size_ = ['a', 'b', 'c'].length + 40 ∧
      capacity s' = max (capacity examples.abc + 40)
        (capacity examples.abc + capacity examples.abc / 2) :=
  ⟨by decide, by decide, by decide, by decide, by decide, by decide,
    insert_count_growth_splices examples.abc ['a', 'b', 'c'] 1 40 'x' (by decide) (by decide)
      (by decide) (by decide) (by decide) (by decide)⟩

/-- How `insert(end(), n, ch)` and `append(n, ch)` compare: for every string `S`, count `n`
(including 0) and character `ch` with `length(S) + n <= max_size()` the two calls end the same
way and leave the same members, and when no growth is needed or `cap + n <= max_size()` both
return the string `S ++ (n copies of ch)`, `insert` returning the position `length(S)`; and
`insert(pos, 0, ch)` at any `pos` leaves all members unchanged. -/
theorem insert_at_end_equals_append (s : base_string α) (S : List α) (n : Nat) (ch : α)
    (hs : represents s S) (hn : S.length + n ≤ max_size) :
    (insert_count s s.size_ n ch).bind (fun r => Res.ok r.1) = append s n ch ∧
    (n ≤ capacity s - S.length ∨ capacity s + n ≤ max_size →
      ∃ s', append s n ch = Res.ok s' ∧ insert_count s s.size_ n ch = Res.ok (s', S.length) ∧
        represents s' (S ++ List.replicate n ch)) ∧
    ∀ pos, insert_count s pos 0 ch = Res.ok (s, pos) := by
  have hnp : npos + 1 = SIZE_MOD := by decide
  have heq := insert_count_end_eq_append s S n ch hs (by simpa [max_size] using hn)
  unfold capacity max_size at *
  have hsz := hs.1
  refine ⟨heq, ?_, ?_⟩
  · intro hw
    obtain ⟨s', h, hr, _⟩ := append_spec s S n ch hs (by omega)
    refine ⟨s', h, ?_, hr⟩
    rw [h] at heq
    obtain ⟨r, hr1, hr2⟩ := Res.bind_eq_ok heq
    injection hr2 with hr2
    have hp : r.2 = s.size_ := by
      unfold insert_count at hr1
      simp only [Res.bind_eq, Res.pure_eq] at hr1
      split at hr1
      · injection hr1 with hr1
        rw [← hr1]
      · split at hr1
        · exact (reallocate_and_fill_ok hr1).2
        · rw [if_pos True.intro] at hr1
          obtain ⟨_, _, hr1⟩ := Res.bind_eq_ok hr1
          injection hr1 with hr1
          rw [← hr1]
    rw [hr1, ← hsz, ← hp, ← hr2]
  · intro pos
    unfold insert_count
    rw [if_pos rfl]
    rfl

theorem insert_at_end_equals_append_witness :
    represents examples.abc ['a', 'b', 'c'] ∧ ['a', 'b', 'c'].length + 40 ≤ max_size ∧
    (insert_count examples.abc examples.abc.size_ 40 'x').bind (fun r => Res.ok r.1)
      = append examples.abc 40 'x' ∧
    (40 ≤ capacity examples.abc - ['a', 'b', 'c'].length ∨
        capacity examples.abc + 40 ≤ max_size →
      ∃ s', append examples.abc 40 'x' = Res.ok s' ∧
        insert_count examples.abc examples.abc.size_ 40 'x'
          = Res.ok (s', ['a', 'b', 'c'].length) ∧
        represents s' (['a', 'b', 'c'] ++ List.replicate 40 'x')) ∧
    ∀ pos, insert_count examples.abc pos 0 'x' = Res.ok (examples.abc, pos) :=
  ⟨by decide, by decide,
    insert_at_end_equals_append examples.abc ['a', 'b', 'c'] 40 'x' (by decide) (by decide)⟩

/-- C37 (code bug). For the string `""` built by `base_string("", 0)` (capacity 35) and
`n = npos - 10` the condition `length(S) + n <= max_size()` holds, yet neither
`insert(end(), n, 'x')` nor `append(n, 'x')` produces a string: in both the sum `cap + n` of the
growth computation (lines 1808 and 1793) wraps to 24, 52 cells are allocated and `fill` writes
past them.  With `n = 40`, where the sum does not wrap, both produce the same string of length 40
and capacity 75. -/
theorem insert_at_end_and_append_write_past_block :
    of_run ([] : List Char) 0 = Res.ok examples.empty_35 ∧
    represents examples.empty_35 [] ∧
    ([] : List Char).length + (npos - 10) ≤ max_size ∧
    add_sz (capacity examples.empty_35) (npos - 10) = 24 ∧
    insert_count examples.empty_35 examples.empty_35.size_ (npos - 10) 'x'
      = Res.fault Fault.undefined_behaviour ∧
    append examples.empty_35 (npos - 10) 'x' = Res.fault Fault.undefined_behaviour ∧
    (insert_count examples.empty_35 examples.empty_35.size_ 40 'x').bind (fun r => Res.ok r.1)
      = append examples.empty_35 40 'x' ∧
    (append examples.empty_35 40 'x').bind (fun r => Res.ok (r.size_, capacity r))
      = Res.ok (40, 75) := by
  decide

end base_string

/-- C38. For `char_traits::move` on one buffer `B`, for all offsets `d`, `s` and count `n` with
`d + n <= |B|` and `s + n <= |B|` (the ranges may overlap in either direction or coincide), the
call returns a buffer `B'` of the same size with `B'[d + i] == B[s + i]` for every `i < n` and
`B'[k] == B[k]` for every `k` outside `[d, d + n)`. -/
theorem move_is_correct_under_overlap {α : Type} (b : List (Cell α)) (d s n : Nat)
    (hd : d + n ≤ b.length) (hs : s + n ≤ b.length) :
    ∃ r, char_traits.move b d s n = Res.ok r ∧ r.length = b.length ∧
      (∀ i, i < n → r[d + i]? = b[s + i]?) ∧
      (∀ k, ¬ (d ≤ k ∧ k < d + n) → r[k]? = b[k]?) := by
  obtain ⟨r, h, hl, hg⟩ := char_traits.move_spec b d s n hd hs
  refine ⟨r, h, hl, ?_, ?_⟩
  · intro i hi
    rw [hg (d + i), if_pos (by omega), show d + i - d = i by omega]
  · intro k hk
    rw [hg k, if_neg hk]

theorem move_is_correct_under_overlap_witness :
    1 + 3 ≤ [some 'a', some 'b', some 'c', some 'd', none].length ∧
    0 + 3 ≤ [some 'a', some 'b', some 'c', some 'd', none].length ∧
    char_traits.move [some 'a', some 'b', some 'c', some 'd', none] 1 0 3
      = Res.ok [some 'a', some 'a', some 'b', some 'c', none] ∧
    ∃ r, char_traits.move [some 'a', some 'b', some 'c', some 'd', none] 1 0 3 = Res.ok r ∧
      r.length = [some 'a', some 'b', some 'c', some 'd', none].length ∧
      (∀ i, i < 3 → r[1 + i]? = [some 'a', some 'b', some 'c', some 'd', none][0 + i]?) ∧
      (∀ k, ¬ (1 ≤ k ∧ k < 1 + 3) →
        r[k]? = [some 'a', some 'b', some 'c', some 'd', none][k]?) :=
  ⟨by decide, by decide, by decide,
    move_is_correct_under_overlap [some 'a', some 'b', some 'c', some 'd', none] 1 0 3
      (by decide) (by decide)⟩

namespace base_string

/-- C39 (code bug). The backward searches read outside the string.  On `"a"` the call
`find_last_not_of('a')` (default `pos = 0`, nothing matches) steps from index 0 to
`2^64 - 1` and reads there, and so does `find_last_of('x')` on `"abc"`: the loop condition
`i >= pos` never fails for `pos = 0`.  On the empty string `find_last_not_of('a')`, and `rfind('x')`
with the default `pos = npos`, read index `size_ - 1 = 2^64 - 1` at once.  With the one-character
pattern `"x"`, the counted `rfind` on `"abc"` steps below index 0 as well.  None of these calls
returns `npos`. -/
theorem backward_searches_read_outside_string :
    represents examples.a_string ['a'] ∧ represents examples.abc ['a', 'b', 'c'] ∧
    represents examples.empty_35 [] ∧
    sub_sz 0 1 = npos ∧
    find_last_not_of_ch examples.a_string 'a' 0 = Res.fault Fault.undefined_behaviour ∧
    find_last_of_ch examples.abc 'x' 0 = Res.fault Fault.undefined_behaviour ∧
    find_last_not_of_ch examples.empty_35 'a' 0 = Res.fault Fault.undefined_behaviour ∧
    rfind_ch examples.empty_35 'x' npos = Res.fault Fault.undefined_behaviour ∧
    rfind_n examples.abc ['x'] npos 1 = Res.fault Fault.undefined_behaviour ∧
    find_last_not_of_ch examples.abc 'a' 0 = Res.ok 2 ∧
    rfind_ch examples.abc 'x' npos = Res.ok npos := by
  decide

/-- C40 (code bug). For `S = "abc"` and `T = "ab"` the call `S.replace(0, 1, T, 0)` with `count2`
omitted (`npos`) raises `length_error` instead of producing `"abbc"`: `count2` reaches
`replace_cstr` unclamped, so `add = npos - 1` and the guard `size_ > max_size() - add` holds.  With
`count2 = 2 = length(T) - pos2` the call does produce `"abbc"`; with `count2 = 5` it copies 5 cells
of the block of `T` (3 of them indeterminate) instead of `min(5, 2) = 2`. -/
theorem replace_sub_count_not_clamped :
    represents examples.abc ['a', 'b', 'c'] ∧ represents examples.ab ['a', 'b'] ∧
    replace_sub examples.abc 0 1 examples.ab 0 npos = Res.fault Fault.length_error ∧
    replace_sub examples.abc 3 0 examples.ab 2 npos = Res.fault Fault.length_error ∧
    (replace_sub examples.abc 0 1 examples.ab 0 2).bind (fun r => Res.ok (r.size_, content r))
      = Res.ok (4, [some 'a', some 'b', some 'b', some 'c']) ∧
    (replace_sub examples.abc 0 1 examples.ab 0 5).bind (fun r => Res.ok (r.size_, content r))
      = Res.ok (7, [some 'a', some 'b', none, none, none, some 'b', some 'c']) := by
  decide

end base_string

end GHYSTL
